import Mathlib

/-!
Verification development for the `nikke` embedded storage engine
(`src/storage.rs`, `src/buffer_pool.rs`, `src/index.rs`).

The Rust source is shallowly embedded as executable Lean functions over an
explicit state record `DBState` that carries:

* `insts`    — the live `Arc<Page>` instances (index = instance identity;
               `Arc::clone` shares the index, mutation through any alias is
               `setInst` at that index);
* `pool`     — the buffer pool's `HashMap<u32, Arc<Page>>` as an association
               list from page id to instance index;
* `lru`      — the LRU `VecDeque<u32>` (front = most recently used);
* `disk`     — the on-disk file, one `PageData` per `PAGE_SIZE` slot
               (index = page id, since ids are allocated as
               `file_len / PAGE_SIZE` and the file only ever grows by whole
               pages);
* `root`     — the tree's `Arc<RwLock<Option<Arc<Page>>>>` root handle, as an
               optional instance index;
* `capacity` — the pool capacity (the tree constructor uses 100).

Fallible operations return `Option` (`none` models an `Err`/panic/diverging
call).  Lock acquisition is modelled as transparent for the functional
semantics; a separate small reader/writer-lock trace semantics at the end of
the file captures the locking behaviour of `insert` on a leaf page.
-/

set_option maxHeartbeats 4000000
set_option maxRecDepth 8000

namespace Nikke

/-- Node kind of a page (`enum NodeType` in `storage.rs`). -/
inductive NodeType where
  | Internal
  | Leaf
deriving DecidableEq, Repr

/-- Contents of one page (`struct PageData` in `storage.rs`).  The source's
key type (`pub type Key = i32`) is modelled as `Int` (keys are only compared and moved,
never computed with) and its value
type (`pub type Value = u64`) as `Nat`. -/
structure PageData where
  id : Nat
  nodeType : NodeType
  keys : List Int
  children : List Nat
  values : List Nat
  next : Option Nat
  parent_id : Option Nat
deriving DecidableEq, Repr

/-- Blank page as built by `PageData::new`. -/
def PageData.blank (id : Nat) (nt : NodeType) : PageData :=
  ⟨id, nt, [], [], [], none, none⟩

/-- Tree fan-out parameter (`pub const ORDER: usize = 4` in `index.rs`). -/
def ORDER : Nat := 4

/-- Fixed page size (`pub const PAGE_SIZE: usize = 4096` in `storage.rs`). -/
def PAGE_SIZE : Nat := 4096

/-- Three-way comparison on keys, the semantics of `i32::cmp`. -/
def icmp (a b : Int) : Ordering :=
  if a < b then .lt else if b < a then .gt else .eq

/-- Result of `slice::binary_search`: `found i` models `Ok(i)`,
`notFound i` models `Err(i)`. -/
inductive BsResult where
  | found (i : Nat)
  | notFound (i : Nat)
deriving DecidableEq, Repr

/-- The `unwrap_or_else(|e| e)` projection used by the insertion paths. -/
def BsResult.pos : BsResult → Nat
  | .found i => i
  | .notFound i => i

/-- Narrowing loop of `slice::binary_search_by` (the branchless standard
library implementation): while `size > 1`, probe `mid = base + size / 2` and
keep `base` only when the probed element is greater than the target.  The
first argument is fuel; since `size` strictly decreases, fuel `size` is
always enough, and the structural recursion keeps the function
kernel-reducible. -/
def bsLoop (keys : List Int) (k : Int) : Nat → Nat → Nat → Nat
  | 0, base, _ => base
  | fuel + 1, base, size =>
    if 1 < size then
      let half := size / 2
      let base' := match icmp (keys.getD (base + half) 0) k with
        | .gt => base
        | _ => base + half
      bsLoop keys k fuel base' (size - half)
    else base

/-- Embedding of `slice::binary_search(&key)` on a key slice. -/
def rustBinarySearch (keys : List Int) (k : Int) : BsResult :=
  if keys.length = 0 then .notFound 0
  else
    let base := bsLoop keys k keys.length 0 keys.length
    match icmp (keys.getD base 0) k with
    | .eq => .found base
    | .lt => .notFound (base + 1)
    | .gt => .notFound base

/-- Embedding of `Vec::insert(i, x)`: shifts the suffix right, and panics
(`none`) when `i > len`. -/
def vecInsert (i : Nat) (x : α) (l : List α) : Option (List α) :=
  if i ≤ l.length then some (l.take i ++ x :: l.drop i) else none

/-- Association-list lookup used to model `HashMap::get`. -/
def alookup : List (Nat × Nat) → Nat → Option Nat
  | [], _ => none
  | (a, b) :: rest, k => if a = k then some b else alookup rest k

/-- Size in bytes of the bincode (v1, fixint) encoding of a page; used by
`StorageEngine::write_page` for its `PAGE_SIZE` guard.  All claims involve
pages of at most 4 keys, far below the 4096-byte limit. -/
def encSize (pd : PageData) : Nat :=
  4 + 4 + 8 + 4 * pd.keys.length + 8 + 4 * pd.children.length +
    8 + 8 * pd.values.length + 5 + 5

/-- Global state of the engine; see the module docstring. -/
structure DBState where
  insts : List PageData
  pool : List (Nat × Nat)
  lru : List Nat
  disk : List PageData
  root : Option Nat
  capacity : Nat
deriving DecidableEq, Repr

/-- Read an instance through its `Arc` (index). -/
def getInst (s : DBState) (i : Nat) : Option PageData :=
  s.insts.get? i

/-- Mutate an instance through its `Arc` (index); models writing through the
page's `RwLock`. -/
def setInst (s : DBState) (i : Nat) (pd : PageData) : DBState :=
  { s with insts := s.insts.set i pd }

namespace StorageEngine

/-- Embedding of `StorageEngine::write_page`: serialize (fails with an error
when the encoding exceeds `PAGE_SIZE`), then write the page at offset
`id * PAGE_SIZE`.  Writing at the current end of file appends a page; a write
beyond it cannot be produced by the engine and is modelled as an error. -/
def write_page (s : DBState) (pd : PageData) : Option DBState :=
  if PAGE_SIZE < encSize pd then none
  else if pd.id < s.disk.length then some { s with disk := s.disk.set pd.id pd }
  else if pd.id = s.disk.length then some { s with disk := s.disk ++ [pd] }
  else none

/-- Embedding of `StorageEngine::read_page` (decode failure and short reads
cannot arise in the model, so only a missing page yields an error). -/
def read_page (s : DBState) (pid : Nat) : Option PageData :=
  s.disk.get? pid

/-- Embedding of `StorageEngine::allocate_page`: the next id is
`file_len / PAGE_SIZE`, and the blank page is written immediately. -/
def allocate_page (s : DBState) (nt : NodeType) : Option (DBState × PageData) :=
  let pd := PageData.blank s.disk.length nt
  (write_page s pd).map (fun s1 => (s1, pd))

end StorageEngine

namespace BufferPool

/-- LRU promotion performed on a pool hit in `BufferPool::get_page`: remove
the id from the queue if present, then push it to the front. -/
def lruPromote (lru : List Nat) (pid : Nat) : List Nat :=
  pid :: lru.erase pid

/-- Eviction step shared by `get_page` (miss path) and `allocate_page`: when
the pool is at capacity, pop the least recently used id from the back of the
queue and remove it from the pool. -/
def evictIfFull (s : DBState) : DBState :=
  if s.capacity ≤ s.pool.length then
    match s.lru.getLast? with
    | some old =>
        { s with lru := s.lru.dropLast,
                 pool := s.pool.filter (fun e => decide (e.1 ≠ old)) }
    | none => s
  else s

/-- Embedding of `BufferPool::get_page`.  A hit promotes the id in the LRU
queue and returns the cached `Arc` (instance index).  A miss reads the page
from storage, creates a fresh instance, evicts if at capacity, and inserts
the new instance as most recently used. -/
def get_page (s : DBState) (pid : Nat) : Option (DBState × Nat) :=
  match alookup s.pool pid with
  | some i => some ({ s with lru := lruPromote s.lru pid }, i)
  | none =>
    match StorageEngine.read_page s pid with
    | none => none
    | some pd =>
      let i := s.insts.length
      let s1 := evictIfFull { s with insts := s.insts ++ [pd] }
      some ({ s1 with pool := (pid, i) :: s1.pool, lru := pid :: s1.lru }, i)

/-- Embedding of `BufferPool::allocate_page`: allocate in storage, wrap the
new page in a fresh instance, evict if at capacity, insert as most recently
used. -/
def allocate_page (s : DBState) (nt : NodeType) : Option (DBState × Nat) :=
  match StorageEngine.allocate_page s nt with
  | none => none
  | some (s0, pd) =>
    let i := s0.insts.length
    let s1 := evictIfFull { s0 with insts := s0.insts ++ [pd] }
    some ({ s1 with pool := (pd.id, i) :: s1.pool, lru := pd.id :: s1.lru }, i)

/-- Embedding of `BufferPool::write_page`: read the instance's current data
and persist it through the storage engine (write-through; the pool and LRU
queue are untouched). -/
def write_page (s : DBState) (i : Nat) : Option DBState :=
  match getInst s i with
  | none => none
  | some pd => StorageEngine.write_page s pd

end BufferPool

namespace BPlusTree

/-- Child index selected during descent at an internal page, from
`find_leaf_page` in `index.rs`: `Ok(idx) => idx + 1, Err(idx) => idx` on the
result of `binary_search`. -/
def childIndex (keys : List Int) (k : Int) : Nat :=
  match rustBinarySearch keys k with
  | .found i => i + 1
  | .notFound i => i

/-- Descent loop of `BPlusTree::find_leaf_page`: starting from the root
instance, repeatedly select a child with `childIndex` and fetch it through
the buffer pool until a leaf is reached.  Errors (`InvalidChildIndex`, a
missing page) and divergence are `none`. -/
def find_leaf_loop (k : Int) : Nat → DBState → Nat → Option (DBState × Nat)
  | 0, _, _ => none
  | fuel + 1, s, cur =>
    match getInst s cur with
    | none => none
    | some d =>
      match d.nodeType with
      | .Leaf => some (s, cur)
      | .Internal =>
        let idx := childIndex d.keys k
        if idx < d.children.length then
          match BufferPool.get_page s (d.children.getD idx 0) with
          | none => none
          | some (s1, c) => find_leaf_loop k fuel s1 c
        else none

/-- Embedding of `BPlusTree::find_leaf_page`; an empty tree is the
"The tree is empty" error. -/
def find_leaf_page (fuel : Nat) (s : DBState) (k : Int) : Option (DBState × Nat) :=
  match s.root with
  | none => none
  | some r => find_leaf_loop k fuel s r

/-- Fix-up loop inside `BPlusTree::split_internal_page`: every child moved to
the new internal page is fetched through the buffer pool and its `parent_id`
is rewritten to the new page's id. -/
def fixChildren (s : DBState) (cs : List Nat) (newPid : Nat) : Option DBState :=
  match cs with
  | [] => some s
  | c :: rest =>
    match BufferPool.get_page s c with
    | none => none
    | some (s1, ci) =>
      match getInst s1 ci with
      | none => none
      | some cd => fixChildren (setInst s1 ci { cd with parent_id := some newPid }) rest newPid

/-- Argument tag for the upward split cascade: `insert_into_parent` and
`split_internal_page` are mutually recursive in the source; the combined
function below recurses structurally on fuel so that it stays
kernel-reducible, and the two named wrappers restore the source's shape. -/
inductive UpStep where
  | fromChild (left : Nat) (key : Int) (right : Nat)
  | splitNode (node : Nat)

/-- Combined body of the mutually recursive pair `insert_into_parent` /
`split_internal_page`; see the doc comments on the two wrappers right below
for the correspondence with `index.rs`. -/
def upward : Nat → DBState → UpStep → Option DBState
  | 0, _, _ => none
  | fuel + 1, s, .fromChild left key right =>
    match getInst s left with
    | none => none
    | some ld =>
      match ld.parent_id with
      | some pid =>
        match BufferPool.get_page s pid with
        | none => none
        | some (s1, par) =>
          match getInst s1 par, getInst s1 right with
          | some pd, some rd0 =>
            let pos := (rustBinarySearch pd.keys key).pos
            match vecInsert pos key pd.keys, vecInsert (pos + 1) rd0.id pd.children with
            | some nk, some nc =>
              let s2 := setInst s1 par { pd with keys := nk, children := nc }
              match getInst s2 right with
              | none => none
              | some rd =>
                let s3 := setInst s2 right { rd with parent_id := some pd.id }
                match BufferPool.write_page s3 par with
                | none => none
                | some s4 =>
                  if ORDER - 1 < nk.length then upward fuel s4 (.splitNode par)
                  else some s4
            | _, _ => none
          | _, _ => none
      | none =>
        match BufferPool.allocate_page s .Internal with
        | none => none
        | some (s1, nr) =>
          match getInst s1 nr, getInst s1 left, getInst s1 right with
          | some nrd, some ld1, some rd1 =>
            let s2 := setInst s1 nr { nrd with keys := [key], children := [ld1.id, rd1.id] }
            match getInst s2 left with
            | none => none
            | some ld2 =>
              let s3 := setInst s2 left { ld2 with parent_id := some nrd.id }
              match getInst s3 right with
              | none => none
              | some rd2 =>
                let s4 := setInst s3 right { rd2 with parent_id := some nrd.id }
                match BufferPool.write_page s4 nr with
                | none => none
                | some s5 => some { s5 with root := some nr }
          | _, _, _ => none
  | fuel + 1, s, .splitNode node =>
    match BufferPool.allocate_page s .Internal with
    | none => none
    | some (s1, ni) =>
      match getInst s1 node with
      | none => none
      | some nd =>
        let mid := nd.keys.length / 2
        match nd.keys.get? mid with
        | none => none
        | some upKey =>
          let movedKeys := nd.keys.drop (mid + 1)
          let movedChildren := nd.children.drop (mid + 1)
          let s2 := setInst s1 node
            { nd with keys := nd.keys.take (mid + 1), children := nd.children.take (mid + 1) }
          match getInst s2 ni with
          | none => none
          | some nid =>
            let s3 := setInst s2 ni { nid with keys := movedKeys, children := movedChildren }
            match fixChildren s3 movedChildren nid.id with
            | none => none
            | some s4 =>
              match getInst s4 node, getInst s4 ni with
              | some nd4, some nid4 =>
                let s5 := setInst s4 ni { nid4 with parent_id := nd4.parent_id }
                match getInst s5 node with
                | none => none
                | some nd5 =>
                  let s6 := setInst s5 node
                    { nd5 with keys := nd5.keys.take mid, children := nd5.children.take (mid + 1) }
                  match BufferPool.write_page s6 node with
                  | none => none
                  | some s7 =>
                    match BufferPool.write_page s7 ni with
                    | none => none
                    | some s8 => upward fuel s8 (.fromChild node upKey ni)
              | _, _ => none

/-- Embedding of `BPlusTree::insert_into_parent`.  With a parent: fetch it,
insert the separator at its sorted position and the right sibling just after,
point the right sibling's `parent_id` at the parent, persist the parent, and
split it if it now holds more than `ORDER - 1` keys.  Without a parent:
allocate a new internal root over the two pages, point both pages'
`parent_id` at it, persist it and install it as root. -/
def insert_into_parent (fuel : Nat) (s : DBState) (left : Nat) (key : Int) (right : Nat) :
    Option DBState :=
  upward fuel s (.fromChild left key right)

/-- Embedding of `BPlusTree::split_internal_page`: allocate a new internal
page; `split_off(mid + 1)` the keys and children into it (the node keeps the
first `mid + 1` of each); rewrite the moved children's `parent_id`; copy the
node's `parent_id` to the new page; `truncate` the node's keys to `mid`
(dropping the middle key) and its children to `mid + 1`; persist both pages
and propagate the middle key upward. -/
def split_internal_page (fuel : Nat) (s : DBState) (node : Nat) : Option DBState :=
  upward fuel s (.splitNode node)

/-- Embedding of `BPlusTree::split_leaf_page`: allocate a new leaf;
`split_off(len / 2)` the keys and values into it; the new leaf takes the old
leaf's `next` link and `parent_id`; the old leaf's `next` becomes the new
leaf's id; the new leaf's first key is the separator; persist both leaves and
propagate the separator upward. -/
def split_leaf_page (fuel : Nat) (s : DBState) (leaf : Nat) : Option DBState :=
  match BufferPool.allocate_page s .Leaf with
  | none => none
  | some (s1, nl) =>
    match getInst s1 leaf, getInst s1 nl with
    | some ld, some nld =>
      let mid := ld.keys.length / 2
      let movedKeys := ld.keys.drop mid
      let movedVals := ld.values.drop mid
      match movedKeys.head? with
      | none => none
      | some upKey =>
        let s2 := setInst s1 nl
          { nld with keys := movedKeys, values := movedVals,
                     next := ld.next, parent_id := ld.parent_id }
        let s3 := setInst s2 leaf
          { ld with keys := ld.keys.take mid, values := ld.values.take mid,
                    next := some nld.id }
        match BufferPool.write_page s3 leaf with
        | none => none
        | some s4 =>
          match BufferPool.write_page s4 nl with
          | none => none
          | some s5 => insert_into_parent fuel s5 leaf upKey nl
    | _, _ => none

/-- Fuel passed to the descent and the upward split cascade.  The real code
recurses without bound; in every reachable state both recursions are shorter
than the page count, so this fuel is never the reason an operation fails. -/
def opFuel (s : DBState) : Nat :=
  s.insts.length + s.disk.length + 16

/-- Embedding of `BPlusTree::insert`.  On an empty tree: allocate a leaf,
store the pair, persist it, install it as root.  Otherwise: locate the leaf,
insert the pair at the position `binary_search ... .unwrap_or_else(|e| e)`
(note: no duplicate check of any kind), persist the leaf, split on overflow. -/
def insert (s : DBState) (k : Int) (v : Nat) : Option DBState :=
  let fuel := opFuel s
  match s.root with
  | none =>
    match BufferPool.allocate_page s .Leaf with
    | none => none
    | some (s1, li) =>
      match getInst s1 li with
      | none => none
      | some ld =>
        let s2 := setInst s1 li { ld with keys := [k], values := [v] }
        match BufferPool.write_page s2 li with
        | none => none
        | some s3 => some { s3 with root := some li }
  | some _ =>
    match find_leaf_page fuel s k with
    | none => none
    | some (s1, leaf) =>
      match getInst s1 leaf with
      | none => none
      | some d =>
        let pos := (rustBinarySearch d.keys k).pos
        match vecInsert pos k d.keys, vecInsert pos v d.values with
        | some nk, some nv =>
          let s2 := setInst s1 leaf { d with keys := nk, values := nv }
          match BufferPool.write_page s2 leaf with
          | none => none
          | some s3 =>
            if ORDER - 1 < nk.length then split_leaf_page fuel s3 leaf
            else some s3
        | _, _ => none

/-- Embedding of `BPlusTree::search`: `Ok(None)` (here `some (s, none)`) on
an empty tree; otherwise descend to the leaf and `binary_search` it, giving
the co-indexed value on a hit.  The descent mutates the cache, so the state
is returned alongside the result. -/
def search (s : DBState) (k : Int) : Option (DBState × Option Nat) :=
  let fuel := opFuel s
  match s.root with
  | none => some (s, none)
  | some _ =>
    match find_leaf_page fuel s k with
    | none => none
    | some (s1, leaf) =>
      match getInst s1 leaf with
      | none => none
      | some d =>
        match rustBinarySearch d.keys k with
        | .found i =>
          match d.values.get? i with
          | none => none
          | some v => some (s1, some v)
        | .notFound _ => some (s1, none)

/-- Embedding of `BPlusTree::new` over an already-existing database file:
the buffer pool gets capacity 100 and the root is unconditionally `None` —
no page from the file is reattached. -/
def new (disk : List PageData) : DBState :=
  ⟨[], [], [], disk, none, 100⟩

end BPlusTree

/-- State of a fresh tree over a fresh file. -/
def emptyDB : DBState := BPlusTree.new []

/-- Run a list of `insert` calls in order; an erroring or diverging insert
aborts the run. -/
def applyInserts : DBState → List (Int × Nat) → Option DBState
  | s, [] => some s
  | s, (k, v) :: rest =>
    match BPlusTree.insert s k v with
    | none => none
    | some s1 => applyInserts s1 rest

/-- Search result alone (discarding the cache effects of the descent). -/
def searchVal (s : DBState) (k : Int) : Option (Option Nat) :=
  (BPlusTree.search s k).map (·.2)

/-- Page content an observer going through the system sees for a page id:
the cached instance if the id is pooled, otherwise the on-disk copy (what
`get_page` would hand back). -/
def pageView (s : DBState) (pid : Nat) : Option PageData :=
  match alookup s.pool pid with
  | some i => getInst s i
  | none => s.disk.get? pid

example : rustBinarySearch [2, 4, 6] 4 = .found 1 := by decide
example : rustBinarySearch [2, 4, 6] 5 = .notFound 2 := by decide
example : rustBinarySearch [2, 4, 6] 1 = .notFound 0 := by decide
example : rustBinarySearch [2, 4, 6] 7 = .notFound 3 := by decide
example : rustBinarySearch ([] : List Int) 7 = .notFound 0 := by decide
example : rustBinarySearch [5, 5] 5 = .found 1 := by decide

/-- Insert script driving the buffer pool past its capacity of 100: the keys
0, 8, 16, …, 8·135, each with value 10·key.  The resulting tree spans 103
pages, so the first leaf (page 0) is evicted; its last persisted image still
carries `parent_id = None`, because the `parent_id` fix-ups performed by
`insert_into_parent` and `split_internal_page` are never written back to
storage. -/
def evictionScript : List (Int × Nat) :=
  (List.range 136).map (fun i => (Int.ofNat (8 * i), 80 * i))

/-- Extension of `evictionScript` with the keys 1 and 2, which land in the
stale re-fetched page 0 and make it split.  Since the re-fetched page's
`parent_id` is `None`, the split installs a brand-new root over just that
leaf and its new sibling, detaching the rest of the tree. -/
def lostWriteScript : List (Int × Nat) :=
  evictionScript ++ [(1, 10), (2, 20)]

/-- Generic buffer-pool call, for stating properties over arbitrary usage
sequences of the pool. -/
inductive PoolOp where
  | get (pid : Nat)
  | alloc (nt : NodeType)
  | write (i : Nat)
deriving DecidableEq, Repr

/-- Run one pool call for its state effect (a failing call leaves the state
unchanged). -/
def applyPoolOp (s : DBState) : PoolOp → DBState
  | .get pid =>
    match BufferPool.get_page s pid with
    | some (s1, _) => s1
    | none => s
  | .alloc nt =>
    match BufferPool.allocate_page s nt with
    | some (s1, _) => s1
    | none => s
  | .write i =>
    match BufferPool.write_page s i with
    | some s1 => s1
    | none => s

/-- Run a sequence of pool calls. -/
def applyPoolOps : DBState → List PoolOp → DBState
  | s, [] => s
  | s, op :: rest => applyPoolOps (applyPoolOp s op) rest

/-- Buffer pool over a fresh cache with the given capacity and disk
contents, as built by `BufferPool::new(capacity, storage)`. -/
def poolInit (cap : Nat) (disk : List PageData) : DBState :=
  ⟨[], [], [], disk, none, cap⟩

/-- State of one `std::sync::RwLock`: the number of active readers and
whether a writer holds it. -/
structure RwLockState where
  readers : Nat
  writer : Bool
deriving DecidableEq, Repr

/-- Acquire/release operations on one reader/writer lock. -/
inductive LockOp where
  | rlock
  | runlock
  | wlock
  | wunlock
deriving DecidableEq, Repr

/-- Semantics of one lock call issued by a single thread.  `std::sync::RwLock`
is not reentrant, so a read acquisition while the write lock is held — by
anyone, including the calling thread itself — blocks (or deadlocks/panics);
with only one thread present no future release can unblock it, which is
modelled as `none`. -/
def lockStep (st : RwLockState) : LockOp → Option RwLockState
  | .rlock => if st.writer then none else some ⟨st.readers + 1, st.writer⟩
  | .runlock => if st.readers = 0 then none else some ⟨st.readers - 1, st.writer⟩
  | .wlock => if st.writer || decide (0 < st.readers) then none else some ⟨st.readers, true⟩
  | .wunlock => if st.writer then some ⟨st.readers, false⟩ else none

/-- Run a single thread's sequence of operations on one lock; `none` means
the thread blocked forever (or panicked) at some step. -/
def runLockOps : RwLockState → List LockOp → Option RwLockState
  | st, [] => some st
  | st, op :: rest =>
    match lockStep st op with
    | none => none
    | some st1 => runLockOps st1 rest

/-- Operations `BPlusTree::insert` performs on the target leaf page's
`RwLock` when the tree is non-empty, in program order: `index.rs:53`
(`leaf.data.write()`) takes the write lock, and while it is held,
`index.rs:59` calls `BufferPool::write_page`, whose first statement
(`buffer_pool.rs:103`, `page.data.read()`) requests a read lock on the very
same `RwLock`. -/
def insertLeafLockOps : List LockOp := [.wlock, .rlock]

/-! ## Theorems about the claims -/

/-- Routing rule as worded by the specification for claim C5 ("find the
smallest index `i` with `keys[i] >= k`; descend into child `i`"); defined
from the spec's words only, to be compared with the source's
`BPlusTree.childIndex`. -/
def childIndexSpecGeq (keys : List Int) (k : Int) : Nat :=
  keys.findIdx (fun x => decide (k ≤ x))

/-- Coherence invariant of the buffer pool: the LRU queue is duplicate-free
and mirrors the pool's keys, the pool has no duplicate keys, is within
capacity, and every pooled page id exists on disk. -/
def PoolInv (s : DBState) : Prop :=
  s.lru.Nodup ∧
  (∀ pid, pid ∈ s.lru ↔ ∃ i, (pid, i) ∈ s.pool) ∧
  (s.pool.map Prod.fst).Nodup ∧
  s.pool.length ≤ s.capacity ∧
  (∀ e ∈ s.pool, e.1 < s.disk.length)

/-- Shape ("fan-out") invariant of a single well-formed page, as claimed by
the spec for every page of the tree: a leaf stores no children and exactly
as many values as keys; an internal page stores no values and exactly one
more child than keys; every page holds between 1 (= ceil(ORDER/2) - 1) and
ORDER - 1 keys. -/
def Bal (pd : PageData) : Prop :=
  match pd.nodeType with
  | .Leaf => pd.children = [] ∧ pd.values.length = pd.keys.length ∧
      1 ≤ pd.keys.length ∧ pd.keys.length ≤ ORDER - 1
  | .Internal => pd.values = [] ∧ pd.children.length = pd.keys.length + 1 ∧
      1 ≤ pd.keys.length ∧ pd.keys.length ≤ ORDER - 1

/-- Shape of an internal page that has just overflowed (the transient state
split by `split_internal_page`): exactly `ORDER` keys and `ORDER + 1`
children. -/
def BigI (pd : PageData) : Prop :=
  pd.nodeType = .Internal ∧ pd.values = [] ∧
    pd.keys.length = ORDER ∧ pd.children.length = ORDER + 1

/-- Shape of a leaf that has just overflowed (the transient state split by
`split_leaf_page`): exactly `ORDER` keys and values. -/
def BigL (pd : PageData) : Prop :=
  pd.nodeType = .Leaf ∧ pd.children = [] ∧
    pd.values.length = pd.keys.length ∧ pd.keys.length = ORDER

/-- A page of shape `B` whose graph data is structurally sane with respect
to a file of `L` pages: it does not list itself as a child, all its children
are existing pages, and its parent pointer (if any) is an existing page
other than itself. -/
def Shaped (L : Nat) (B : PageData → Prop) (pd : PageData) : Prop :=
  B pd ∧ pd.id ∉ pd.children ∧ (∀ c ∈ pd.children, c < L) ∧
    (∀ q, pd.parent_id = some q → q < L ∧ q ≠ pd.id)

/-- Disk coherence: position `j` of the file holds a page whose `id` is `j`. -/
def DiskCo (s : DBState) : Prop :=
  ∀ j, j < s.disk.length → ∃ pd, s.disk.get? j = some pd ∧ pd.id = j

/-- All disk pages outside the exception id-list `E` are well shaped. -/
def DiskOK (s : DBState) (E : List Nat) : Prop :=
  ∀ j pd, s.disk.get? j = some pd → j ∉ E → Shaped s.disk.length Bal pd

/-- Pool coherence: every pool entry maps a valid page id to an instance
holding a page with that id. -/
def PoolCo (s : DBState) : Prop :=
  ∀ e ∈ s.pool, ∃ pd, getInst s e.2 = some pd ∧ pd.id = e.1 ∧
    e.1 < s.disk.length

/-- The pool holds at most one entry per page id. -/
def PoolNodup (s : DBState) : Prop :=
  (s.pool.map Prod.fst).Nodup

/-- All pooled instances outside the exception index-list `Xs` are well
shaped. -/
def PoolOK (s : DBState) (Xs : List Nat) : Prop :=
  ∀ e ∈ s.pool, e.2 ∉ Xs → ∀ pd, getInst s e.2 = some pd →
    Shaped s.disk.length Bal pd

/-- The root handle (if any) is a live instance of an existing page, well
shaped unless its index is excepted. -/
def RootOK (s : DBState) (Xs : List Nat) : Prop :=
  ∀ r, s.root = some r → ∃ pd, getInst s r = some pd ∧
    pd.id < s.disk.length ∧ (r ∉ Xs → Shaped s.disk.length Bal pd)

/-- Full state invariant between tree operations. -/
def Inv (s : DBState) : Prop :=
  DiskCo s ∧ PoolCo s ∧ PoolNodup s ∧ DiskOK s [] ∧ PoolOK s [] ∧
    RootOK s []

/-- Precondition of the combined upward-split step `upward s step`: for a
`fromChild` step the state satisfies the full invariant and the two sibling
instances are live and well shaped, the right sibling being the younger page
(allocated after anything the left sibling's parent pointer can reach); for
a `splitNode` step the state satisfies the invariant except at the instance
being split, which holds an overflowed internal page. -/
def StepOK (s : DBState) : BPlusTree.UpStep → Prop
  | .fromChild l _ r =>
    Inv s ∧ ∃ ld rd, getInst s l = some ld ∧ getInst s r = some rd ∧
      Shaped s.disk.length Bal ld ∧ Shaped s.disk.length Bal rd ∧
      ld.id < s.disk.length ∧ rd.id < s.disk.length ∧ ld.id ≠ rd.id ∧
      (∀ q, ld.parent_id = some q → q < rd.id)
  | .splitNode x =>
    DiskCo s ∧ PoolCo s ∧ PoolNodup s ∧ ∃ nd, getInst s x = some nd ∧
      nd.id < s.disk.length ∧ Shaped s.disk.length BigI nd ∧
      DiskOK s [nd.id] ∧ PoolOK s [x] ∧ RootOK s [x]

/-- C5, counterexample: at an internal page with separator keys `[10]`, for
the probe key 10 (equal to the separator) the code's descent selects child
index 1 — `binary_search` returns `Ok(0)` and the code takes `idx + 1` —
whereas the claimed rule "smallest index `i` with `keys[i] >= k`" selects
index 0.  The two rules therefore differ, refuting the claim as stated. -/
theorem BPlusTree.descent_rule_counterexample :
    BPlusTree.childIndex [10] 10 = 1 ∧ childIndexSpecGeq [10] 10 = 0 ∧
    BPlusTree.childIndex [10] 10 ≠ childIndexSpecGeq [10] 10 := by decide

/-- C2, counterexample: on a fresh tree, insert key 5 with value 7 and then
key 5 again with value 9.  The second call does not fail (there is no
duplicate check anywhere in `BPlusTree::insert`): it succeeds and mutates
the tree, leaving the root leaf with keys `[5, 5]` and values `[9, 7]`.
A subsequent search still returns the first value 7, because
`binary_search` on `[5, 5]` lands on index 1. -/
theorem BPlusTree.duplicate_insert_not_rejected :
    ((applyInserts emptyDB [(5, 7), (5, 9)]).map
      (fun s => ((s.root.bind (getInst s)).map (fun d => (d.keys, d.values)),
                 searchVal s 5)))
    = some (some ([5, 5], [9, 7]), some (some 7)) := by decide

/-- C4, counterexample: with cache capacity `C = 0` (a legal constructor
argument), a single `get_page` leaves one page resident, exceeding the
claimed bound: eviction pops from the empty LRU queue, removes nothing, and
the fetched page is inserted regardless. -/
theorem BufferPool.capacity_zero_not_bounded :
    ((BufferPool.get_page (poolInit 0 [PageData.blank 0 .Leaf]) 0).map
      (fun r => decide (r.1.capacity < r.1.pool.length))) = some true := by decide

/-- C9: the lock trace `BPlusTree::insert` performs on the target leaf's
`RwLock` for any insert into a non-empty tree — write lock at `index.rs:53`,
then a read lock request from `BufferPool::write_page` (`buffer_pool.rs:103`)
while the write lock is still held — blocks forever: every insert after the
very first self-deadlocks, so no multi-threaded (or even single-threaded)
insert workload can complete.  This matches the deadlock the source itself
reports in the comment at the top of `buffer_pool.rs`. -/
theorem BPlusTree.insert_self_deadlock :
    lockStep ⟨0, false⟩ .wlock = some ⟨0, true⟩ ∧
    lockStep ⟨0, true⟩ .rlock = none ∧
    runLockOps ⟨0, false⟩ insertLeafLockOps = none := by decide

/-- C1: evaluating the code on a concrete failing input.  The keys of
`lostWriteScript` are pairwise distinct and every insert succeeds, yet the
subsequent search for the inserted key 16 (stored value 160, and the pair
`(16, 160)` is in the script) completes without error and returns `None`.
The write is lost because the tree spans 103 pages, page 0 is evicted from
the capacity-100 pool with a stale on-disk `parent_id = None` (the fix-ups
of `insert_into_parent` are never persisted), and the split of the
re-fetched page 0 therefore installs a fresh root over just two leaves,
detaching the rest of the tree. -/
theorem BPlusTree.lost_write_after_eviction :
    (lostWriteScript.map Prod.fst).Nodup ∧
    ((16 : Int), (160 : Nat)) ∈ lostWriteScript ∧
    ((applyInserts emptyDB lostWriteScript).bind fun s => searchVal s 16) =
      some none := by decide

/-- C3: evaluating the code on a concrete failing input.  After the
`evictionScript` inserts complete, the internal page 2 still lists page 0
among its children, but the content of page 0 that the system would observe
through `get_page` (page 0 has been evicted, so its last persisted image)
carries `parent_id = None` — the root split's `parent_id` fix-up was applied
only to the in-memory instance and never written back.  The invariant
"`parent_id` of every child equals the id of the internal page that lists
it" is thus violated between API calls. -/
theorem BPlusTree.stale_parent_pointer_after_eviction :
    ((applyInserts emptyDB evictionScript).map fun s =>
      (alookup s.pool 0,
       (pageView s 2).map (fun d => (d.nodeType, d.children.contains 0)),
       (pageView s 0).map (fun d => d.parent_id)))
    = some (none, some (.Internal, true), some none) := by decide

/-- C10: constructing a `BPlusTree` on any existing database file yields a
tree whose root is `None`, and before any insert, `search` returns `Ok(None)`
for every key, whatever pages the file holds. -/
theorem BPlusTree.new_ignores_existing_pages (disk : List PageData) (k : Int) :
    (BPlusTree.new disk).root = none ∧
    BPlusTree.search (BPlusTree.new disk) k = some (BPlusTree.new disk, none) :=
  ⟨rfl, rfl⟩

/-! ### Correctness of the embedded binary search (for C5) -/

lemma icmp_eq_iff {a b : Int} : icmp a b = .eq ↔ a = b := by
  unfold icmp
  split_ifs with h1 h2 <;> simp <;> omega

lemma icmp_lt_iff {a b : Int} : icmp a b = .lt ↔ a < b := by
  unfold icmp
  split_ifs with h1 h2 <;> simp <;> omega

lemma icmp_gt_iff {a b : Int} : icmp a b = .gt ↔ b < a := by
  unfold icmp
  split_ifs with h1 h2 <;> simp <;> omega

lemma get?_getD : ∀ (l : List Int) (i : Nat), i < l.length →
    l.get? i = some (l.getD i 0) := by
  intro l
  induction l with
  | nil => intro i h; simp at h
  | cons a t ih =>
    intro i h
    cases i with
    | zero => simp
    | succ j =>
      rw [List.get?_cons_succ, List.getD_cons_succ]
      exact ih j (by simpa using h)

/-- On a strictly sorted key list, an element is at most `k` exactly when its
index is below the count of elements at most `k`. -/
lemma count_le_iff (k : Int) :
    ∀ (keys : List Int), keys.Pairwise (· < ·) →
      ∀ i x, keys.get? i = some x →
        (x ≤ k ↔ i < keys.countP (fun y => decide (y ≤ k))) := by
  intro keys
  induction keys with
  | nil => intro _ i x h; simp at h
  | cons a l ih =>
    intro hp i x hx
    have hpl : l.Pairwise (· < ·) := hp.of_cons
    have hal : ∀ y ∈ l, a < y := (List.pairwise_cons.mp hp).1
    have hcc : (a :: l).countP (fun y => decide (y ≤ k)) =
        l.countP (fun y => decide (y ≤ k)) + if a ≤ k then 1 else 0 := by
      rw [List.countP_cons]
      by_cases hak : a ≤ k <;> simp [hak]
    cases i with
    | zero =>
      rw [List.get?_cons_zero] at hx
      have hax : a = x := by injection hx
      subst hax
      rw [hcc]
      by_cases hak : a ≤ k
      · rw [if_pos hak]
        omega
      · rw [if_neg hak]
        have hcl : l.countP (fun y => decide (y ≤ k)) = 0 := by
          rw [List.countP_eq_zero]
          intro y hy
          have hay : a < y := hal y hy
          simp only [decide_eq_true_eq]
          omega
        omega
    | succ j =>
      rw [List.get?_cons_succ] at hx
      have hxl : x ∈ l := List.get?_mem hx
      have hiff := ih hpl j x hx
      rw [hcc]
      by_cases hak : a ≤ k
      · rw [if_pos hak]
        omega
      · rw [if_neg hak]
        have hcl : l.countP (fun y => decide (y ≤ k)) = 0 := by
          rw [List.countP_eq_zero]
          intro y hy
          have hay : a < y := hal y hy
          simp only [decide_eq_true_eq]
          omega
        have hax : a < x := hal x hxl
        omega

lemma bsLoop_succ_lt {keys : List Int} {k : Int} {fuel base size : Nat}
    (h : 1 < size) :
    bsLoop keys k (fuel + 1) base size =
      bsLoop keys k fuel
        (match icmp (keys.getD (base + size / 2) 0) k with
          | .gt => base
          | _ => base + size / 2) (size - size / 2) := by
  rw [bsLoop, if_pos h]

lemma bsLoop_succ_stop {keys : List Int} {k : Int} {fuel base size : Nat}
    (h : ¬ 1 < size) :
    bsLoop keys k (fuel + 1) base size = base := by
  rw [bsLoop, if_neg h]

/-- The narrowing loop lands on `cnt - 1` (truncated subtraction), where
`cnt` counts the keys at most `k`, whenever the window contains that
boundary. -/
lemma bsLoop_to_boundary (keys : List Int) (k : Int)
    (hs : keys.Pairwise (· < ·)) :
    ∀ fuel base size, 1 ≤ size → size ≤ fuel → base + size ≤ keys.length →
      base ≤ keys.countP (fun y => decide (y ≤ k)) - 1 →
      keys.countP (fun y => decide (y ≤ k)) - 1 < base + size →
      bsLoop keys k fuel base size = keys.countP (fun y => decide (y ≤ k)) - 1 := by
  intro fuel
  induction fuel with
  | zero =>
    intro base size h1 h2 h3 h4 h5
    exfalso
    omega
  | succ fuel ih =>
    intro base size h1 h2 hlen hlo hhi
    by_cases hsz : 1 < size
    · rw [bsLoop_succ_lt hsz]
      have hhalf1 : 1 ≤ size / 2 := by omega
      have hhalflt : size / 2 < size := by omega
      have hmidlt : base + size / 2 < keys.length := by omega
      have hget := get?_getD keys (base + size / 2) hmidlt
      have hiff := count_le_iff k keys hs (base + size / 2) _ hget
      rcases hord : icmp (keys.getD (base + size / 2) 0) k with _ | _ | _
      · -- probed element < k: keep the midpoint
        have hle : keys.getD (base + size / 2) 0 ≤ k :=
          le_of_lt (icmp_lt_iff.mp hord)
        have hmidcnt := hiff.mp hle
        simp only [hord]
        exact ih (base + size / 2) (size - size / 2) (by omega) (by omega)
          (by omega) (by omega) (by omega)
      · -- probed element = k: keep the midpoint
        have hle : keys.getD (base + size / 2) 0 ≤ k :=
          le_of_eq (icmp_eq_iff.mp hord)
        have hmidcnt := hiff.mp hle
        simp only [hord]
        exact ih (base + size / 2) (size - size / 2) (by omega) (by omega)
          (by omega) (by omega) (by omega)
      · -- probed element > k: keep the base
        have hgt : k < keys.getD (base + size / 2) 0 := icmp_gt_iff.mp hord
        have hmidcnt : ¬ (base + size / 2 <
            keys.countP (fun y => decide (y ≤ k))) := by
          intro hc
          have := hiff.mpr hc
          omega
        simp only [hord]
        exact ih base (size - size / 2) (by omega) (by omega)
          (by omega) (by omega) (by omega)
    · rw [bsLoop_succ_stop hsz]
      omega

/-- C5, amended: on an internal page with strictly sorted keys, the child
index the descent selects for a probe key `k` equals the number of keys at
most `k` — that is, the smallest index `i` with `keys[i] > k` (strictly
greater), so a key equal to a separator goes to the child right of that
separator.  `search` and `insert` both locate the leaf through the same
`find_leaf_page`, so the rule is shared by the two operations. -/
theorem BPlusTree.childIndex_eq_count_le (keys : List Int) (k : Int)
    (hs : keys.Pairwise (· < ·)) :
    BPlusTree.childIndex keys k = keys.countP (fun y => decide (y ≤ k)) := by
  have hcle : keys.countP (fun y => decide (y ≤ k)) ≤ keys.length :=
    List.countP_le_length _
  by_cases h0 : keys.length = 0
  · have hk : keys = [] := List.length_eq_zero.mp h0
    subst hk
    rfl
  · have hlen : 1 ≤ keys.length := by omega
    have hloop : bsLoop keys k keys.length 0 keys.length =
        keys.countP (fun y => decide (y ≤ k)) - 1 :=
      bsLoop_to_boundary keys k hs keys.length 0 keys.length hlen le_rfl
        (by omega) (by omega) (by omega)
    have hblt : keys.countP (fun y => decide (y ≤ k)) - 1 < keys.length := by
      omega
    have hget := get?_getD keys (keys.countP (fun y => decide (y ≤ k)) - 1) hblt
    have hiff := count_le_iff k keys hs
      (keys.countP (fun y => decide (y ≤ k)) - 1) _ hget
    unfold BPlusTree.childIndex rustBinarySearch
    rw [if_neg h0]
    simp only [hloop]
    by_cases hc0 : keys.countP (fun y => decide (y ≤ k)) = 0
    · have hnle : ¬ (keys.getD (keys.countP (fun y => decide (y ≤ k)) - 1) 0 ≤ k) := by
        intro hle
        have := hiff.mp hle
        omega
      have hgt : icmp (keys.getD (keys.countP (fun y => decide (y ≤ k)) - 1) 0) k
          = .gt := by
        rw [icmp_gt_iff]
        omega
      rw [hgt]
      show keys.countP (fun y => decide (y ≤ k)) - 1 =
        keys.countP (fun y => decide (y ≤ k))
      omega
    · have hle : keys.getD (keys.countP (fun y => decide (y ≤ k)) - 1) 0 ≤ k :=
        hiff.mpr (by omega)
      by_cases heq : keys.getD (keys.countP (fun y => decide (y ≤ k)) - 1) 0 = k
      · rw [icmp_eq_iff.mpr heq]
        show keys.countP (fun y => decide (y ≤ k)) - 1 + 1 =
          keys.countP (fun y => decide (y ≤ k))
        omega
      · have hlt : icmp (keys.getD (keys.countP (fun y => decide (y ≤ k)) - 1) 0) k
            = .lt := by
          rw [icmp_lt_iff]
          omega
        rw [hlt]
        show keys.countP (fun y => decide (y ≤ k)) - 1 + 1 =
          keys.countP (fun y => decide (y ≤ k))
        omega

/-- Witness for `BPlusTree.childIndex_eq_count_le` at the sorted key list
`[3, 7]` and probe 5: the selected child index is 1. -/
theorem BPlusTree.childIndex_eq_count_le_witness :
    ([3, 7] : List Int).Pairwise (· < ·) ∧
    BPlusTree.childIndex [3, 7] 5 =
      ([3, 7] : List Int).countP (fun y => decide (y ≤ (5 : Int))) :=
  ⟨by decide, BPlusTree.childIndex_eq_count_le [3, 7] 5 (by decide)⟩

/-! ### Buffer-pool invariants (for C4) -/

lemma alookup_mem : ∀ {l : List (Nat × Nat)} {pid i : Nat},
    alookup l pid = some i → (pid, i) ∈ l := by
  intro l
  induction l with
  | nil => intro pid i h; simp [alookup] at h
  | cons e rest ih =>
    intro pid i h
    rw [alookup] at h
    by_cases he : e.1 = pid
    · rw [if_pos he] at h
      injection h with h
      have : e = (pid, i) := by
        rcases e with ⟨a, b⟩
        simp only at he h
        rw [he, h]
      rw [← this]
      left
    · rw [if_neg he] at h
      right
      exact ih h

lemma alookup_none_iff : ∀ {l : List (Nat × Nat)} {pid : Nat},
    alookup l pid = none ↔ ∀ e ∈ l, e.1 ≠ pid := by
  intro l
  induction l with
  | nil => intro pid; simp [alookup]
  | cons e rest ih =>
    intro pid
    rw [alookup]
    by_cases he : e.1 = pid
    · rw [if_pos he]
      simp only [reduceCtorEq, false_iff, not_forall]
      exact ⟨e, List.mem_cons_self e rest, fun hn => hn he⟩
    · rw [if_neg he]
      rw [ih]
      constructor
      · intro hall f hf
        cases hf with
        | head => exact he
        | tail _ hf => exact hall f hf
      · intro hall f hf
        exact hall f (List.mem_cons_of_mem _ hf)

lemma evictIfFull_spec (s : DBState)
    (hN : s.lru.Nodup)
    (hM : ∀ pid, pid ∈ s.lru ↔ ∃ i, (pid, i) ∈ s.pool)
    (hK : (s.pool.map Prod.fst).Nodup)
    (hD : ∀ e ∈ s.pool, e.1 < s.disk.length) :
    (BufferPool.evictIfFull s).insts = s.insts ∧
    (BufferPool.evictIfFull s).disk = s.disk ∧
    (BufferPool.evictIfFull s).root = s.root ∧
    (BufferPool.evictIfFull s).capacity = s.capacity ∧
    (BufferPool.evictIfFull s).lru.Nodup ∧
    (∀ pid, pid ∈ (BufferPool.evictIfFull s).lru ↔
      ∃ i, (pid, i) ∈ (BufferPool.evictIfFull s).pool) ∧
    ((BufferPool.evictIfFull s).pool.map Prod.fst).Nodup ∧
    (∀ e ∈ (BufferPool.evictIfFull s).pool, e ∈ s.pool) ∧
    (BufferPool.evictIfFull s).pool.length ≤ s.pool.length ∧
    (s.capacity ≤ s.pool.length → 1 ≤ s.pool.length →
      (BufferPool.evictIfFull s).pool.length < s.pool.length) := by
  unfold BufferPool.evictIfFull
  by_cases hfull : s.capacity ≤ s.pool.length
  · rw [if_pos hfull]
    cases hlast : s.lru.getLast? with
    | none =>
      -- empty LRU queue: nothing evicted; the pool must then be empty too
      have hlru : s.lru = [] := by
        cases hl : s.lru with
        | nil => rfl
        | cons a t =>
          rw [hl] at hlast
          simp [List.getLast?_concat, List.getLast?] at hlast
      have hpool : s.pool = [] := by
        cases hp : s.pool with
        | nil => rfl
        | cons e t =>
          exfalso
          have : e.1 ∈ s.lru := (hM e.1).mpr ⟨e.2, by rw [hp]; left⟩
          rw [hlru] at this
          simp at this
      refine ⟨rfl, rfl, rfl, rfl, hN, hM, hK, fun e he => he, le_rfl, ?_⟩
      intro _ h1
      rw [hpool] at h1
      simp at h1
    | some old =>
      have hne : s.lru ≠ [] := by
        intro h
        rw [h] at hlast
        simp [List.getLast?] at hlast
      have hsplit : s.lru.dropLast ++ [s.lru.getLast hne] = s.lru :=
        List.dropLast_append_getLast hne
      have hold : s.lru.getLast hne = old := by
        have h2 := s.lru.getLast?_eq_getLast hne
        rw [hlast] at h2
        injection h2 with h2
        exact h2.symm
      have holdmem : old ∈ s.lru := by
        rw [← hold]
        exact List.getLast_mem hne
      have hdnodup : s.lru.dropLast.Nodup :=
        List.Nodup.sublist (List.dropLast_sublist s.lru) hN
      have holdnot : old ∉ s.lru.dropLast := by
        intro hmem
        have hnd := hN
        rw [← hsplit] at hnd
        have := List.disjoint_of_nodup_append hnd
        exact this hmem (by rw [hold]; left)
      have hdmem : ∀ x, x ∈ s.lru.dropLast ↔ x ∈ s.lru ∧ x ≠ old := by
        intro x
        constructor
        · intro hx
          refine ⟨by rw [← hsplit]; exact List.mem_append_left _ hx, ?_⟩
          intro hxo
          rw [hxo] at hx
          exact holdnot hx
        · intro hx
          obtain ⟨hx1, hxo⟩ := hx
          rw [← hsplit] at hx1
          rcases List.mem_append.mp hx1 with h | h
          · exact h
          · rw [hold] at h
            simp at h
            exact absurd h hxo
      refine ⟨rfl, rfl, rfl, rfl, hdnodup, ?_, ?_, ?_, ?_, ?_⟩
      · intro pid
        rw [hdmem pid]
        constructor
        · intro hx
          obtain ⟨hmem, hne2⟩ := hx
          obtain ⟨i, hi⟩ := (hM pid).mp hmem
          exact ⟨i, List.mem_filter.mpr ⟨hi, by simpa using hne2⟩⟩
        · intro hx
          obtain ⟨i, hi⟩ := hx
          have h2 := List.mem_filter.mp hi
          exact ⟨(hM pid).mpr ⟨i, h2.1⟩, by simpa using h2.2⟩
      · exact List.Nodup.sublist
          (List.Sublist.map Prod.fst (List.filter_sublist s.pool)) hK
      · intro e he
        exact (List.mem_filter.mp he).1
      · exact List.Sublist.length_le (List.filter_sublist s.pool)
      · intro _ _
        obtain ⟨i, hi⟩ := (hM old).mp holdmem
        exact List.length_filter_lt_length_iff_exists.mpr
          ⟨(old, i), hi, by simp⟩
  · rw [if_neg hfull]
    exact ⟨rfl, rfl, rfl, rfl, hN, hM, hK, fun e he => he, le_rfl,
      fun h _ => absurd h hfull⟩

lemma poolInv_get_page {s : DBState} (pid : Nat)
    (h : PoolInv s) (hcap : 1 ≤ s.capacity) :
    ∀ r, BufferPool.get_page s pid = some r →
      PoolInv r.1 ∧ r.1.capacity = s.capacity := by
  obtain ⟨hN, hM, hK, hC, hD⟩ := h
  intro r hr
  unfold BufferPool.get_page at hr
  cases halk : alookup s.pool pid with
  | some i =>
    rw [halk] at hr
    injection hr with hr
    subst hr
    have hpidlru : pid ∈ s.lru := (hM pid).mpr ⟨i, alookup_mem halk⟩
    refine ⟨⟨?_, ?_, hK, hC, hD⟩, rfl⟩
    · exact List.Nodup.cons
        (fun hmem => ((List.Nodup.mem_erase_iff hN).mp hmem).1 rfl)
        (List.Nodup.erase pid hN)
    · intro q
      show q ∈ BufferPool.lruPromote s.lru pid ↔ _
      unfold BufferPool.lruPromote
      constructor
      · intro hq
        cases hq with
        | head => exact (hM pid).mp hpidlru
        | tail _ hq =>
          exact (hM q).mp ((List.Nodup.mem_erase_iff hN).mp hq).2
      · intro hq
        by_cases hqp : q = pid
        · rw [hqp]; left
        · right
          exact (List.Nodup.mem_erase_iff hN).mpr ⟨hqp, (hM q).mpr hq⟩
  | none =>
    rw [halk] at hr
    cases hread : StorageEngine.read_page s pid with
    | none =>
      rw [hread] at hr
      exact absurd hr (by simp)
    | some pd =>
      rw [hread] at hr
      injection hr with hr
      subst hr
      have hpd : pid < s.disk.length := by
        unfold StorageEngine.read_page at hread
        exact (List.get?_eq_some.mp hread).choose
      have hspec := evictIfFull_spec { s with insts := s.insts ++ [pd] }
        hN hM hK hD
      obtain ⟨_, hdisk, _, hcapeq, hN2, hM2, hK2, hsub, hle, hshrink⟩ := hspec
      have hcap1 : ({ s with insts := s.insts ++ [pd] } : DBState).capacity
          = s.capacity := rfl
      have hpool1 : ({ s with insts := s.insts ++ [pd] } : DBState).pool.length
          = s.pool.length := rfl
      have hnotin : ∀ e ∈ (BufferPool.evictIfFull
          { s with insts := s.insts ++ [pd] }).pool, e.1 ≠ pid := by
        intro e he
        exact (alookup_none_iff.mp halk) e (hsub e he)
      have hpidlru2 : pid ∉ (BufferPool.evictIfFull
          { s with insts := s.insts ++ [pd] }).lru := by
        intro hmem
        obtain ⟨i, hi⟩ := (hM2 pid).mp hmem
        exact hnotin (pid, i) hi rfl
      refine ⟨⟨?_, ?_, ?_, ?_, ?_⟩, hcapeq⟩
      all_goals dsimp only
      · exact List.Nodup.cons hpidlru2 hN2
      · intro q
        constructor
        · intro hq
          cases hq with
          | head => exact ⟨s.insts.length, by left⟩
          | tail _ hq =>
            obtain ⟨i, hi⟩ := (hM2 q).mp hq
            exact ⟨i, List.mem_cons_of_mem _ hi⟩
        · intro hq
          obtain ⟨i, hi⟩ := hq
          cases hi with
          | head => left
          | tail _ hi =>
            right
            exact (hM2 q).mpr ⟨i, hi⟩
      · rw [List.map_cons]
        refine List.Nodup.cons ?_ hK2
        intro hmem
        obtain ⟨e, he, heq⟩ := List.mem_map.mp hmem
        exact hnotin e he heq
      · rw [List.length_cons]
        by_cases hfull : s.capacity ≤ s.pool.length
        · have := hshrink (by omega) (by omega)
          omega
        · omega
      · intro e he
        cases he with
        | head =>
          show pid < _
          rw [hdisk]
          exact hpd
        | tail _ he =>
          have h2 := hD e (hsub e he)
          rw [hdisk]
          exact h2

lemma poolInv_allocate_page {s : DBState} (nt : NodeType)
    (h : PoolInv s) (hcap : 1 ≤ s.capacity) :
    ∀ r, BufferPool.allocate_page s nt = some r →
      PoolInv r.1 ∧ r.1.capacity = s.capacity := by
  obtain ⟨hN, hM, hK, hC, hD⟩ := h
  intro r hr
  unfold BufferPool.allocate_page StorageEngine.allocate_page
    StorageEngine.write_page at hr
  dsimp only at hr
  have h1 : ¬ (PAGE_SIZE < encSize (PageData.blank s.disk.length nt)) := by
    simp [encSize, PageData.blank, PAGE_SIZE]
  have h2 : ¬ ((PageData.blank s.disk.length nt).id < s.disk.length) := by
    simp [PageData.blank]
  have h3 : (PageData.blank s.disk.length nt).id = s.disk.length := rfl
  rw [if_neg h1, if_neg h2, if_pos h3] at hr
  simp only [Option.map_some'] at hr
  injection hr with hr
  subst hr
  have hD1 : ∀ e ∈ s.pool, e.1 <
      (s.disk ++ [PageData.blank s.disk.length nt]).length := by
    intro e he
    have := hD e he
    simp only [List.length_append, List.length_cons, List.length_nil]
    omega
  have hspec := evictIfFull_spec
    { s with disk := s.disk ++ [PageData.blank s.disk.length nt],
             insts := s.insts ++ [PageData.blank s.disk.length nt] }
    hN hM hK hD1
  obtain ⟨_, hdisk, _, hcapeq, hN2, hM2, hK2, hsub, hle, hshrink⟩ := hspec
  have hcap1 : ({ s with
      disk := s.disk ++ [PageData.blank s.disk.length nt],
      insts := s.insts ++ [PageData.blank s.disk.length nt] } : DBState).capacity
      = s.capacity := rfl
  have hpool1 : ({ s with
      disk := s.disk ++ [PageData.blank s.disk.length nt],
      insts := s.insts ++ [PageData.blank s.disk.length nt] } : DBState).pool.length
      = s.pool.length := rfl
  have hdlen : ({ s with
      disk := s.disk ++ [PageData.blank s.disk.length nt],
      insts := s.insts ++ [PageData.blank s.disk.length nt] } : DBState).disk.length
      = s.disk.length + 1 := by
    simp only [List.length_append, List.length_cons, List.length_nil]
  have hnotin : ∀ e ∈ (BufferPool.evictIfFull
      { s with disk := s.disk ++ [PageData.blank s.disk.length nt],
               insts := s.insts ++ [PageData.blank s.disk.length nt] }).pool,
      e.1 ≠ s.disk.length := by
    intro e he
    have := hD e (hsub e he)
    omega
  have hpidlru2 : s.disk.length ∉ (BufferPool.evictIfFull
      { s with disk := s.disk ++ [PageData.blank s.disk.length nt],
               insts := s.insts ++ [PageData.blank s.disk.length nt] }).lru := by
    intro hmem
    obtain ⟨i, hi⟩ := (hM2 _).mp hmem
    exact hnotin (s.disk.length, i) hi rfl
  refine ⟨⟨?_, ?_, ?_, ?_, ?_⟩, hcapeq⟩
  all_goals dsimp only
  · exact List.Nodup.cons hpidlru2 hN2
  · intro q
    constructor
    · intro hq
      cases hq with
      | head => exact ⟨s.insts.length, by left⟩
      | tail _ hq =>
        obtain ⟨i, hi⟩ := (hM2 q).mp hq
        exact ⟨i, List.mem_cons_of_mem _ hi⟩
    · intro hq
      obtain ⟨i, hi⟩ := hq
      cases hi with
      | head => left
      | tail _ hi =>
        right
        exact (hM2 q).mpr ⟨i, hi⟩
  · rw [List.map_cons]
    refine List.Nodup.cons ?_ hK2
    intro hmem
    obtain ⟨e, he, heq⟩ := List.mem_map.mp hmem
    exact hnotin e he heq
  · rw [List.length_cons]
    by_cases hfull : s.capacity ≤ s.pool.length
    · have := hshrink (by omega) (by omega)
      omega
    · omega
  · intro e he
    cases he with
    | head =>
      show s.disk.length < _
      rw [hdisk]
      omega
    | tail _ he =>
      have h2 := hD e (hsub e he)
      rw [hdisk]
      omega

lemma poolInv_write_page {s : DBState} (i : Nat) (h : PoolInv s) :
    ∀ s2, BufferPool.write_page s i = some s2 →
      PoolInv s2 ∧ s2.capacity = s.capacity := by
  obtain ⟨hN, hM, hK, hC, hD⟩ := h
  intro s2 hs2
  unfold BufferPool.write_page at hs2
  cases hg : getInst s i with
  | none =>
    rw [hg] at hs2
    exact absurd hs2 (by simp)
  | some pd =>
    rw [hg] at hs2
    unfold StorageEngine.write_page at hs2
    dsimp only at hs2
    by_cases h1 : PAGE_SIZE < encSize pd
    · rw [if_pos h1] at hs2
      exact absurd hs2 (by simp)
    · rw [if_neg h1] at hs2
      by_cases h2 : pd.id < s.disk.length
      · rw [if_pos h2] at hs2
        injection hs2 with hs2
        subst hs2
        refine ⟨⟨hN, hM, hK, hC, ?_⟩, rfl⟩
        intro e he
        have := hD e he
        simpa using this
      · rw [if_neg h2] at hs2
        by_cases h3 : pd.id = s.disk.length
        · rw [if_pos h3] at hs2
          injection hs2 with hs2
          subst hs2
          refine ⟨⟨hN, hM, hK, hC, ?_⟩, rfl⟩
          intro e he
          have := hD e he
          simp only [List.length_append, List.length_cons, List.length_nil]
          omega
        · rw [if_neg h3] at hs2
          exact absurd hs2 (by simp)

lemma poolInv_applyPoolOp {s : DBState} (op : PoolOp)
    (h : PoolInv s) (hcap : 1 ≤ s.capacity) :
    PoolInv (applyPoolOp s op) ∧ (applyPoolOp s op).capacity = s.capacity := by
  cases op with
  | get pid =>
    cases hr : BufferPool.get_page s pid with
    | none =>
      have he : applyPoolOp s (.get pid) = s := by
        unfold applyPoolOp
        dsimp only
        rw [hr]
      rw [he]
      exact ⟨h, rfl⟩
    | some r =>
      have he : applyPoolOp s (.get pid) = r.1 := by
        unfold applyPoolOp
        dsimp only
        rw [hr]
      rw [he]
      exact poolInv_get_page pid h hcap r hr
  | alloc nt =>
    cases hr : BufferPool.allocate_page s nt with
    | none =>
      have he : applyPoolOp s (.alloc nt) = s := by
        unfold applyPoolOp
        dsimp only
        rw [hr]
      rw [he]
      exact ⟨h, rfl⟩
    | some r =>
      have he : applyPoolOp s (.alloc nt) = r.1 := by
        unfold applyPoolOp
        dsimp only
        rw [hr]
      rw [he]
      exact poolInv_allocate_page nt h hcap r hr
  | write i =>
    cases hr : BufferPool.write_page s i with
    | none =>
      have he : applyPoolOp s (.write i) = s := by
        unfold applyPoolOp
        dsimp only
        rw [hr]
      rw [he]
      exact ⟨h, rfl⟩
    | some s2 =>
      have he : applyPoolOp s (.write i) = s2 := by
        unfold applyPoolOp
        dsimp only
        rw [hr]
      rw [he]
      exact poolInv_write_page i h s2 hr

lemma poolInv_applyPoolOps : ∀ (ops : List PoolOp) (s : DBState),
    PoolInv s → 1 ≤ s.capacity →
    PoolInv (applyPoolOps s ops) ∧
      (applyPoolOps s ops).capacity = s.capacity := by
  intro ops
  induction ops with
  | nil => intro s h _; exact ⟨h, rfl⟩
  | cons op rest ih =>
    intro s h hcap
    have h1 := poolInv_applyPoolOp op h hcap
    have h2 := ih (applyPoolOp s op) h1.1 (by omega)
    rw [applyPoolOps]
    exact ⟨h2.1, by rw [h2.2, h1.2]⟩

/-- C4, amended.  First half: for every capacity `C ≥ 1`, over any sequence
of `get_page` / `allocate_page` / `write_page` calls starting from a fresh
pool, the number of resident pages never exceeds `C` (for `C = 0` this fails;
see the counterexample).  Second half: a `get_page` for a page id that is
currently cached returns exactly the pooled instance — the state keeps the
same instances and pool, only the LRU order changes, so no fresh or divergent
copy is ever produced for a cached id. -/
theorem BufferPool.cache_bound_and_stable_handles :
    (∀ (C : Nat) (disk : List PageData) (ops : List PoolOp), 1 ≤ C →
      (applyPoolOps (poolInit C disk) ops).pool.length ≤ C) ∧
    (∀ (s : DBState) (pid i : Nat), alookup s.pool pid = some i →
      BufferPool.get_page s pid =
        some ({ s with lru := BufferPool.lruPromote s.lru pid }, i)) := by
  constructor
  · intro C disk ops hC
    have hinit : PoolInv (poolInit C disk) := by
      refine ⟨List.nodup_nil, ?_, List.nodup_nil, by simp [poolInit], ?_⟩
      · intro pid
        simp [poolInit]
      · intro e he
        simp [poolInit] at he
    have hall := poolInv_applyPoolOps ops (poolInit C disk) hinit hC
    have hcap : (applyPoolOps (poolInit C disk) ops).capacity = C := hall.2
    have hlen := hall.1.2.2.2.1
    omega
  · intro s pid i halk
    unfold BufferPool.get_page
    rw [halk]

/-- Witness for `BufferPool.cache_bound_and_stable_handles`: capacity 1 with
two consecutive fetches of page 0 keeps one resident page, and a further
fetch of page 0 returns the cached instance 0. -/
theorem BufferPool.cache_bound_and_stable_handles_witness :
    (applyPoolOps (poolInit 1 [PageData.blank 0 .Leaf])
      [.get 0, .get 0]).pool.length ≤ 1 ∧
    BufferPool.get_page (applyPoolOps (poolInit 1 [PageData.blank 0 .Leaf])
      [.get 0, .get 0]) 0 =
      some ({ (applyPoolOps (poolInit 1 [PageData.blank 0 .Leaf])
        [.get 0, .get 0]) with
          lru := BufferPool.lruPromote (applyPoolOps
            (poolInit 1 [PageData.blank 0 .Leaf]) [.get 0, .get 0]).lru 0 }, 0) :=
  ⟨BufferPool.cache_bound_and_stable_handles.1 1 [PageData.blank 0 .Leaf]
      [.get 0, .get 0] (by decide),
   BufferPool.cache_bound_and_stable_handles.2 _ 0 0 (by decide)⟩

/-! ### Helper lemmas for the split specifications (C7, C8) -/

lemma getInst_lt {s : DBState} {i : Nat} {pd : PageData}
    (h : getInst s i = some pd) : i < s.insts.length :=
  (List.get?_eq_some.mp h).choose

lemma evictIfFull_fields (s : DBState) :
    (BufferPool.evictIfFull s).insts = s.insts ∧
    (BufferPool.evictIfFull s).disk = s.disk ∧
    (BufferPool.evictIfFull s).root = s.root ∧
    (BufferPool.evictIfFull s).capacity = s.capacity := by
  unfold BufferPool.evictIfFull
  by_cases h : s.capacity ≤ s.pool.length
  · rw [if_pos h]
    cases s.lru.getLast? with
    | none => exact ⟨rfl, rfl, rfl, rfl⟩
    | some old => exact ⟨rfl, rfl, rfl, rfl⟩
  · rw [if_neg h]
    exact ⟨rfl, rfl, rfl, rfl⟩

/-- Full description of a successful `BufferPool::allocate_page`: it always
succeeds, returns the fresh instance index `s.insts.length`, and appends the
blank page (id = current file length) to both the instance list and the
disk; the root and capacity are untouched (the pool and LRU queue change by
insertion and possible eviction). -/
lemma allocate_page_spec (s : DBState) (nt : NodeType) :
    ∃ t, BufferPool.allocate_page s nt = some (t, s.insts.length) ∧
      t.insts = s.insts ++ [PageData.blank s.disk.length nt] ∧
      t.disk = s.disk ++ [PageData.blank s.disk.length nt] ∧
      t.root = s.root ∧ t.capacity = s.capacity := by
  unfold BufferPool.allocate_page StorageEngine.allocate_page
    StorageEngine.write_page
  dsimp only
  have h1 : ¬ (PAGE_SIZE < encSize (PageData.blank s.disk.length nt)) := by
    simp [encSize, PageData.blank, PAGE_SIZE]
  have h2 : ¬ ((PageData.blank s.disk.length nt).id < s.disk.length) := by
    simp [PageData.blank]
  have h3 : (PageData.blank s.disk.length nt).id = s.disk.length := rfl
  rw [if_neg h1, if_neg h2, if_pos h3]
  simp only [Option.map_some']
  refine ⟨_, rfl, ?_, ?_, ?_, ?_⟩
  · exact (evictIfFull_fields _).1
  · exact (evictIfFull_fields _).2.1
  · exact (evictIfFull_fields _).2.2.1
  · exact (evictIfFull_fields _).2.2.2

lemma getInst_setInst_self {s : DBState} {i : Nat} (pd : PageData)
    (h : i < s.insts.length) :
    getInst (setInst s i pd) i = some pd := by
  unfold getInst setInst
  exact List.get?_set_eq_of_lt pd h

lemma getInst_setInst_ne {s : DBState} {i j : Nat} (pd : PageData)
    (h : i ≠ j) :
    getInst (setInst s i pd) j = getInst s j := by
  unfold getInst setInst
  exact List.get?_set_ne pd _ h

lemma write_page_set {s : DBState} {i : Nat} {pd : PageData}
    (hg : getInst s i = some pd) (hsz : ¬ PAGE_SIZE < encSize pd)
    (hid : pd.id < s.disk.length) :
    BufferPool.write_page s i = some { s with disk := s.disk.set pd.id pd } := by
  unfold BufferPool.write_page StorageEngine.write_page
  rw [hg]
  dsimp only
  rw [if_neg hsz, if_pos hid]

lemma head?_headD {l : List Int} (h : l ≠ []) : l.head? = some (l.headD 0) := by
  cases l with
  | nil => exact absurd rfl h
  | cons a t => rfl

/-- C7: behaviour of `BPlusTree::split_leaf_page` on an overflowing leaf
(4 = `ORDER` keys — the only size at which the code ever splits a leaf,
since it splits immediately on first overflow).  A fresh leaf page (id =
current file length, instance `s.insts.length`) is allocated; the keys and
values from index `len / 2 = 2` upward move to it; the new leaf takes over
the old leaf's `next` link while the old leaf's `next` now points to the new
page; both leaves are persisted in that shape; and the function finishes by
passing the first key of the new leaf (`(ld.keys.drop 2).headD 0`) to
`insert_into_parent` as the separator, together with the new sibling. -/
theorem BPlusTree.split_leaf_spec (fuel : Nat) (s : DBState) (leaf : Nat)
    (ld : PageData)
    (hld : getInst s leaf = some ld)
    (hkeys : ld.keys.length = ORDER)
    (hvals : ld.values.length = ORDER)
    (hch : ld.children = [])
    (hid : ld.id < s.disk.length) :
    ∃ t,
      BPlusTree.split_leaf_page fuel s leaf =
        BPlusTree.insert_into_parent fuel t leaf ((ld.keys.drop 2).headD 0)
          s.insts.length ∧
      getInst t s.insts.length = some
        ⟨s.disk.length, .Leaf, ld.keys.drop 2, [], ld.values.drop 2,
          ld.next, ld.parent_id⟩ ∧
      getInst t leaf = some
        { ld with keys := ld.keys.take 2, values := ld.values.take 2,
                  next := some s.disk.length } ∧
      t.disk.get? s.disk.length = some
        ⟨s.disk.length, .Leaf, ld.keys.drop 2, [], ld.values.drop 2,
          ld.next, ld.parent_id⟩ ∧
      t.disk.get? ld.id = some
        { ld with keys := ld.keys.take 2, values := ld.values.take 2,
                  next := some s.disk.length } := by
  obtain ⟨sA, halloc, hAinsts, hAdisk, hAroot, hAcap⟩ :=
    allocate_page_spec s .Leaf
  have hleaflt : leaf < s.insts.length := getInst_lt hld
  have hAlen : sA.insts.length = s.insts.length + 1 := by
    rw [hAinsts]
    simp
  have hAdlen : sA.disk.length = s.disk.length + 1 := by
    rw [hAdisk]
    simp
  have hgl : getInst sA leaf = some ld := by
    unfold getInst at hld ⊢
    rw [hAinsts, List.get?_append hleaflt]
    exact hld
  have hgn : getInst sA s.insts.length =
      some (PageData.blank s.disk.length .Leaf) := by
    unfold getInst
    rw [hAinsts, List.get?_concat_length]
  have hmid : ld.keys.length / 2 = 2 := by
    rw [hkeys]
    decide
  have hdropne : ld.keys.drop 2 ≠ [] := by
    have hl : (ld.keys.drop 2).length = 2 := by
      rw [List.length_drop, hkeys]
      decide
    intro hc
    rw [hc] at hl
    simp at hl
  unfold BPlusTree.split_leaf_page
  rw [halloc]
  dsimp only
  rw [hgl, hgn]
  dsimp only
  rw [hmid, head?_headD hdropne]
  dsimp only
  set nld : PageData :=
    ⟨s.disk.length, .Leaf, ld.keys.drop 2, [], ld.values.drop 2,
      ld.next, ld.parent_id⟩ with hnld
  set ld2 : PageData :=
    { ld with keys := ld.keys.take 2, values := ld.values.take 2,
              next := some (PageData.blank s.disk.length .Leaf).id } with hld2
  have hblankup : ({ PageData.blank s.disk.length .Leaf with
      keys := ld.keys.drop 2, values := ld.values.drop 2,
      next := ld.next, parent_id := ld.parent_id } : PageData) = nld := rfl
  set s2 : DBState := setInst sA s.insts.length
    { PageData.blank s.disk.length .Leaf with
      keys := ld.keys.drop 2, values := ld.values.drop 2,
      next := ld.next, parent_id := ld.parent_id } with hs2
  set s3 : DBState := setInst s2 leaf ld2 with hs3
  have hs2len : s2.insts.length = s.insts.length + 1 := by
    rw [hs2]
    unfold setInst
    dsimp only
    rw [List.length_set, hAlen]
  have hs3leaf : getInst s3 leaf = some ld2 := by
    rw [hs3]
    refine getInst_setInst_self ld2 ?_
    omega
  have hs3new : getInst s3 s.insts.length = some nld := by
    rw [hs3, getInst_setInst_ne ld2 (by omega), hs2, hblankup]
    refine getInst_setInst_self nld ?_
    omega
  have hsz2 : ¬ PAGE_SIZE < encSize ld2 := by
    rw [hld2]
    simp only [encSize, PAGE_SIZE, List.length_take, hkeys, hvals, hch]
    norm_num [ORDER]
  have hs3disk : s3.disk = sA.disk := rfl
  have hid2 : ld2.id < s3.disk.length := by
    rw [hs3disk, hAdlen]
    have : ld2.id = ld.id := rfl
    omega
  have hw1 := write_page_set hs3leaf hsz2 hid2
  rw [hw1]
  dsimp only
  set s4 : DBState := { s3 with disk := s3.disk.set ld2.id ld2 } with hs4
  have hs4new : getInst s4 s.insts.length = some nld := hs3new
  have hsznld : ¬ PAGE_SIZE < encSize nld := by
    rw [hnld]
    simp only [encSize, PAGE_SIZE, List.length_drop, hkeys, hvals]
    norm_num [ORDER]
  have hs4len : s4.disk.length = s.disk.length + 1 := by
    rw [hs4]
    dsimp only
    rw [List.length_set, hs3disk, hAdlen]
  have hidnld : nld.id < s4.disk.length := by
    rw [hs4len]
    have : nld.id = s.disk.length := rfl
    omega
  have hw2 := write_page_set hs4new hsznld hidnld
  rw [hw2]
  refine ⟨_, rfl, ?_, ?_, ?_, ?_⟩
  · exact hs4new
  · exact hs3leaf
  · show (s4.disk.set nld.id nld).get? s.disk.length = some nld
    have hninl : nld.id = s.disk.length := rfl
    rw [hninl]
    exact List.get?_set_eq_of_lt nld (by omega)
  · show (s4.disk.set nld.id nld).get? ld.id = some ld2
    have hne : nld.id ≠ ld.id := by
      have : nld.id = s.disk.length := rfl
      omega
    rw [List.get?_set_ne nld _ hne]
    show (s3.disk.set ld2.id ld2).get? ld.id = some ld2
    have hidld : ld2.id = ld.id := rfl
    rw [hidld]
    exact List.get?_set_eq_of_lt ld2 (by rw [hs3disk, hAdlen]; omega)

/-- Witness for `BPlusTree.split_leaf_spec`: a concrete single-leaf tree
holding keys 1..4. -/
theorem BPlusTree.split_leaf_spec_witness :
    ∃ t,
      BPlusTree.split_leaf_page 8
        ⟨[⟨0, .Leaf, [1, 2, 3, 4], [], [10, 20, 30, 40], none, none⟩],
          [(0, 0)], [0],
          [⟨0, .Leaf, [1, 2, 3, 4], [], [10, 20, 30, 40], none, none⟩],
          some 0, 100⟩ 0 =
        BPlusTree.insert_into_parent 8 t 0
          ((([1, 2, 3, 4] : List Int).drop 2).headD 0) 1 ∧
      getInst t 1 = some ⟨1, .Leaf, ([1, 2, 3, 4] : List Int).drop 2, [],
        ([10, 20, 30, 40] : List Nat).drop 2, none, none⟩ ∧
      getInst t 0 = some
        { (⟨0, .Leaf, [1, 2, 3, 4], [], [10, 20, 30, 40], none, none⟩ : PageData)
          with keys := ([1, 2, 3, 4] : List Int).take 2,
               values := ([10, 20, 30, 40] : List Nat).take 2,
               next := some 1 } ∧
      t.disk.get? 1 = some ⟨1, .Leaf, ([1, 2, 3, 4] : List Int).drop 2, [],
        ([10, 20, 30, 40] : List Nat).drop 2, none, none⟩ ∧
      t.disk.get? 0 = some
        { (⟨0, .Leaf, [1, 2, 3, 4], [], [10, 20, 30, 40], none, none⟩ : PageData)
          with keys := ([1, 2, 3, 4] : List Int).take 2,
               values := ([10, 20, 30, 40] : List Nat).take 2,
               next := some 1 } :=
  BPlusTree.split_leaf_spec 8
    ⟨[⟨0, .Leaf, [1, 2, 3, 4], [], [10, 20, 30, 40], none, none⟩],
      [(0, 0)], [0],
      [⟨0, .Leaf, [1, 2, 3, 4], [], [10, 20, 30, 40], none, none⟩],
      some 0, 100⟩ 0
    ⟨0, .Leaf, [1, 2, 3, 4], [], [10, 20, 30, 40], none, none⟩
    (by decide) (by decide) (by decide) (by decide) (by decide)

/-! ### Fresh fix-up of moved children and the internal split (C8) -/

lemma alookup_filter_none {l : List (Nat × Nat)} {c : Nat}
    (p : Nat × Nat → Bool) (h : alookup l c = none) :
    alookup (l.filter p) c = none := by
  rw [alookup_none_iff] at h ⊢
  intro e he
  exact h e (List.mem_filter.mp he).1

lemma evict_pool_cases (s : DBState) :
    (BufferPool.evictIfFull s).pool = s.pool ∨
    ∃ old, (BufferPool.evictIfFull s).pool =
      s.pool.filter (fun e => decide (e.1 ≠ old)) := by
  unfold BufferPool.evictIfFull
  by_cases h : s.capacity ≤ s.pool.length
  · rw [if_pos h]
    cases s.lru.getLast? with
    | none => left; rfl
    | some old => right; exact ⟨old, rfl⟩
  · rw [if_neg h]
    left
    rfl

lemma evict_alookup_none {s : DBState} {c : Nat}
    (h : alookup s.pool c = none) :
    alookup (BufferPool.evictIfFull s).pool c = none := by
  rcases evict_pool_cases s with hc | ⟨old, hc⟩
  · rw [hc]; exact h
  · rw [hc]; exact alookup_filter_none _ h

lemma allocate_page_pool {s t : DBState} {nt : NodeType} {i : Nat}
    (h : BufferPool.allocate_page s nt = some (t, i)) :
    ∀ c, alookup s.pool c = none → c ≠ s.disk.length →
      alookup t.pool c = none := by
  intro c hc hne
  unfold BufferPool.allocate_page StorageEngine.allocate_page
    StorageEngine.write_page at h
  dsimp only at h
  have h1 : ¬ (PAGE_SIZE < encSize (PageData.blank s.disk.length nt)) := by
    simp [encSize, PageData.blank, PAGE_SIZE]
  have h2 : ¬ ((PageData.blank s.disk.length nt).id < s.disk.length) := by
    simp [PageData.blank]
  have h3 : (PageData.blank s.disk.length nt).id = s.disk.length := rfl
  rw [if_neg h1, if_neg h2, if_pos h3] at h
  simp only [Option.map_some'] at h
  injection h with h
  injection h with h hi
  have hpool : t.pool = ((PageData.blank s.disk.length nt).id, s.insts.length)
      :: (BufferPool.evictIfFull
        { s with disk := s.disk ++ [PageData.blank s.disk.length nt],
                 insts := s.insts ++ [PageData.blank s.disk.length nt] }).pool := by
    rw [← h]
  rw [hpool, alookup, if_neg (by rw [h3]; omega)]
  exact evict_alookup_none hc

lemma get_page_miss_spec {s : DBState} {pid : Nat} {pd : PageData}
    (halk : alookup s.pool pid = none) (hread : s.disk.get? pid = some pd) :
    ∃ t, BufferPool.get_page s pid = some (t, s.insts.length) ∧
      t.insts = s.insts ++ [pd] ∧ t.disk = s.disk ∧ t.root = s.root ∧
      t.capacity = s.capacity ∧
      (∀ c, alookup s.pool c = none → c ≠ pid → alookup t.pool c = none) := by
  unfold BufferPool.get_page
  rw [halk, show StorageEngine.read_page s pid = some pd from hread]
  dsimp only
  refine ⟨_, rfl, ?_, ?_, ?_, ?_, ?_⟩
  · exact (evictIfFull_fields _).1
  · exact (evictIfFull_fields _).2.1
  · exact (evictIfFull_fields _).2.2.1
  · exact (evictIfFull_fields _).2.2.2
  · intro c hc hne
    show alookup ((pid, s.insts.length) :: _) c = none
    rw [alookup, if_neg (by omega)]
    exact evict_alookup_none hc

/-- Processing the moved children of an internal split when none of them is
currently cached: `fixChildren` succeeds, touches neither the disk nor any
existing instance, and only appends fresh instances. -/
lemma fixChildren_fresh : ∀ (cs : List Nat) (s : DBState) (p : Nat),
    cs.Nodup → (∀ c ∈ cs, alookup s.pool c = none ∧ c < s.disk.length) →
    ∃ t, BPlusTree.fixChildren s cs p = some t ∧ t.disk = s.disk ∧
      t.root = s.root ∧ t.capacity = s.capacity ∧
      s.insts.length ≤ t.insts.length ∧
      (∀ i, i < s.insts.length → getInst t i = getInst s i) := by
  intro cs
  induction cs with
  | nil =>
    intro s p _ _
    exact ⟨s, rfl, rfl, rfl, rfl, le_rfl, fun i _ => rfl⟩
  | cons c rest ih =>
    intro s p hnd hcs
    obtain ⟨halk, hlt⟩ := hcs c (by left)
    obtain ⟨pd, hpd⟩ : ∃ pd, s.disk.get? c = some pd := by
      cases hg : s.disk.get? c with
      | none =>
        rw [List.get?_eq_none] at hg
        omega
      | some pd => exact ⟨pd, rfl⟩
    obtain ⟨t1, hget, hinsts1, hdisk1, hroot1, hcap1, hpool1⟩ :=
      get_page_miss_spec halk hpd
    have hg1 : getInst t1 s.insts.length = some pd := by
      unfold getInst
      rw [hinsts1, List.get?_concat_length]
    set s2 : DBState := setInst t1 s.insts.length
      { pd with parent_id := some p } with hs2
    have hrest : ∀ c2 ∈ rest, alookup s2.pool c2 = none ∧
        c2 < s2.disk.length := by
      intro c2 hc2
      obtain ⟨ha2, hl2⟩ := hcs c2 (List.mem_cons_of_mem _ hc2)
      have hne : c2 ≠ c := by
        intro he
        rw [he] at hc2
        exact (List.nodup_cons.mp hnd).1 hc2
      constructor
      · show alookup t1.pool c2 = none
        exact hpool1 c2 ha2 hne
      · show c2 < t1.disk.length
        rw [hdisk1]
        exact hl2
    obtain ⟨t, hfix, hdisk, hroot, hcap, hlen, hpres⟩ :=
      ih s2 p (List.nodup_cons.mp hnd).2 hrest
    have h2len : s2.insts.length = s.insts.length + 1 := by
      rw [hs2]
      unfold setInst
      dsimp only
      rw [List.length_set, hinsts1]
      simp
    refine ⟨t, ?_, ?_, ?_, ?_, ?_, ?_⟩
    · rw [BPlusTree.fixChildren, hget]
      dsimp only
      rw [hg1]
      exact hfix
    · rw [hdisk]
      exact hdisk1
    · rw [hroot]
      exact hroot1
    · rw [hcap]
      exact hcap1
    · omega
    · intro i hi
      rw [hpres i (by omega), hs2, getInst_setInst_ne _ (by omega)]
      unfold getInst
      rw [hinsts1, List.get?_append hi]

lemma length_eq_four {l : List Int} (h : l.length = 4) :
    ∃ a b c d, l = [a, b, c, d] := by
  cases l with
  | nil => simp at h
  | cons a l1 =>
    cases l1 with
    | nil => simp at h
    | cons b l2 =>
      cases l2 with
      | nil => simp at h
      | cons c l3 =>
        cases l3 with
        | nil => simp at h
        | cons d l4 =>
          cases l4 with
          | nil => exact ⟨a, b, c, d, rfl⟩
          | cons e l5 => simp at h

/-- C8: behaviour of `BPlusTree::split_internal_page` on an overflowing
internal page (4 = `ORDER` keys and 5 children — the only shape at which the
code ever splits an internal page), under the side conditions that the moved
children exist on disk and are not currently cached (so the fix-up loop
creates fresh instances).  A fresh internal page (id = current file length,
instance `s.insts.length`) is allocated; the keys strictly above the middle
index 2 and the children strictly above the corresponding boundary 3 move to
it; the middle key `nd.keys.getD 2 0` is kept by neither sibling — the node
retains `keys.take 2` and `children.take 3` — and is promoted to the parent
by the final `insert_into_parent` call as the new separator. -/
theorem BPlusTree.split_internal_spec (fuel : Nat) (s : DBState) (node : Nat)
    (nd : PageData)
    (hnd : getInst s node = some nd)
    (hkeys : nd.keys.length = ORDER)
    (hch : nd.children.length = ORDER + 1)
    (hvals : nd.values = [])
    (hnodup : nd.keys.Nodup)
    (hid : nd.id < s.disk.length)
    (hmoved : ∀ c ∈ nd.children.drop 3,
      alookup s.pool c = none ∧ c < s.disk.length)
    (hmnodup : (nd.children.drop 3).Nodup) :
    ∃ t,
      BPlusTree.split_internal_page (fuel + 1) s node =
        BPlusTree.insert_into_parent fuel t node (nd.keys.getD 2 0)
          s.insts.length ∧
      getInst t node = some
        { nd with keys := nd.keys.take 2, children := nd.children.take 3 } ∧
      getInst t s.insts.length = some
        ⟨s.disk.length, .Internal, nd.keys.drop 3, nd.children.drop 3, [],
          none, nd.parent_id⟩ ∧
      nd.keys.getD 2 0 ∉ nd.keys.take 2 ∧
      nd.keys.getD 2 0 ∉ nd.keys.drop 3 := by
  have hk4 : nd.keys.length = 4 := by rw [hkeys]; rfl
  have hc5 : nd.children.length = 5 := by rw [hch]; rfl
  obtain ⟨a, b, c0, d, hl⟩ := length_eq_four hk4
  have hup1 : nd.keys.getD 2 0 ∉ nd.keys.take 2 := by
    rw [hl] at hnodup ⊢
    rw [show (([a, b, c0, d] : List Int).getD 2 0) = c0 from rfl,
        show (([a, b, c0, d] : List Int).take 2) = [a, b] from rfl]
    simp only [List.nodup_cons, List.mem_cons, List.not_mem_nil, or_false,
      not_or] at hnodup
    simp only [List.mem_cons, List.not_mem_nil, or_false, not_or]
    tauto
  have hup2 : nd.keys.getD 2 0 ∉ nd.keys.drop 3 := by
    rw [hl] at hnodup ⊢
    rw [show (([a, b, c0, d] : List Int).getD 2 0) = c0 from rfl,
        show (([a, b, c0, d] : List Int).drop 3) = [d] from rfl]
    simp only [List.nodup_cons, List.mem_cons, List.not_mem_nil, or_false,
      not_or] at hnodup
    simp only [List.mem_cons, List.not_mem_nil, or_false, not_or]
    tauto
  obtain ⟨sA, halloc, hAinsts, hAdisk, hAroot, hAcap⟩ :=
    allocate_page_spec s .Internal
  have hnodelt : node < s.insts.length := getInst_lt hnd
  have hAlen : sA.insts.length = s.insts.length + 1 := by
    rw [hAinsts]
    simp
  have hAdlen : sA.disk.length = s.disk.length + 1 := by
    rw [hAdisk]
    simp
  have hgnode : getInst sA node = some nd := by
    unfold getInst at hnd ⊢
    rw [hAinsts, List.get?_append hnodelt]
    exact hnd
  have hmid : nd.keys.length / 2 = 2 := by
    rw [hkeys]
    decide
  have hget2 : nd.keys.get? 2 = some (nd.keys.getD 2 0) :=
    get?_getD nd.keys 2 (by omega)
  unfold BPlusTree.split_internal_page
  rw [BPlusTree.upward]
  rw [halloc]
  dsimp only
  rw [hgnode]
  dsimp only
  rw [hmid, hget2]
  dsimp only
  set nd2 : PageData :=
    { nd with keys := nd.keys.take (2 + 1),
              children := nd.children.take (2 + 1) } with hnd2
  set s2 : DBState := setInst sA node nd2 with hs2
  have hs2len : s2.insts.length = s.insts.length + 1 := by
    rw [hs2]
    unfold setInst
    dsimp only
    rw [List.length_set, hAlen]
  have hgni : getInst s2 s.insts.length =
      some (PageData.blank s.disk.length .Internal) := by
    rw [hs2, getInst_setInst_ne _ (by omega)]
    unfold getInst
    rw [hAinsts, List.get?_concat_length]
  rw [hgni]
  dsimp only
  set nid3 : PageData :=
    { PageData.blank s.disk.length .Internal with
      keys := nd.keys.drop (2 + 1),
      children := nd.children.drop (2 + 1) } with hnid3
  set s3 : DBState := setInst s2 s.insts.length nid3 with hs3
  have hs3len : s3.insts.length = s.insts.length + 1 := by
    rw [hs3]
    unfold setInst
    dsimp only
    rw [List.length_set, hs2len]
  have hs3disk : s3.disk = sA.disk := rfl
  have hs3pool : s3.pool = sA.pool := rfl
  have hmoved3 : ∀ c ∈ nd.children.drop (2 + 1),
      alookup s3.pool c = none ∧ c < s3.disk.length := by
    intro c hc
    obtain ⟨ha, hcl⟩ := hmoved c hc
    constructor
    · rw [hs3pool]
      exact allocate_page_pool halloc c ha (by omega)
    · rw [hs3disk, hAdlen]
      omega
  obtain ⟨t1, hfix, hfdisk, hfroot, hfcap, hflen, hfpres⟩ :=
    fixChildren_fresh (nd.children.drop (2 + 1)) s3
      (PageData.blank s.disk.length NodeType.Internal).id hmnodup hmoved3
  rw [hfix]
  dsimp only
  have hg4node : getInst t1 node = some nd2 := by
    rw [hfpres node (by omega), hs3, getInst_setInst_ne _ (by omega), hs2]
    exact getInst_setInst_self nd2 (by omega)
  have hg4ni : getInst t1 s.insts.length = some nid3 := by
    rw [hfpres s.insts.length (by omega), hs3]
    exact getInst_setInst_self nid3 (by omega)
  rw [hg4node, hg4ni]
  dsimp only
  set nid5 : PageData := { nid3 with parent_id := nd2.parent_id } with hnid5
  set s5 : DBState := setInst t1 s.insts.length nid5 with hs5
  have hs5len : s5.insts.length = t1.insts.length := by
    rw [hs5]
    unfold setInst
    dsimp only
    rw [List.length_set]
  have hg5node : getInst s5 node = some nd2 := by
    rw [hs5, getInst_setInst_ne _ (by omega)]
    exact hg4node
  rw [hg5node]
  dsimp only
  set nd6 : PageData :=
    { nd2 with keys := nd2.keys.take 2,
               children := nd2.children.take (2 + 1) } with hnd6
  set s6 : DBState := setInst s5 node nd6 with hs6
  have hg6node : getInst s6 node = some nd6 := by
    rw [hs6]
    exact getInst_setInst_self nd6 (by omega)
  have hsz6 : ¬ PAGE_SIZE < encSize nd6 := by
    rw [hnd6, hnd2]
    simp only [encSize, PAGE_SIZE, List.length_take, hk4, hc5, hvals]
    norm_num
  have hs6disk : s6.disk = sA.disk := by
    rw [hs6, hs5]
    unfold setInst
    dsimp only
    rw [hfdisk, hs3disk]
  have hid6 : nd6.id < s6.disk.length := by
    rw [hs6disk, hAdlen]
    have : nd6.id = nd.id := rfl
    omega
  have hw1 := write_page_set hg6node hsz6 hid6
  rw [hw1]
  dsimp only
  set s7 : DBState := { s6 with disk := s6.disk.set nd6.id nd6 } with hs7
  have hg7ni : getInst s7 s.insts.length = some nid5 := by
    show getInst s6 s.insts.length = some nid5
    rw [hs6, getInst_setInst_ne _ (by omega), hs5]
    exact getInst_setInst_self nid5 (by omega)
  have hsz7 : ¬ PAGE_SIZE < encSize nid5 := by
    rw [hnid5, hnid3]
    simp only [encSize, PAGE_SIZE, List.length_drop, hk4, hc5,
      PageData.blank]
    norm_num
  have hid7 : nid5.id < s7.disk.length := by
    have h7 : s7.disk.length = s6.disk.length := by
      rw [hs7]
      dsimp only
      rw [List.length_set]
    rw [h7, hs6disk, hAdlen]
    have : nid5.id = s.disk.length := rfl
    omega
  have hw2 := write_page_set hg7ni hsz7 hid7
  rw [hw2]
  refine ⟨_, rfl, ?_, ?_, hup1, hup2⟩
  · show getInst s7 node = some _
    have h8 : getInst s7 node = some nd6 := hg6node
    rw [h8]
    have hflat : nd6 =
        { nd with keys := nd.keys.take 2,
                  children := nd.children.take 3 } := by
      rw [hnd6, hnd2]
      have h9 : (nd.keys.take (2 + 1)).take 2 = nd.keys.take 2 := by
        rw [List.take_take]
        norm_num
      have h10 : (nd.children.take (2 + 1)).take (2 + 1)
          = nd.children.take 3 := by
        rw [List.take_take]
        norm_num
      rw [show ({ nd with keys := nd.keys.take (2 + 1),
                          children := nd.children.take (2 + 1) }
            : PageData).keys = nd.keys.take (2 + 1) from rfl]
      rw [show ({ nd with keys := nd.keys.take (2 + 1),
                          children := nd.children.take (2 + 1) }
            : PageData).children = nd.children.take (2 + 1) from rfl]
      rw [h9, h10]
    rw [hflat]
  · show getInst s7 s.insts.length = some _
    rw [hg7ni]
    rfl
/-- Witness for `BPlusTree.split_internal_spec`: a concrete database whose
single cached instance is an internal page with 4 keys and 5 children, all
moved children living on disk outside the pool. -/
theorem BPlusTree.split_internal_spec_witness :
    ∃ t,
      BPlusTree.split_internal_page (8 + 1)
        ⟨[⟨0, .Internal, [10, 20, 30, 40], [1, 2, 3, 4, 5], [], none, none⟩],
          [(0, 0)], [0],
          [⟨0, .Internal, [10, 20, 30, 40], [1, 2, 3, 4, 5], [], none, none⟩,
            PageData.blank 1 .Leaf, PageData.blank 2 .Leaf,
            PageData.blank 3 .Leaf, PageData.blank 4 .Leaf,
            PageData.blank 5 .Leaf],
          some 0, 100⟩ 0 =
        BPlusTree.insert_into_parent 8 t 0
          (([10, 20, 30, 40] : List Int).getD 2 0) 1 ∧
      getInst t 0 = some
        { (⟨0, .Internal, [10, 20, 30, 40], [1, 2, 3, 4, 5], [], none, none⟩
            : PageData)
          with keys := ([10, 20, 30, 40] : List Int).take 2,
               children := ([1, 2, 3, 4, 5] : List Nat).take 3 } ∧
      getInst t 1 = some
        ⟨6, .Internal, ([10, 20, 30, 40] : List Int).drop 3,
          ([1, 2, 3, 4, 5] : List Nat).drop 3, [], none, none⟩ ∧
      ([10, 20, 30, 40] : List Int).getD 2 0 ∉
        ([10, 20, 30, 40] : List Int).take 2 ∧
      ([10, 20, 30, 40] : List Int).getD 2 0 ∉
        ([10, 20, 30, 40] : List Int).drop 3 :=
  BPlusTree.split_internal_spec 8
    ⟨[⟨0, .Internal, [10, 20, 30, 40], [1, 2, 3, 4, 5], [], none, none⟩],
      [(0, 0)], [0],
      [⟨0, .Internal, [10, 20, 30, 40], [1, 2, 3, 4, 5], [], none, none⟩,
        PageData.blank 1 .Leaf, PageData.blank 2 .Leaf,
        PageData.blank 3 .Leaf, PageData.blank 4 .Leaf,
        PageData.blank 5 .Leaf],
      some 0, 100⟩ 0
    ⟨0, .Internal, [10, 20, 30, 40], [1, 2, 3, 4, 5], [], none, none⟩
    (by decide) (by decide) (by decide) (by decide) (by decide)
    (by decide) (by decide) (by decide)
lemma icmp_self (a : Int) : icmp a a = Ordering.eq := by
  unfold icmp
  rw [if_neg (lt_irrefl a), if_neg (lt_irrefl a)]

lemma rustBinarySearch_single_self (k : Int) :
    rustBinarySearch [k] k = .found 0 := by
  show (match icmp ([k].getD (bsLoop [k] k 1 0 1) 0) k with
        | Ordering.eq => BsResult.found (bsLoop [k] k 1 0 1)
        | Ordering.lt => BsResult.notFound (bsLoop [k] k 1 0 1 + 1)
        | Ordering.gt => BsResult.notFound (bsLoop [k] k 1 0 1)) =
      BsResult.found 0
  rw [show bsLoop [k] k 1 0 1 = 0 from rfl,
      show ([k].getD 0 0) = k from rfl, icmp_self]

lemma rustBinarySearch_pair_self (k : Int) :
    rustBinarySearch [k, k] k = .found 1 := by
  have hb : bsLoop [k, k] k 2 0 2 = 1 := by
    show bsLoop [k, k] k 1
        (match icmp ([k, k].getD (0 + 2 / 2) 0) k with
          | Ordering.gt => 0
          | _ => 0 + 2 / 2) (2 - 2 / 2) = 1
    rw [show ([k, k].getD (0 + 2 / 2) 0) = k from rfl, icmp_self]
    rfl
  show (match icmp ([k, k].getD (bsLoop [k, k] k 2 0 2) 0) k with
        | Ordering.eq => BsResult.found (bsLoop [k, k] k 2 0 2)
        | Ordering.lt => BsResult.notFound (bsLoop [k, k] k 2 0 2 + 1)
        | Ordering.gt => BsResult.notFound (bsLoop [k, k] k 2 0 2)) =
      BsResult.found 1
  rw [hb, show ([k, k].getD 1 0) = k from rfl, icmp_self]

/-- C2 (amended): inserting the same key twice never reports an error — the
code has no duplicate check and no `DuplicateKey` error type.  On a fresh
tree, `insert k v1` followed by `insert k v2` succeeds: `binary_search` on
the one-key leaf `[k]` returns `Ok(0)` and `unwrap_or_else(|e| e)` makes 0
the insertion position, so the leaf becomes keys `[k, k]`, values
`[v2, v1]` — the second value is stored in front of the first.  A subsequent
`search k` runs `binary_search` on `[k, k]`, which lands on index 1, and so
still returns the FIRST inserted value `v1`. -/
theorem BPlusTree.duplicate_insert_keeps_first_value (k : Int) (v1 v2 : Nat) :
    ∃ s2,
      (BPlusTree.insert emptyDB k v1).bind
        (fun s1 => BPlusTree.insert s1 k v2) = some s2 ∧
      getInst s2 0 = some ⟨0, .Leaf, [k, k], [], [v2, v1], none, none⟩ ∧
      searchVal s2 k = some (some v1) := by
  refine ⟨⟨[⟨0, .Leaf, [k, k], [], [v2, v1], none, none⟩], [(0, 0)], [0],
           [⟨0, .Leaf, [k, k], [], [v2, v1], none, none⟩], some 0, 100⟩,
          ?_, rfl, ?_⟩
  · show (match vecInsert (rustBinarySearch [k] k).pos k [k],
              vecInsert (rustBinarySearch [k] k).pos v2 [v1] with
          | some nk, some nv =>
            match BufferPool.write_page
                (setInst
                  ⟨[⟨0, .Leaf, [k], [], [v1], none, none⟩], [(0, 0)], [0],
                    [⟨0, .Leaf, [k], [], [v1], none, none⟩], some 0, 100⟩
                  0
                  { (⟨0, .Leaf, [k], [], [v1], none, none⟩ : PageData) with
                    keys := nk, values := nv }) 0 with
            | none => none
            | some s3 =>
              if ORDER - 1 < nk.length then BPlusTree.split_leaf_page 18 s3 0
              else some s3
          | _, _ => none) =
        some ⟨[⟨0, .Leaf, [k, k], [], [v2, v1], none, none⟩], [(0, 0)], [0],
              [⟨0, .Leaf, [k, k], [], [v2, v1], none, none⟩], some 0, 100⟩
    rw [rustBinarySearch_single_self]
    rfl
  · show (Option.map (fun p : DBState × Option Nat => p.2)
        (match rustBinarySearch [k, k] k with
          | BsResult.found i =>
            match ([v2, v1] : List Nat).get? i with
            | none => none
            | some v =>
              some ((⟨[⟨0, .Leaf, [k, k], [], [v2, v1], none, none⟩],
                [(0, 0)], [0],
                [⟨0, .Leaf, [k, k], [], [v2, v1], none, none⟩],
                some 0, 100⟩ : DBState), some v)
          | BsResult.notFound _ =>
            some ((⟨[⟨0, .Leaf, [k, k], [], [v2, v1], none, none⟩],
              [(0, 0)], [0],
              [⟨0, .Leaf, [k, k], [], [v2, v1], none, none⟩],
              some 0, 100⟩ : DBState), none))) = some (some v1)
    rw [rustBinarySearch_pair_self]
    rfl
lemma shaped_mono {L L' : Nat} {B : PageData → Prop} {pd : PageData}
    (h : L ≤ L') (hs : Shaped L B pd) : Shaped L' B pd := by
  obtain ⟨hb, hself, hch, hpar⟩ := hs
  refine ⟨hb, hself, fun c hc => ?_, fun q hq => ?_⟩
  · exact lt_of_lt_of_le (hch c hc) h
  · obtain ⟨h1, h2⟩ := hpar q hq
    exact ⟨lt_of_lt_of_le h1 h, h2⟩

lemma evict_pool_sub (s : DBState) :
    ∀ e ∈ (BufferPool.evictIfFull s).pool, e ∈ s.pool := by
  rcases evict_pool_cases s with hc | ⟨old, hc⟩ <;> rw [hc]
  · exact fun e he => he
  · exact fun e he => (List.mem_filter.mp he).1

lemma evict_pool_sublist (s : DBState) :
    List.Sublist (BufferPool.evictIfFull s).pool s.pool := by
  rcases evict_pool_cases s with hc | ⟨old, hc⟩
  · rw [hc]
  · rw [hc]
    exact List.filter_sublist _

/-- Full description of `BufferPool::allocate_page`, including the pool. -/
lemma allocate_page_full {s t : DBState} {nt : NodeType} {i : Nat}
    (h : BufferPool.allocate_page s nt = some (t, i)) :
    i = s.insts.length ∧
    t.insts = s.insts ++ [PageData.blank s.disk.length nt] ∧
    t.disk = s.disk ++ [PageData.blank s.disk.length nt] ∧
    t.root = s.root ∧ t.capacity = s.capacity ∧
    ∃ rest, t.pool = (s.disk.length, s.insts.length) :: rest ∧
      List.Sublist rest s.pool := by
  unfold BufferPool.allocate_page StorageEngine.allocate_page
    StorageEngine.write_page at h
  dsimp only at h
  have h1 : ¬ (PAGE_SIZE < encSize (PageData.blank s.disk.length nt)) := by
    simp [encSize, PageData.blank, PAGE_SIZE]
  have h2 : ¬ ((PageData.blank s.disk.length nt).id < s.disk.length) := by
    simp [PageData.blank]
  have h3 : (PageData.blank s.disk.length nt).id = s.disk.length := rfl
  rw [if_neg h1, if_neg h2, if_pos h3] at h
  simp only [Option.map_some'] at h
  injection h with h
  injection h with h hi
  refine ⟨hi.symm, ?_, ?_, ?_, ?_, ?_⟩
  · rw [← h]; exact (evictIfFull_fields _).1
  · rw [← h]; exact (evictIfFull_fields _).2.1
  · rw [← h]; exact (evictIfFull_fields _).2.2.1
  · rw [← h]; exact (evictIfFull_fields _).2.2.2
  · have hpool : t.pool =
        ((PageData.blank s.disk.length nt).id, s.insts.length) ::
          (BufferPool.evictIfFull
            { s with disk := s.disk ++ [PageData.blank s.disk.length nt],
                     insts := s.insts ++ [PageData.blank s.disk.length nt]
            }).pool := by
      rw [← h]
    rw [h3] at hpool
    exact ⟨_, hpool, evict_pool_sublist _⟩
/-- Full description of a successful `BufferPool::get_page`: the disk, root
and capacity are untouched, existing instances are preserved, and the call
either hits the pool (state changed only in the LRU queue) or misses and
appends a fresh instance holding the on-disk page. -/
lemma get_page_full {s t : DBState} {p i : Nat}
    (h : BufferPool.get_page s p = some (t, i)) :
    t.disk = s.disk ∧ t.root = s.root ∧ t.capacity = s.capacity ∧
    s.insts.length ≤ t.insts.length ∧
    (∀ j, j < s.insts.length → getInst t j = getInst s j) ∧
    ((t.insts = s.insts ∧ t.pool = s.pool ∧ (p, i) ∈ s.pool) ∨
      (∃ pd rest, s.disk.get? p = some pd ∧ alookup s.pool p = none ∧
        i = s.insts.length ∧ t.insts = s.insts ++ [pd] ∧
        t.pool = (p, i) :: rest ∧ List.Sublist rest s.pool)) := by
  unfold BufferPool.get_page at h
  cases halk : alookup s.pool p with
  | some j =>
    rw [halk] at h
    dsimp only at h
    injection h with h
    injection h with h hi
    subst hi
    refine ⟨by rw [← h], by rw [← h], by rw [← h], by rw [← h], ?_, ?_⟩
    · intro j0 hj0
      rw [← h]
      rfl
    · left
      exact ⟨by rw [← h], by rw [← h], alookup_mem halk⟩
  | none =>
    rw [halk] at h
    cases hread : s.disk.get? p with
    | none =>
      rw [show StorageEngine.read_page s p = none from hread] at h
      dsimp only at h
      exact absurd h (by simp)
    | some pd =>
      rw [show StorageEngine.read_page s p = some pd from hread] at h
      dsimp only at h
      injection h with h
      injection h with h hi
      subst hi
      have hinsts : t.insts = s.insts ++ [pd] := by
        rw [← h]
        exact (evictIfFull_fields _).1
      refine ⟨by rw [← h]; exact (evictIfFull_fields _).2.1,
        by rw [← h]; exact (evictIfFull_fields _).2.2.1,
        by rw [← h]; exact (evictIfFull_fields _).2.2.2, ?_, ?_, ?_⟩
      · rw [hinsts]
        simp
      · intro j0 hj0
        unfold getInst
        rw [hinsts, List.get?_append hj0]
      · right
        have hpool : t.pool = (p, s.insts.length) ::
            (BufferPool.evictIfFull
              { s with insts := s.insts ++ [pd] }).pool := by
          rw [← h]
        exact ⟨pd, _, rfl, rfl, rfl, hinsts, hpool,
          evict_pool_sublist _⟩
/-- `get_page` preserves all invariant clauses (with disk exceptions `Ed`
and instance exceptions `Xs`) and returns a well-shaped instance of the
requested page, provided the page id is not disk-excepted and no excepted
instance holds a page with that id. -/
lemma get_page_ok {s t : DBState} {p i : Nat} {Ed Xs : List Nat}
    (hdc : DiskCo s) (hpc : PoolCo s) (hnd : PoolNodup s)
    (hdok : DiskOK s Ed) (hpok : PoolOK s Xs) (hrok : RootOK s Xs)
    (hpE : p ∉ Ed)
    (hx : ∀ x ∈ Xs, ∀ pd, getInst s x = some pd → pd.id ≠ p)
    (h : BufferPool.get_page s p = some (t, i)) :
    DiskCo t ∧ PoolCo t ∧ PoolNodup t ∧ DiskOK t Ed ∧ PoolOK t Xs ∧
    RootOK t Xs ∧ t.disk = s.disk ∧ t.root = s.root ∧
    t.capacity = s.capacity ∧ s.insts.length ≤ t.insts.length ∧
    (∀ j, j < s.insts.length → getInst t j = getInst s j) ∧
    (∃ pd, getInst t i = some pd ∧ pd.id = p ∧ p < s.disk.length ∧
      Shaped s.disk.length Bal pd) := by
  obtain ⟨hdisk, hroot, hcap, hlen, hpres, hcase⟩ := get_page_full h
  rcases hcase with ⟨hinsts, hpool, hmem⟩ | ⟨pd0, rest, hread, halk, hi, hinsts, hpool, hsub⟩
  · obtain ⟨pd, hpd, hpid, hplt⟩ := hpc _ hmem
    have hish : Shaped s.disk.length Bal pd := by
      have hiX : (p, i).2 ∉ Xs := by
        intro hin
        exact hx _ hin pd hpd (by rw [hpid])
      exact hpok _ hmem hiX pd hpd
    have hgi : ∀ j, getInst t j = getInst s j := by
      intro j
      unfold getInst
      rw [hinsts]
    refine ⟨?_, ?_, ?_, ?_, ?_, ?_, hdisk, hroot, hcap, hlen, hpres, ?_⟩
    · intro j hj
      rw [hdisk] at hj ⊢
      exact hdc j hj
    · intro e he
      rw [hpool] at he
      obtain ⟨q, h1, h2, h3⟩ := hpc e he
      exact ⟨q, by rw [hgi]; exact h1, h2, by rw [hdisk]; exact h3⟩
    · show (t.pool.map Prod.fst).Nodup
      rw [hpool]
      exact hnd
    · intro j pd1 hj hjE
      rw [hdisk] at hj
      have := hdok j pd1 hj hjE
      rw [hdisk]
      exact this
    · intro e he heX pd1 hpd1
      rw [hpool] at he
      rw [hgi] at hpd1
      have := hpok e he heX pd1 hpd1
      rw [hdisk]
      exact this
    · intro r hr
      rw [hroot] at hr
      obtain ⟨q, h1, h2, h3⟩ := hrok r hr
      refine ⟨q, by rw [hgi]; exact h1, by rw [hdisk]; exact h2, ?_⟩
      intro hX
      rw [hdisk]
      exact h3 hX
    · exact ⟨pd, by rw [hgi]; exact hpd, hpid, hplt, hish⟩
  · have hplt : p < s.disk.length := List.get?_eq_some.mp hread |>.choose
    obtain ⟨pdc, hpdc, hpdcid⟩ := hdc p hplt
    have hpd0id : pd0.id = p := by
      rw [hread] at hpdc
      injection hpdc with hpdc
      rw [hpdc]
      exact hpdcid
    have hpd0sh : Shaped s.disk.length Bal pd0 := hdok p pd0 hread hpE
    have hti : getInst t i = some pd0 := by
      unfold getInst
      rw [hinsts, hi, List.get?_concat_length]
    have hkeys_ne : ∀ e ∈ s.pool, e.1 ≠ p := alookup_none_iff.mp halk
    refine ⟨?_, ?_, ?_, ?_, ?_, ?_, hdisk, hroot, hcap, hlen, hpres, ?_⟩
    · intro j hj
      rw [hdisk] at hj ⊢
      exact hdc j hj
    · intro e he
      rw [hpool] at he
      rcases List.mem_cons.mp he with hhd | htl
      · subst hhd
        exact ⟨pd0, hti, hpd0id, by rw [hdisk]; exact hplt⟩
      · have hmem : e ∈ s.pool := hsub.subset htl
        obtain ⟨q, h1, h2, h3⟩ := hpc e hmem
        have he2 : e.2 < s.insts.length := getInst_lt h1
        exact ⟨q, by rw [hpres e.2 he2]; exact h1, h2,
          by rw [hdisk]; exact h3⟩
    · show (t.pool.map Prod.fst).Nodup
      rw [hpool]
      refine List.Nodup.cons ?_ ((hsub.map Prod.fst).nodup hnd)
      intro hmemp
      obtain ⟨e, hel, hefst⟩ := List.mem_map.mp hmemp
      exact hkeys_ne e (hsub.subset hel) hefst
    · intro j pd1 hj hjE
      rw [hdisk] at hj
      have := hdok j pd1 hj hjE
      rw [hdisk]
      exact this
    · intro e he heX pd1 hpd1
      rw [hdisk]
      rw [hpool] at he
      rcases List.mem_cons.mp he with hhd | htl
      · subst hhd
        rw [hti] at hpd1
        injection hpd1 with hpd1
        rw [← hpd1]
        exact hpd0sh
      · have hmem : e ∈ s.pool := hsub.subset htl
        obtain ⟨q, h1, h2, h3⟩ := hpc e hmem
        have he2 : e.2 < s.insts.length := getInst_lt h1
        rw [hpres e.2 he2] at hpd1
        exact hpok e hmem heX pd1 hpd1
    · intro r hr
      rw [hroot] at hr
      obtain ⟨q, h1, h2, h3⟩ := hrok r hr
      have hrlt : r < s.insts.length := getInst_lt h1
      refine ⟨q, by rw [hpres r hrlt]; exact h1, by rw [hdisk]; exact h2, ?_⟩
      intro hX
      rw [hdisk]
      exact h3 hX
    · exact ⟨pd0, hti, hpd0id, hplt, hpd0sh⟩
/-- Overwriting instance `ci` with a page of unchanged id preserves all
invariant clauses; the instance-exception list may drop `ci` when the new
value is well shaped (`hv` right), or must retain it when it is not
(`hv` left). -/
lemma setInst_clauses {s : DBState} {ci : Nat} {cd v : PageData}
    {Ed Xs Xs2 : List Nat}
    (hdc : DiskCo s) (hpc : PoolCo s) (hnd : PoolNodup s)
    (hdok : DiskOK s Ed) (hpok : PoolOK s Xs) (hrok : RootOK s Xs)
    (hcd : getInst s ci = some cd) (hvid : v.id = cd.id)
    (hsub : ∀ x ∈ Xs, x = ci ∨ x ∈ Xs2)
    (hv : ci ∈ Xs2 ∨ Shaped s.disk.length Bal v) :
    DiskCo (setInst s ci v) ∧ PoolCo (setInst s ci v) ∧
    PoolNodup (setInst s ci v) ∧ DiskOK (setInst s ci v) Ed ∧
    PoolOK (setInst s ci v) Xs2 ∧ RootOK (setInst s ci v) Xs2 := by
  have hci : ci < s.insts.length := getInst_lt hcd
  refine ⟨hdc, ?_, hnd, hdok, ?_, ?_⟩
  · intro e he
    obtain ⟨q, h1, h2, h3⟩ := hpc e he
    by_cases hec : e.2 = ci
    · have hqcd : q = cd := by
        rw [hec] at h1
        rw [h1] at hcd
        injection hcd
      refine ⟨v, ?_, by rw [hvid, ← hqcd]; exact h2, h3⟩
      rw [hec]
      exact getInst_setInst_self v hci
    · exact ⟨q, by rw [getInst_setInst_ne v (fun hh => hec hh.symm)]; exact h1,
        h2, h3⟩
  · intro e he heX pd1 hpd1
    by_cases hec : e.2 = ci
    · rw [hec, getInst_setInst_self v hci] at hpd1
      injection hpd1 with hpd1
      subst hpd1
      rcases hv with hvX | hvS
      · exact absurd (hec ▸ hvX) heX
      · exact hvS
    · rw [getInst_setInst_ne v (fun hh => hec hh.symm)] at hpd1
      have heXs : e.2 ∉ Xs := by
        intro hin
        rcases hsub _ hin with h | h
        · exact hec h
        · exact heX h
      exact hpok e he heXs pd1 hpd1
  · intro r hr
    obtain ⟨q, h1, h2, h3⟩ := hrok r hr
    by_cases hrc : r = ci
    · have hqcd : q = cd := by
        rw [hrc] at h1
        rw [h1] at hcd
        injection hcd
      refine ⟨v, by rw [hrc]; exact getInst_setInst_self v hci,
        by rw [hvid, ← hqcd]; exact h2, ?_⟩
      intro hX
      rcases hv with hvX | hvS
      · exact absurd (hrc ▸ hvX) hX
      · exact hvS
    · refine ⟨q, ?_, h2, ?_⟩
      · rw [getInst_setInst_ne v (fun hh => hrc hh.symm)]
        exact h1
      · intro hX
        refine h3 ?_
        intro hin
        rcases hsub _ hin with h | h
        · exact hrc h
        · exact hX h
lemma encSize_ok {pd : PageData} (hk : pd.keys.length ≤ 4)
    (hc : pd.children.length ≤ 5) (hv : pd.values.length ≤ 4) :
    ¬ PAGE_SIZE < encSize pd := by
  unfold encSize PAGE_SIZE
  omega

lemma bal_parent_blind {cd : PageData} {p : Option Nat} :
    Bal { cd with parent_id := p } ↔ Bal cd :=
  Iff.rfl

lemma shaped_parent {L : Nat} {cd : PageData} {q : Nat}
    (hsh : Shaped L Bal cd) (h1 : q < L) (h2 : q ≠ cd.id) :
    Shaped L Bal { cd with parent_id := some q } := by
  obtain ⟨hb, hself, hch, _⟩ := hsh
  refine ⟨bal_parent_blind.mpr hb, hself, hch, ?_⟩
  intro q' hq'
  have hqq : q = q' := by
    injection hq'
  subst hqq
  exact ⟨h1, h2⟩

lemma bal_bounds {pd : PageData} (h : Bal pd) :
    pd.keys.length ≤ 4 ∧ pd.children.length ≤ 5 ∧ pd.values.length ≤ 4 := by
  unfold Bal at h
  cases hnt : pd.nodeType <;> rw [hnt] at h
  · obtain ⟨h1, h2, h3, h4⟩ := h
    rw [h1]
    unfold ORDER at h4
    simp only [List.length_nil]
    omega
  · obtain ⟨h1, h2, h3, h4⟩ := h
    rw [h1]
    unfold ORDER at h4
    simp only [List.length_nil]
    omega

/-- Overwriting disk position `v.id` with the page `v` preserves all
invariant clauses; the disk exception list may drop `v.id` when the written
page is well shaped (`hv` right), or must retain it when it is not
(`hv` left). -/
lemma disk_set_clauses {s : DBState} {v : PageData} {Ed Ed2 Xs : List Nat}
    (hdc : DiskCo s) (hpc : PoolCo s) (hnd : PoolNodup s)
    (hdok : DiskOK s Ed) (hpok : PoolOK s Xs) (hrok : RootOK s Xs)
    (hid : v.id < s.disk.length)
    (hsub : ∀ j ∈ Ed, j = v.id ∨ j ∈ Ed2)
    (hv : v.id ∈ Ed2 ∨ Shaped s.disk.length Bal v) :
    DiskCo { s with disk := s.disk.set v.id v } ∧
    PoolCo { s with disk := s.disk.set v.id v } ∧
    PoolNodup { s with disk := s.disk.set v.id v } ∧
    DiskOK { s with disk := s.disk.set v.id v } Ed2 ∧
    PoolOK { s with disk := s.disk.set v.id v } Xs ∧
    RootOK { s with disk := s.disk.set v.id v } Xs := by
  have hlen : (s.disk.set v.id v).length = s.disk.length :=
    List.length_set s.disk v.id v
  refine ⟨?_, ?_, hnd, ?_, ?_, ?_⟩
  · intro j hj
    dsimp only at hj ⊢
    rw [hlen] at hj
    by_cases hjp : j = v.id
    · subst hjp
      exact ⟨v, List.get?_set_eq_of_lt v hid, rfl⟩
    · obtain ⟨q, h1, h2⟩ := hdc j hj
      refine ⟨q, ?_, h2⟩
      rw [List.get?_set_ne v _ (fun hh => hjp hh.symm)]
      exact h1
  · intro e he
    obtain ⟨q, h1, h2, h3⟩ := hpc e he
    exact ⟨q, h1, h2, by dsimp only; rw [hlen]; exact h3⟩
  · intro j pd1 hj hjE
    dsimp only at hj ⊢
    rw [hlen]
    by_cases hjp : j = v.id
    · subst hjp
      rw [List.get?_set_eq_of_lt v hid] at hj
      injection hj with hj
      subst hj
      rcases hv with hvE | hvS
      · exact absurd hvE hjE
      · exact hvS
    · rw [List.get?_set_ne v _ (fun hh => hjp hh.symm)] at hj
      refine hdok j pd1 hj ?_
      intro hin
      rcases hsub j hin with hh | hh
      · exact hjp hh
      · exact hjE hh
  · intro e he heX pd1 hpd1
    dsimp only
    rw [hlen]
    exact hpok e he heX pd1 hpd1
  · intro r hr
    obtain ⟨q, h1, h2, h3⟩ := hrok r hr
    refine ⟨q, h1, by dsimp only; rw [hlen]; exact h2, ?_⟩
    intro hX
    dsimp only
    rw [hlen]
    exact h3 hX

lemma setInst_fields (s : DBState) (i : Nat) (pd : PageData) :
    (setInst s i pd).insts.length = s.insts.length ∧
    (setInst s i pd).disk = s.disk ∧ (setInst s i pd).pool = s.pool ∧
    (setInst s i pd).root = s.root ∧
    (setInst s i pd).capacity = s.capacity := by
  unfold setInst
  exact ⟨List.length_set s.insts i pd, rfl, rfl, rfl, rfl⟩

/-- The parent-pointer fix-up loop of `split_internal_page` preserves all
invariant clauses, touches neither disk nor root, and leaves every excepted
instance untouched, provided no excepted page id occurs among the processed
children and the new parent id is an existing page distinct from all of
them. -/
lemma fixChildren_ok : ∀ (cs : List Nat) (s : DBState) (newPid : Nat)
    (t : DBState) (Ed Xs : List Nat),
    DiskCo s → PoolCo s → PoolNodup s → DiskOK s Ed → PoolOK s Xs →
    RootOK s Xs →
    (∀ c ∈ cs, c ∉ Ed) →
    (∀ x ∈ Xs, x < s.insts.length) →
    (∀ x ∈ Xs, ∀ pd, getInst s x = some pd → pd.id ∉ cs) →
    newPid < s.disk.length → (∀ c ∈ cs, newPid ≠ c) →
    BPlusTree.fixChildren s cs newPid = some t →
    DiskCo t ∧ PoolCo t ∧ PoolNodup t ∧ DiskOK t Ed ∧ PoolOK t Xs ∧
    RootOK t Xs ∧ t.disk = s.disk ∧ t.root = s.root ∧
    t.capacity = s.capacity ∧ s.insts.length ≤ t.insts.length ∧
    (∀ x ∈ Xs, getInst t x = getInst s x) := by
  intro cs
  induction cs with
  | nil =>
    intro s newPid t Ed Xs hdc hpc hnd hdok hpok hrok hcsE hXlt hXcs hnp
      hnc h
    rw [BPlusTree.fixChildren] at h
    injection h with h
    subst h
    exact ⟨hdc, hpc, hnd, hdok, hpok, hrok, rfl, rfl, rfl, le_refl _,
      fun x _ => rfl⟩
  | cons c rest ih =>
    intro s newPid t Ed Xs hdc hpc hnd hdok hpok hrok hcsE hXlt hXcs hnp
      hnc h
    rw [BPlusTree.fixChildren] at h
    cases hg : BufferPool.get_page s c with
    | none =>
      rw [hg] at h
      exact absurd h (by simp)
    | some pr =>
      obtain ⟨s1, ci⟩ := pr
      rw [hg] at h
      dsimp only at h
      have hx : ∀ x ∈ Xs, ∀ pd, getInst s x = some pd → pd.id ≠ c := by
        intro x hxin pd hpd hh
        exact hXcs x hxin pd hpd (hh ▸ List.mem_cons_self c rest)
      obtain ⟨hdc1, hpc1, hnd1, hdok1, hpok1, hrok1, hdisk1, hroot1,
        hcap1, hlen1, hpres1, cd, hcd, hcdid, hclt, hcdsh⟩ :=
        get_page_ok hdc hpc hnd hdok hpok hrok
          (hcsE c (List.mem_cons_self c rest)) hx hg
      rw [hcd] at h
      dsimp only at h
      have hshv : Shaped s1.disk.length Bal
          { cd with parent_id := some newPid } := by
        rw [hdisk1]
        exact shaped_parent hcdsh hnp
          (by rw [hcdid]; exact hnc c (List.mem_cons_self c rest))
      obtain ⟨hdc2, hpc2, hnd2, hdok2, hpok2, hrok2⟩ :=
        @setInst_clauses s1 ci cd { cd with parent_id := some newPid }
          Ed Xs Xs hdc1 hpc1 hnd1 hdok1 hpok1 hrok1 hcd rfl
          (fun x hxin => Or.inr hxin) (Or.inr hshv)
      have hXpres : ∀ x ∈ Xs,
          getInst (setInst s1 ci { cd with parent_id := some newPid }) x =
            getInst s x := by
        intro x hxin
        have hxlt : x < s.insts.length := hXlt x hxin
        obtain ⟨pdx, hpdx⟩ : ∃ pdx, getInst s x = some pdx := by
          unfold getInst
          rw [List.get?_eq_get hxlt]
          exact ⟨_, rfl⟩
        have hxci : x ≠ ci := by
          intro hh
          subst hh
          rw [hpres1 x hxlt, hpdx] at hcd
          injection hcd with hcd
          exact hXcs x hxin cd (by rw [hpdx, hcd]) (by
            rw [hcdid]
            exact List.mem_cons_self c rest)
        rw [getInst_setInst_ne _ (fun hh => hxci hh.symm)]
        exact hpres1 x hxlt
      have hlen2 : (setInst s1 ci
          { cd with parent_id := some newPid }).insts.length =
            s1.insts.length := (setInst_fields _ _ _).1
      have hdisk2 : (setInst s1 ci
          { cd with parent_id := some newPid }).disk = s1.disk :=
        (setInst_fields _ _ _).2.1
      obtain ⟨hdc3, hpc3, hnd3, hdok3, hpok3, hrok3, hdisk3, hroot3,
        hcap3, hlen3, hpres3⟩ :=
        ih _ newPid t Ed Xs hdc2 hpc2 hnd2 hdok2 hpok2 hrok2
          (fun c' hc' => hcsE c' (List.mem_cons_of_mem _ hc'))
          (fun x hxin => by
            rw [hlen2]
            exact lt_of_lt_of_le (hXlt x hxin) hlen1)
          (fun x hxin pd hpd => by
            rw [hXpres x hxin] at hpd
            exact fun hmem => hXcs x hxin pd hpd
              (List.mem_cons_of_mem _ hmem))
          (by rw [hdisk2, hdisk1]; exact hnp)
          (fun c' hc' => hnc c' (List.mem_cons_of_mem _ hc')) h
    -- close remaining goal by assembling the conclusion
      refine ⟨hdc3, hpc3, hnd3, hdok3, hpok3, hrok3, ?_, ?_, ?_, ?_, ?_⟩
      · rw [hdisk3, hdisk2, hdisk1]
      · rw [hroot3]
        show s1.root = s.root
        exact hroot1
      · rw [hcap3]
        show s1.capacity = s.capacity
        exact hcap1
      · calc s.insts.length ≤ s1.insts.length := hlen1
          _ = _ := hlen2.symm
          _ ≤ t.insts.length := hlen3
      · intro x hxin
        rw [hpres3 x hxin]
        exact hXpres x hxin
lemma getD_mem_children {cd : PageData} {idx : Nat}
    (h : idx < cd.children.length) :
    cd.children.getD idx 0 ∈ cd.children := by
  rw [List.getD_eq_get?, List.get?_eq_get h]
  exact List.get_mem _ _ _

/-- The descent loop of `find_leaf_page` preserves the invariant and, when
it succeeds, returns a live, well-shaped leaf instance, provided it starts
from a live, well-shaped instance. -/
lemma find_leaf_loop_ok : ∀ (fuel : Nat) (k : Int) (s : DBState) (cur : Nat)
    (s1 : DBState) (lf : Nat),
    DiskCo s → PoolCo s → PoolNodup s → DiskOK s [] → PoolOK s [] →
    RootOK s [] →
    (∃ cd, getInst s cur = some cd ∧ Shaped s.disk.length Bal cd ∧
      cd.id < s.disk.length) →
    BPlusTree.find_leaf_loop k fuel s cur = some (s1, lf) →
    DiskCo s1 ∧ PoolCo s1 ∧ PoolNodup s1 ∧ DiskOK s1 [] ∧ PoolOK s1 [] ∧
    RootOK s1 [] ∧ s1.disk = s.disk ∧ s1.root = s.root ∧
    s1.capacity = s.capacity ∧ s.insts.length ≤ s1.insts.length ∧
    (∃ d, getInst s1 lf = some d ∧ Shaped s.disk.length Bal d ∧
      d.nodeType = .Leaf ∧ d.id < s.disk.length) := by
  intro fuel
  induction fuel with
  | zero =>
    intro k s cur s1 lf _ _ _ _ _ _ _ h
    rw [BPlusTree.find_leaf_loop] at h
    exact absurd h (by simp)
  | succ n ih =>
    intro k s cur s1 lf hdc hpc hnd hdok hpok hrok hcur h
    obtain ⟨cd, hcd, hcdsh, hcdlt⟩ := hcur
    rw [BPlusTree.find_leaf_loop, hcd] at h
    dsimp only at h
    cases hnt : cd.nodeType with
    | Leaf =>
      rw [hnt] at h
      dsimp only at h
      injection h with h
      injection h with h1 h2
      subst h1
      subst h2
      exact ⟨hdc, hpc, hnd, hdok, hpok, hrok, rfl, rfl, rfl, le_refl _,
        cd, hcd, hcdsh, hnt, hcdlt⟩
    | Internal =>
      rw [hnt] at h
      dsimp only at h
      by_cases hidx : BPlusTree.childIndex cd.keys k < cd.children.length
      · rw [if_pos hidx] at h
        cases hgp : BufferPool.get_page s
            (cd.children.getD (BPlusTree.childIndex cd.keys k) 0) with
        | none =>
          rw [hgp] at h
          exact absurd h (by simp)
        | some pr =>
          obtain ⟨s2, ci⟩ := pr
          rw [hgp] at h
          dsimp only at h
          obtain ⟨hdc2, hpc2, hnd2, hdok2, hpok2, hrok2, hdisk2, hroot2,
            hcap2, hlen2, hpres2, cd2, hcd2, hcd2id, hcd2lt, hcd2sh⟩ :=
            get_page_ok hdc hpc hnd hdok hpok hrok
              (List.not_mem_nil _) (fun x hx => absurd hx (List.not_mem_nil _))
              hgp
          obtain ⟨hdc3, hpc3, hnd3, hdok3, hpok3, hrok3, hdisk3, hroot3,
            hcap3, hlen3, d, hd, hdsh, hdnt, hdlt⟩ :=
            ih k s2 ci s1 lf hdc2 hpc2 hnd2 hdok2 hpok2 hrok2
              ⟨cd2, hcd2, by rw [hdisk2]; exact hcd2sh,
                by rw [hdisk2, hcd2id]; exact hcd2lt⟩ h
          refine ⟨hdc3, hpc3, hnd3, hdok3, hpok3, hrok3,
            by rw [hdisk3, hdisk2], by rw [hroot3, hroot2],
            by rw [hcap3, hcap2], le_trans hlen2 hlen3,
            d, hd, ?_, hdnt, ?_⟩
          · rw [hdisk2] at hdsh
            exact hdsh
          · rw [hdisk2] at hdlt
            exact hdlt
      · rw [if_neg hidx] at h
        exact absurd h (by simp)
lemma diskOK_weaken {s : DBState} {E E' : List Nat}
    (h : DiskOK s E) (hs : ∀ x ∈ E, x ∈ E') : DiskOK s E' := by
  intro j pd hj hjE
  exact h j pd hj (fun hin => hjE (hs j hin))

lemma poolOK_weaken {s : DBState} {Xs Xs' : List Nat}
    (h : PoolOK s Xs) (hs : ∀ x ∈ Xs, x ∈ Xs') : PoolOK s Xs' := by
  intro e he heX pd hpd
  exact h e he (fun hin => heX (hs e.2 hin)) pd hpd

lemma rootOK_weaken {s : DBState} {Xs Xs' : List Nat}
    (h : RootOK s Xs) (hs : ∀ x ∈ Xs, x ∈ Xs') : RootOK s Xs' := by
  intro r hr
  obtain ⟨pd, h1, h2, h3⟩ := h r hr
  exact ⟨pd, h1, h2, fun hX => h3 (fun hin => hX (hs r hin))⟩

lemma vecInsert_some {α : Type} {i : Nat} {x : α} {l l' : List α}
    (h : vecInsert i x l = some l') :
    l'.length = l.length + 1 ∧ ∀ y ∈ l', y = x ∨ y ∈ l := by
  unfold vecInsert at h
  by_cases hle : i ≤ l.length
  · rw [if_pos hle] at h
    injection h with h
    subst h
    constructor
    · simp only [List.length_append, List.length_cons, List.length_take,
        List.length_drop]
      omega
    · intro y hy
      rcases List.mem_append.mp hy with hy | hy
      · exact Or.inr (List.take_subset i l hy)
      · rcases List.mem_cons.mp hy with hy | hy
        · exact Or.inl hy
        · exact Or.inr (List.drop_subset i l hy)
  · rw [if_neg hle] at h
    exact absurd h (by simp)

/-- All invariant clauses across `BufferPool::allocate_page`: the fresh
page id joins the disk exceptions (the disk copy is blank) and the fresh
instance joins the pool exceptions. -/
lemma allocate_clauses {s t : DBState} {nt : NodeType} {i : Nat}
    {Ed Xs : List Nat}
    (hdc : DiskCo s) (hpc : PoolCo s) (hnd : PoolNodup s)
    (hdok : DiskOK s Ed) (hpok : PoolOK s Xs) (hrok : RootOK s Xs)
    (h : BufferPool.allocate_page s nt = some (t, i)) :
    DiskCo t ∧ PoolCo t ∧ PoolNodup t ∧ DiskOK t (s.disk.length :: Ed) ∧
    PoolOK t (i :: Xs) ∧ RootOK t Xs ∧
    t.disk.length = s.disk.length + 1 ∧ t.root = s.root ∧
    t.capacity = s.capacity ∧ i = s.insts.length ∧
    t.insts.length = s.insts.length + 1 ∧
    (∀ j, j < s.insts.length → getInst t j = getInst s j) ∧
    getInst t i = some (PageData.blank s.disk.length nt) := by
  obtain ⟨hi, hinsts, hdisk, hroot, hcap, rest, hpool, hsubl⟩ :=
    allocate_page_full h
  have hdlen : t.disk.length = s.disk.length + 1 := by
    rw [hdisk]
    simp
  have hilen : t.insts.length = s.insts.length + 1 := by
    rw [hinsts]
    simp
  have hpres : ∀ j, j < s.insts.length → getInst t j = getInst s j := by
    intro j hj
    unfold getInst
    rw [hinsts, List.get?_append hj]
  have hgi : getInst t i = some (PageData.blank s.disk.length nt) := by
    unfold getInst
    rw [hinsts, hi, List.get?_concat_length]
  refine ⟨?_, ?_, ?_, ?_, ?_, ?_, hdlen, hroot, hcap, hi, hilen, hpres, hgi⟩
  · intro j hj
    rw [hdlen] at hj
    rcases Nat.lt_or_ge j s.disk.length with hlt | hge
    · obtain ⟨q, h1, h2⟩ := hdc j hlt
      refine ⟨q, ?_, h2⟩
      rw [hdisk, List.get?_append hlt]
      exact h1
    · have hj' : j = s.disk.length := by omega
      subst hj'
      refine ⟨PageData.blank s.disk.length nt, ?_, rfl⟩
      rw [hdisk, List.get?_concat_length]
  · intro e he
    rw [hpool] at he
    rcases List.mem_cons.mp he with hhd | htl
    · subst hhd
      refine ⟨PageData.blank s.disk.length nt, ?_, rfl, by omega⟩
      show getInst t s.insts.length = _
      rw [← hi]
      exact hgi
    · obtain ⟨q, h1, h2, h3⟩ := hpc e (hsubl.subset htl)
      exact ⟨q, by rw [hpres e.2 (getInst_lt h1)]; exact h1, h2, by omega⟩
  · show (t.pool.map Prod.fst).Nodup
    rw [hpool]
    refine List.Nodup.cons ?_ ((hsubl.map Prod.fst).nodup hnd)
    intro hmemp
    obtain ⟨e, hel, hefst⟩ := List.mem_map.mp hmemp
    obtain ⟨q, _, _, h3⟩ := hpc e (hsubl.subset hel)
    omega
  · intro j pd hj hjE
    have hjlt : j < t.disk.length := List.get?_eq_some.mp hj |>.choose
    rw [hdlen] at hjlt
    have hjne : j ≠ s.disk.length := by
      intro hh
      exact hjE (hh ▸ List.mem_cons_self _ _)
    have hjlt' : j < s.disk.length := by omega
    rw [hdisk, List.get?_append hjlt'] at hj
    have := hdok j pd hj (fun hin => hjE (List.mem_cons_of_mem _ hin))
    rw [hdlen]
    exact shaped_mono (by omega) this
  · intro e he heX pd hpd
    rw [hpool] at he
    rcases List.mem_cons.mp he with hhd | htl
    · refine absurd ?_ heX
      rw [hhd]
      show s.insts.length ∈ i :: Xs
      rw [← hi]
      exact List.mem_cons_self i Xs
    · have hmem : e ∈ s.pool := hsubl.subset htl
      obtain ⟨q, h1, _, _⟩ := hpc e hmem
      rw [hpres e.2 (getInst_lt h1)] at hpd
      have := hpok e hmem (fun hin => heX (List.mem_cons_of_mem _ hin))
        pd hpd
      rw [hdlen]
      exact shaped_mono (by omega) this
  · intro r hr
    rw [hroot] at hr
    obtain ⟨q, h1, h2, h3⟩ := hrok r hr
    refine ⟨q, by rw [hpres r (getInst_lt h1)]; exact h1,
      by rw [hdlen]; omega, ?_⟩
    intro hX
    rw [hdlen]
    exact shaped_mono (by omega) (h3 hX)
lemma ne_of_id_lt {s : DBState} {i j : Nat} {a b : PageData}
    (ha : getInst s i = some a) (hb : getInst s j = some b)
    (hab : a.id ≠ b.id) : i ≠ j := by
  intro hh
  subst hh
  rw [ha] at hb
  injection hb with hb
  exact hab (by rw [hb])

/-- One unfolding of `insert_into_parent` (the `fromChild` arm of the
upward cascade): it either completes with the invariant restored, or
reduces to a `splitNode` step on the parent it has just overflowed. -/
lemma fromChild_step {s t : DBState} {l r : Nat} {key : Int} {n : Nat}
    (hok : StepOK s (.fromChild l key r))
    (h : BPlusTree.upward (n + 1) s (.fromChild l key r) = some t) :
    (Inv t ∧ s.disk.length ≤ t.disk.length) ∨
    (∃ s4 par, BPlusTree.upward n s4 (.splitNode par) = some t ∧
      StepOK s4 (.splitNode par) ∧ s.disk.length = s4.disk.length) := by
  obtain ⟨⟨hdc, hpc, hnd, hdok, hpok, hrok⟩, ld, rd, hld, hrd, hldS, hrdS,
    hldlt, hrdlt, hldrd, hqR⟩ := hok
  have hORD : ORDER = 4 := rfl
  rw [BPlusTree.upward, hld] at h
  dsimp only at h
  cases hpid : ld.parent_id with
  | some pid =>
    rw [hpid] at h
    dsimp only at h
    cases hgp : BufferPool.get_page s pid with
    | none =>
      rw [hgp] at h
      exact absurd h (by simp)
    | some pr =>
      obtain ⟨s1, par⟩ := pr
      rw [hgp] at h
      dsimp only at h
      obtain ⟨hdc1, hpc1, hnd1, hdok1, hpok1, hrok1, hdisk1, hroot1, hcap1,
        hlen1, hpres1, pd, hpd, hpdid, hpidlt, hpdsh⟩ :=
        get_page_ok hdc hpc hnd hdok hpok hrok (List.not_mem_nil _)
          (fun x hx => absurd hx (List.not_mem_nil _)) hgp
      have hrd1 : getInst s1 r = some rd := by
        rw [hpres1 r (getInst_lt hrd)]
        exact hrd
      rw [hpd, hrd1] at h
      dsimp only at h
      have hq : pd.id < rd.id := by
        have hqq := hqR pid hpid
        rw [hpdid]
        exact hqq
      have hparr : par ≠ r :=
        ne_of_id_lt hpd hrd1 (by omega)
      cases hvk : vecInsert (rustBinarySearch pd.keys key).pos key
          pd.keys with
      | none =>
        rw [hvk] at h
        cases hvc : vecInsert ((rustBinarySearch pd.keys key).pos + 1) rd.id
            pd.children with
        | none =>
          rw [hvc] at h
          exact absurd h (by simp)
        | some nc =>
          rw [hvc] at h
          exact absurd h (by simp)
      | some nk =>
        cases hvc : vecInsert ((rustBinarySearch pd.keys key).pos + 1) rd.id
            pd.children with
        | none =>
          rw [hvk, hvc] at h
          exact absurd h (by simp)
        | some nc =>
          rw [hvk, hvc] at h
          dsimp only at h
          have hpdint : pd.nodeType = .Internal := by
            cases hnt : pd.nodeType with
            | Internal => rfl
            | Leaf =>
              have hbal := hpdsh.1
              unfold Bal at hbal
              rw [hnt] at hbal
              dsimp only at hbal
              rw [hbal.1] at hvc
              unfold vecInsert at hvc
              rw [if_neg (by simp)] at hvc
              exact absurd hvc (by simp)
          have hbal := hpdsh.1
          unfold Bal at hbal
          rw [hpdint] at hbal
          dsimp only at hbal
          obtain ⟨hv0, hclen, hk1, hk3⟩ := hbal
          obtain ⟨hnk_len, hnk_mem⟩ := vecInsert_some hvk
          obtain ⟨hnc_len, hnc_mem⟩ := vecInsert_some hvc
          set P2 : PageData := { pd with keys := nk, children := nc }
            with hP2
          have hP2id : P2.id = pd.id := rfl
          have hP2nt : P2.nodeType = pd.nodeType := rfl
          have hP2vals : P2.values = pd.values := rfl
          have hP2self : P2.id ∉ P2.children := by
            intro hin
            rcases hnc_mem _ hin with he | hm
            · rw [hP2id] at he
              omega
            · exact hpdsh.2.1 (hP2id ▸ hm)
          have hP2chb : ∀ c ∈ P2.children, c < s.disk.length := by
            intro c hc
            rcases hnc_mem c hc with he | hm
            · rw [he]
              exact hrdlt
            · exact hpdsh.2.2.1 c hm
          have hP2par : ∀ q', P2.parent_id = some q' →
              q' < s.disk.length ∧ q' ≠ P2.id := by
            intro q' hq'
            exact hpdsh.2.2.2 q' hq'
          set s2 : DBState := setInst s1 par P2 with hs2
          have hrd2 : getInst s2 r = some rd := by
            rw [hs2, getInst_setInst_ne _ hparr]
            exact hrd1
          rw [hrd2] at h
          dsimp only at h
          set s3 : DBState := setInst s2 r
            { rd with parent_id := some pd.id } with hs3
          have hpd3 : getInst s3 par = some P2 := by
            rw [hs3, getInst_setInst_ne _ (fun hh => hparr hh.symm), hs2]
            exact getInst_setInst_self P2 (getInst_lt hpd)
          have hsz : ¬ PAGE_SIZE < encSize P2 := by
            refine encSize_ok ?_ ?_ ?_
            · show nk.length ≤ 4
              omega
            · show nc.length ≤ 5
              omega
            · show pd.values.length ≤ 4
              rw [hv0]
              simp
          have hs3disk : s3.disk = s.disk := by
            rw [hs3, hs2]
            show s1.disk = s.disk
            exact hdisk1
          have hidP2 : P2.id < s3.disk.length := by
            rw [hs3disk, hP2id, hpdid]
            exact hpidlt
          have hw := write_page_set hpd3 hsz hidP2
          rw [hw] at h
          dsimp only at h
          set s4 : DBState := { s3 with disk := s3.disk.set P2.id P2 }
            with hs4
          have hs4disk : s4.disk.length = s.disk.length := by
            rw [hs4]
            dsimp only
            rw [List.length_set, hs3disk]
          have hrdS1 : Shaped s1.disk.length Bal rd := by
            rw [hdisk1]
            exact hrdS
          have hrdparS : Shaped s2.disk.length Bal
              { rd with parent_id := some pd.id } := by
            have : s2.disk.length = s.disk.length := by
              rw [hs2]
              show s1.disk.length = s.disk.length
              rw [hdisk1]
            rw [this]
            refine shaped_parent hrdS ?_ (by omega)
            rw [hpdid]
            exact hpidlt
          by_cases hbig : ORDER - 1 < nk.length
          · -- parent overflowed: reduce to splitNode
            rw [if_pos hbig] at h
            have hnk4 : nk.length = 4 := by omega
            have hnc5 : nc.length = 5 := by omega
            obtain ⟨hdc2, hpc2, hnd2, hdok2, hpok2, hrok2⟩ :=
              @setInst_clauses s1 par pd P2 [] [] [par] hdc1 hpc1 hnd1
                hdok1 hpok1 hrok1 hpd rfl
                (fun x hx => absurd hx (List.not_mem_nil _))
                (Or.inl (List.mem_cons_self par []))
            obtain ⟨hdc3, hpc3, hnd3, hdok3, hpok3, hrok3⟩ :=
              @setInst_clauses s2 r rd { rd with parent_id := some pd.id }
                [] [par] [par] hdc2 hpc2 hnd2 hdok2 hpok2 hrok2 hrd2 rfl
                (fun x hx => Or.inr hx) (Or.inr hrdparS)
            obtain ⟨hdc4, hpc4, hnd4, hdok4, hpok4, hrok4⟩ :=
              @disk_set_clauses s3 P2 [] [P2.id] [par] hdc3 hpc3 hnd3
                hdok3 hpok3 hrok3 hidP2
                (fun j hj => absurd hj (List.not_mem_nil _))
                (Or.inl (List.mem_cons_self _ _))
            refine Or.inr ⟨s4, par, h, ?_, hs4disk.symm⟩
            refine ⟨hdc4, hpc4, hnd4, P2, hpd3, ?_, ?_, hdok4, hpok4,
              hrok4⟩
            · rw [hs4]
              dsimp only
              rw [List.length_set]
              exact hidP2
            · have hlen4 : s4.disk.length = s.disk.length := hs4disk
              rw [hlen4]
              exact ⟨⟨hP2nt ▸ hpdint, hP2vals ▸ hv0,
                by rw [hORD]; exact hnk4, by rw [hORD]; exact hnc5⟩,
                hP2self, hP2chb, hP2par⟩
          · -- parent still fits: done
            rw [if_neg hbig] at h
            injection h with h
            subst h
            have hP2bal : Bal P2 := by
              unfold Bal
              rw [hP2nt, hpdint]
              dsimp only
              refine ⟨hP2vals ▸ hv0, ?_, ?_, ?_⟩
              · show nc.length = nk.length + 1
                omega
              · show 1 ≤ nk.length
                omega
              · show nk.length ≤ ORDER - 1
                omega
            have hP2S : Shaped s1.disk.length Bal P2 := by
              rw [hdisk1]
              exact ⟨hP2bal, hP2self, hP2chb, hP2par⟩
            obtain ⟨hdc2, hpc2, hnd2, hdok2, hpok2, hrok2⟩ :=
              @setInst_clauses s1 par pd P2 [] [] [] hdc1 hpc1 hnd1
                hdok1 hpok1 hrok1 hpd rfl
                (fun x hx => absurd hx (List.not_mem_nil _))
                (Or.inr hP2S)
            obtain ⟨hdc3, hpc3, hnd3, hdok3, hpok3, hrok3⟩ :=
              @setInst_clauses s2 r rd { rd with parent_id := some pd.id }
                [] [] [] hdc2 hpc2 hnd2 hdok2 hpok2 hrok2 hrd2 rfl
                (fun x hx => absurd hx (List.not_mem_nil _))
                (Or.inr hrdparS)
            have hP2S3 : Shaped s3.disk.length Bal P2 := by
              rw [hs3disk]
              exact ⟨hP2bal, hP2self, hP2chb, hP2par⟩
            obtain ⟨hdc4, hpc4, hnd4, hdok4, hpok4, hrok4⟩ :=
              @disk_set_clauses s3 P2 [] [] [] hdc3 hpc3 hnd3
                hdok3 hpok3 hrok3 hidP2
                (fun j hj => absurd hj (List.not_mem_nil _))
                (Or.inr hP2S3)
            refine Or.inl ⟨⟨hdc4, hpc4, hnd4, hdok4, hpok4, hrok4⟩, ?_⟩
            rw [hs4disk]
  | none =>
    rw [hpid] at h
    dsimp only at h
    cases halloc : BufferPool.allocate_page s .Internal with
    | none =>
      rw [halloc] at h
      exact absurd h (by simp)
    | some pr =>
      obtain ⟨s1, nr⟩ := pr
      rw [halloc] at h
      dsimp only at h
      obtain ⟨hdc1, hpc1, hnd1, hdok1, hpok1, hrok1, hdlen1, hroot1, hcap1,
        hnr, hilen1, hpres1, hgnr⟩ :=
        allocate_clauses hdc hpc hnd hdok hpok hrok halloc
      have hld1 : getInst s1 l = some ld := by
        rw [hpres1 l (getInst_lt hld)]
        exact hld
      have hrd1 : getInst s1 r = some rd := by
        rw [hpres1 r (getInst_lt hrd)]
        exact hrd
      rw [hgnr, hld1, hrd1] at h
      dsimp only at h
      set NRD : PageData :=
        { PageData.blank s.disk.length .Internal with
          keys := [key], children := [ld.id, rd.id] } with hNRD
      set s2 : DBState := setInst s1 nr NRD with hs2
      have hlnr : l ≠ nr := by
        have := getInst_lt hld
        omega
      have hrnr : r ≠ nr := by
        have := getInst_lt hrd
        omega
      have hlr : l ≠ r := ne_of_id_lt hld hrd hldrd
      have hnrlt : nr < s1.insts.length := by
        rw [hilen1]
        omega
      have hld2 : getInst s2 l = some ld := by
        rw [hs2, getInst_setInst_ne _ (fun hh => hlnr hh.symm)]
        exact hld1
      rw [hld2] at h
      dsimp only at h
      set s3 : DBState := setInst s2 l
        { ld with
          parent_id := some (PageData.blank s.disk.length NodeType.Internal).id }
        with hs3
      have hrd3 : getInst s3 r = some rd := by
        rw [hs3, getInst_setInst_ne _ hlr, hs2,
          getInst_setInst_ne _ (fun hh => hrnr hh.symm)]
        exact hrd1
      rw [hrd3] at h
      dsimp only at h
      set s4 : DBState := setInst s3 r
        { rd with
          parent_id := some (PageData.blank s.disk.length NodeType.Internal).id }
        with hs4
      have hnrd4 : getInst s4 nr = some NRD := by
        rw [hs4, getInst_setInst_ne _ hrnr, hs3,
          getInst_setInst_ne _ hlnr, hs2]
        exact getInst_setInst_self NRD hnrlt
      have hsz : ¬ PAGE_SIZE < encSize NRD := by
        refine encSize_ok ?_ ?_ ?_
        · show ([key] : List Int).length ≤ 4
          simp
        · show ([ld.id, rd.id] : List Nat).length ≤ 5
          simp
        · show ([] : List Nat).length ≤ 4
          simp
      have hs4dlen : s4.disk.length = s.disk.length + 1 := by
        rw [hs4, hs3, hs2]
        show s1.disk.length = s.disk.length + 1
        exact hdlen1
      have hidN : NRD.id < s4.disk.length := by
        rw [hs4dlen]
        show s.disk.length < s.disk.length + 1
        omega
      have hw := write_page_set hnrd4 hsz hidN
      rw [hw] at h
      dsimp only at h
      injection h with h
      subst h
      set s5 : DBState := { s4 with disk := s4.disk.set NRD.id NRD }
        with hs5
      have hNS1 : Shaped s1.disk.length Bal NRD := by
        refine ⟨?_, ?_, ?_, ?_⟩
        · unfold Bal
          show ((PageData.blank s.disk.length .Internal).values = [] ∧
            ([ld.id, rd.id] : List Nat).length =
              ([key] : List Int).length + 1 ∧
            1 ≤ ([key] : List Int).length ∧
            ([key] : List Int).length ≤ ORDER - 1)
          refine ⟨rfl, rfl, ?_, ?_⟩
          · simp
          · rw [hORD]
            simp
        · show s.disk.length ∉ [ld.id, rd.id]
          simp only [List.mem_cons, List.not_mem_nil, or_false, not_or]
          omega
        · intro c hc
          have hc2 : c ∈ [ld.id, rd.id] := hc
          rw [hdlen1]
          rcases List.mem_cons.mp hc2 with he | he
          · omega
          · have he2 : c = rd.id := by
              rcases List.mem_cons.mp he with hx | hx
              · exact hx
              · exact absurd hx (List.not_mem_nil _)
            omega
        · intro q hq
          exact Option.noConfusion
            (show (none : Option Nat) = some q from hq)
      obtain ⟨hdc2, hpc2, hnd2, hdok2, hpok2, hrok2⟩ :=
        @setInst_clauses s1 nr (PageData.blank s.disk.length .Internal) NRD
          [s.disk.length] [nr] [] hdc1 hpc1 hnd1 hdok1 hpok1
          (rootOK_weaken hrok1 (fun x hx => absurd hx (List.not_mem_nil _)))
          hgnr rfl (fun x hx => Or.inl (List.mem_singleton.mp hx))
          (Or.inr hNS1)
      have hs2dlen : s2.disk.length = s.disk.length + 1 := by
        rw [hs2]
        show s1.disk.length = s.disk.length + 1
        exact hdlen1
      have hldp : Shaped s2.disk.length Bal
          { ld with
            parent_id :=
              some (PageData.blank s.disk.length NodeType.Internal).id } := by
        rw [hs2dlen]
        refine shaped_parent (shaped_mono (by omega) hldS) ?_ ?_
        · show s.disk.length < s.disk.length + 1
          omega
        · show s.disk.length ≠ ld.id
          omega
      obtain ⟨hdc3, hpc3, hnd3, hdok3, hpok3, hrok3⟩ :=
        @setInst_clauses s2 l ld
          { ld with
            parent_id :=
              some (PageData.blank s.disk.length NodeType.Internal).id }
          [s.disk.length] [] [] hdc2 hpc2 hnd2 hdok2 hpok2 hrok2 hld2 rfl
          (fun x hx => absurd hx (List.not_mem_nil _)) (Or.inr hldp)
      have hs3dlen : s3.disk.length = s.disk.length + 1 := by
        rw [hs3]
        show s2.disk.length = s.disk.length + 1
        exact hs2dlen
      have hrdp : Shaped s3.disk.length Bal
          { rd with
            parent_id :=
              some (PageData.blank s.disk.length NodeType.Internal).id } := by
        rw [hs3dlen]
        refine shaped_parent (shaped_mono (by omega) hrdS) ?_ ?_
        · show s.disk.length < s.disk.length + 1
          omega
        · show s.disk.length ≠ rd.id
          omega
      obtain ⟨hdc4, hpc4, hnd4, hdok4, hpok4, hrok4⟩ :=
        @setInst_clauses s3 r rd
          { rd with
            parent_id :=
              some (PageData.blank s.disk.length NodeType.Internal).id }
          [s.disk.length] [] [] hdc3 hpc3 hnd3 hdok3 hpok3 hrok3 hrd3 rfl
          (fun x hx => absurd hx (List.not_mem_nil _)) (Or.inr hrdp)
      have hNS4 : Shaped s4.disk.length Bal NRD := by
        rw [hs4dlen, ← hdlen1]
        exact hNS1
      obtain ⟨hdc5, hpc5, hnd5, hdok5, hpok5, hrok5⟩ :=
        @disk_set_clauses s4 NRD [s.disk.length] [] [] hdc4 hpc4 hnd4
          hdok4 hpok4 hrok4 hidN
          (fun j hj => Or.inl (List.mem_singleton.mp hj)) (Or.inr hNS4)
      refine Or.inl ⟨⟨hdc5, hpc5, hnd5, hdok5, hpok5, ?_⟩, ?_⟩
      · intro r0 hr0
        have hr0n : some nr = some r0 := hr0
        injection hr0n with hr0n
        subst hr0n
        refine ⟨NRD, ?_, ?_, ?_⟩
        · exact hnrd4
        · show NRD.id < s5.disk.length
          rw [hs5]
          dsimp only
          rw [List.length_set]
          exact hidN
        · intro hX
          show Shaped s5.disk.length Bal NRD
          rw [hs5]
          dsimp only
          rw [List.length_set]
          exact hNS4
      · show s.disk.length ≤ s5.disk.length
        rw [hs5]
        dsimp only
        rw [List.length_set, hs4dlen]
        omega
/-- One unfolding of `split_internal_page` (the `splitNode` arm of the
upward cascade): it always reduces to an `insert_into_parent` step on the
two halves, with the invariant restored everywhere. -/
lemma splitNode_step {s t : DBState} {x : Nat} {n : Nat}
    (hok : StepOK s (.splitNode x))
    (h : BPlusTree.upward (n + 1) s (.splitNode x) = some t) :
    ∃ s8 ni upKey, BPlusTree.upward n s8 (.fromChild x upKey ni) = some t ∧
      StepOK s8 (.fromChild x upKey ni) ∧
      s.disk.length ≤ s8.disk.length := by
  obtain ⟨hdc, hpc, hnd0, nd, hnd, hndlt, hndSB, hdok, hpok, hrok⟩ := hok
  have hORD : ORDER = 4 := rfl
  obtain ⟨⟨hint, hval0, hk4, hc5⟩, hself, hchb, hparb⟩ := hndSB
  have hk4' : nd.keys.length = 4 := by omega
  have hc5' : nd.children.length = 5 := by omega
  rw [BPlusTree.upward] at h
  cases halloc : BufferPool.allocate_page s .Internal with
  | none =>
    rw [halloc] at h
    exact absurd h (by simp)
  | some pr =>
    obtain ⟨s1, ni⟩ := pr
    rw [halloc] at h
    dsimp only at h
    obtain ⟨hdc1, hpc1, hnd1, hdok1, hpok1, hrok1, hdlen1, hroot1, hcap1,
      hni, hilen1, hpres1, hgni⟩ :=
      allocate_clauses hdc hpc hnd0 hdok hpok hrok halloc
    have hxlt : x < s.insts.length := getInst_lt hnd
    have hxni : x ≠ ni := by omega
    have hnd1x : getInst s1 x = some nd := by
      rw [hpres1 x hxlt]
      exact hnd
    rw [hnd1x] at h
    dsimp only at h
    have hmid : nd.keys.length / 2 = 2 := by omega
    rw [hmid] at h
    cases hup : nd.keys.get? 2 with
    | none =>
      rw [hup] at h
      exact absurd h (by simp)
    | some upKey =>
      rw [hup] at h
      dsimp only at h
      set ND2 : PageData :=
        { nd with keys := List.take (2 + 1) nd.keys,
                  children := List.take (2 + 1) nd.children } with hND2
      set s2 : DBState := setInst s1 x ND2 with hs2
      have hnilt1 : ni < s1.insts.length := by
        rw [hilen1]
        omega
      have hgni2 : getInst s2 ni = some
          (PageData.blank s.disk.length NodeType.Internal) := by
        rw [hs2, getInst_setInst_ne _ hxni]
        exact hgni
      rw [hgni2] at h
      dsimp only at h
      set NID : PageData :=
        { PageData.blank s.disk.length NodeType.Internal with
          keys := List.drop (2 + 1) nd.keys,
          children := List.drop (2 + 1) nd.children } with hNID
      set s3 : DBState := setInst s2 ni NID with hs3
      -- invariant clauses down to s3
      obtain ⟨hdc2, hpc2, hnd2, hdok2, hpok2, hrok2⟩ :=
        @setInst_clauses s1 x nd ND2 [s.disk.length, nd.id] [ni, x]
          [ni, x] hdc1 hpc1 hnd1 hdok1 hpok1
          (rootOK_weaken hrok1 (by
            intro y hy
            rw [List.mem_singleton.mp hy]
            exact List.mem_cons_of_mem _ (List.mem_cons_self _ _)))
          hnd1x rfl (by intro y hy; exact Or.inr hy)
          (Or.inl (List.mem_cons_of_mem _ (List.mem_cons_self _ _)))
      have hs2dlen : s2.disk.length = s.disk.length + 1 := by
        rw [hs2]
        show s1.disk.length = s.disk.length + 1
        exact hdlen1
      have hNIDsh : Shaped s2.disk.length Bal NID := by
        rw [hs2dlen]
        refine ⟨?_, ?_, ?_, ?_⟩
        · unfold Bal
          show ((PageData.blank s.disk.length .Internal).values = [] ∧
            (List.drop (2 + 1) nd.children).length =
              (List.drop (2 + 1) nd.keys).length + 1 ∧
            1 ≤ (List.drop (2 + 1) nd.keys).length ∧
            (List.drop (2 + 1) nd.keys).length ≤ ORDER - 1)
          refine ⟨rfl, ?_, ?_, ?_⟩ <;>
            simp only [List.length_drop] <;> omega
        · show s.disk.length ∉ List.drop (2 + 1) nd.children
          intro hin
          have := hchb _ (List.drop_subset _ _ hin)
          omega
        · intro c hc
          have := hchb _ (List.drop_subset _ _ hc)
          omega
        · intro q hq
          exact Option.noConfusion
            (show (none : Option Nat) = some q from hq)
      obtain ⟨hdc3, hpc3, hnd3, hdok3, hpok3, hrok3⟩ :=
        @setInst_clauses s2 ni
          (PageData.blank s.disk.length NodeType.Internal) NID
          [s.disk.length, nd.id] [ni, x] [ni, x] hdc2 hpc2 hnd2 hdok2
          hpok2 hrok2 hgni2 rfl (by intro y hy; exact Or.inr hy)
          (Or.inr hNIDsh)
      -- fixChildren
      cases hfix : BPlusTree.fixChildren s3
          (List.drop (2 + 1) nd.children)
          (PageData.blank s.disk.length NodeType.Internal).id with
      | none =>
        rw [hfix] at h
        exact absurd h (by simp)
      | some s4 =>
        rw [hfix] at h
        dsimp only at h
        have hs3dlen : s3.disk.length = s.disk.length + 1 := by
          rw [hs3]
          show s2.disk.length = s.disk.length + 1
          exact hs2dlen
        have hs3ilen : s3.insts.length = s.insts.length + 1 := by
          rw [hs3, hs2]
          show (setInst (setInst s1 x ND2) ni NID).insts.length = _
          rw [(setInst_fields _ _ _).1, (setInst_fields _ _ _).1, hilen1]
        have hgx3 : getInst s3 x = some ND2 := by
          rw [hs3, getInst_setInst_ne _ (fun hh => hxni hh.symm), hs2]
          exact getInst_setInst_self ND2 (by omega)
        have hgni3 : getInst s3 ni = some NID := by
          rw [hs3, hs2]
          refine getInst_setInst_self NID ?_
          rw [(setInst_fields _ _ _).1]
          omega
        obtain ⟨hdc4, hpc4, hnd4, hdok4, hpok4, hrok4, hdisk4, hroot4,
          hcap4, hlen4, hXpres4⟩ :=
          fixChildren_ok (List.drop (2 + 1) nd.children) s3
            (PageData.blank s.disk.length NodeType.Internal).id s4
            [s.disk.length, nd.id] [ni, x] hdc3 hpc3 hnd3 hdok3 hpok3
            hrok3
            (by
              intro c hc
              have hcb := hchb _ (List.drop_subset _ _ hc)
              intro hin
              rcases List.mem_cons.mp hin with h1 | h1
              · omega
              · exact hself (List.drop_subset _ _
                  ((List.mem_singleton.mp h1) ▸ hc)))
            (by
              intro y hy
              rw [hs3ilen]
              rcases List.mem_cons.mp hy with h1 | h1
              · rw [h1, hni]
                omega
              · rw [List.mem_singleton.mp h1]
                omega)
            (by
              intro y hy pd hpd
              rcases List.mem_cons.mp hy with h1 | h1
              · rw [h1, hgni3] at hpd
                injection hpd with hpd
                subst hpd
                intro hin
                have hc1 := hchb _ (List.drop_subset _ _ hin)
                have hc2 : NID.id = s.disk.length := rfl
                omega
              · rw [List.mem_singleton.mp h1, hgx3] at hpd
                injection hpd with hpd
                subst hpd
                intro hin
                exact hself (List.drop_subset _ _ hin))
            (by
              show (PageData.blank s.disk.length NodeType.Internal).id <
                s3.disk.length
              rw [hs3dlen]
              show s.disk.length < s.disk.length + 1
              omega)
            (by
              intro c hc
              have := hchb _ (List.drop_subset _ _ hc)
              show (PageData.blank s.disk.length NodeType.Internal).id ≠ c
              show s.disk.length ≠ c
              omega)
            hfix
        have hgx4 : getInst s4 x = some ND2 := by
          rw [hXpres4 x (List.mem_cons_of_mem _ (List.mem_cons_self _ _))]
          exact hgx3
        have hgni4 : getInst s4 ni = some NID := by
          rw [hXpres4 ni (List.mem_cons_self _ _)]
          exact hgni3
        rw [hgx4, hgni4] at h
        dsimp only at h
        set NID5 : PageData := { NID with parent_id := ND2.parent_id }
          with hNID5
        set s5 : DBState := setInst s4 ni NID5 with hs5
        have hgx5 : getInst s5 x = some ND2 := by
          rw [hs5, getInst_setInst_ne _ (fun hh => hxni hh.symm)]
          exact hgx4
        rw [hgx5] at h
        dsimp only at h
        set ND6 : PageData :=
          { ND2 with keys := List.take 2 ND2.keys,
                     children := List.take (2 + 1) ND2.children } with hND6
        set s6 : DBState := setInst s5 x ND6 with hs6
        have hs4dlen : s4.disk.length = s.disk.length + 1 := by
          rw [hdisk4, hs3dlen]
        have hs4ilen : s.insts.length + 1 ≤ s4.insts.length := by
          rw [← hs3ilen]
          exact hlen4
        have hxlt5 : x < s5.insts.length := by
          rw [hs5, (setInst_fields _ _ _).1]
          omega
        have hnilt4 : ni < s4.insts.length := by
          rw [hni]
          omega
        have hgx6 : getInst s6 x = some ND6 := by
          rw [hs6]
          exact getInst_setInst_self ND6 hxlt5
        have hndid : ND2.id = nd.id := rfl
        have hnd6id : ND6.id = nd.id := rfl
        have hnid5id : NID5.id = s.disk.length := rfl
        have hs6disk : s6.disk = s4.disk := by
          rw [hs6, hs5]
          show s4.disk = s4.disk
          rfl
        have hsz6 : ¬ PAGE_SIZE < encSize ND6 := by
          refine encSize_ok ?_ ?_ ?_
          · show (List.take 2 ND2.keys).length ≤ 4
            simp only [List.length_take]
            omega
          · show (List.take (2 + 1) ND2.children).length ≤ 5
            simp only [List.length_take]
            omega
          · show nd.values.length ≤ 4
            rw [hval0]
            simp
        have hid6 : ND6.id < s6.disk.length := by
          rw [hs6disk, hs4dlen, hnd6id]
          omega
        have hw1 := write_page_set hgx6 hsz6 hid6
        rw [hw1] at h
        dsimp only at h
        set s7 : DBState := { s6 with disk := s6.disk.set ND6.id ND6 }
          with hs7
        have hgni7 : getInst s7 ni = some NID5 := by
          show getInst s6 ni = some NID5
          rw [hs6, getInst_setInst_ne _ hxni, hs5]
          exact getInst_setInst_self NID5 hnilt4
        have hs7dlen : s7.disk.length = s.disk.length + 1 := by
          rw [hs7]
          dsimp only
          rw [List.length_set, hs6disk, hs4dlen]
        have hsz7 : ¬ PAGE_SIZE < encSize NID5 := by
          refine encSize_ok ?_ ?_ ?_
          · show (List.drop (2 + 1) nd.keys).length ≤ 4
            simp only [List.length_drop]
            omega
          · show (List.drop (2 + 1) nd.children).length ≤ 5
            simp only [List.length_drop]
            omega
          · show ([] : List Nat).length ≤ 4
            simp
        have hid7 : NID5.id < s7.disk.length := by
          rw [hs7dlen, hnid5id]
          omega
        have hw2 := write_page_set hgni7 hsz7 hid7
        rw [hw2] at h
        set s8 : DBState := { s7 with disk := s7.disk.set NID5.id NID5 }
          with hs8
        -- shapes of the two result pages
        have hbalNID : Bal NID := hNIDsh.1
        have hNID5sh : Shaped s4.disk.length Bal NID5 := by
          rw [hs4dlen]
          refine ⟨bal_parent_blind.mpr hbalNID, ?_, ?_, ?_⟩
          · show NID.id ∉ NID.children
            exact hNIDsh.2.1
          · intro c hc
            have hc2 : c ∈ List.drop (2 + 1) nd.children := hc
            have := hchb _ (List.drop_subset _ _ hc2)
            omega
          · intro q hq
            have hq2 : nd.parent_id = some q := hq
            obtain ⟨hq3, hq4⟩ := hparb q hq2
            have hq5 : NID5.id = s.disk.length := rfl
            omega
        have hND6bal : Bal ND6 := by
          unfold Bal
          have hnt6 : ND6.nodeType = NodeType.Internal := hint
          rw [hnt6]
          dsimp only
          refine ⟨?_, ?_, ?_, ?_⟩
          · show nd.values = []
            exact hval0
          · show (List.take (2 + 1) ND2.children).length =
              (List.take 2 ND2.keys).length + 1
            have hck : ND2.children.length = 3 := by
              show (List.take (2 + 1) nd.children).length = 3
              simp only [List.length_take]
              omega
            have hkk : ND2.keys.length = 3 := by
              show (List.take (2 + 1) nd.keys).length = 3
              simp only [List.length_take]
              omega
            simp only [List.length_take]
            omega
          · show 1 ≤ (List.take 2 ND2.keys).length
            have hkk : ND2.keys.length = 3 := by
              show (List.take (2 + 1) nd.keys).length = 3
              simp only [List.length_take]
              omega
            simp only [List.length_take]
            omega
          · show (List.take 2 ND2.keys).length ≤ ORDER - 1
            rw [hORD]
            simp only [List.length_take]
            omega
        have hND6sh : Shaped s5.disk.length Bal ND6 := by
          have hlen5 : s5.disk.length = s.disk.length + 1 := by
            rw [hs5]
            show s4.disk.length = s.disk.length + 1
            exact hs4dlen
          rw [hlen5]
          refine ⟨hND6bal, ?_, ?_, ?_⟩
          · intro hin
            have hin2 : nd.id ∈ List.take (2 + 1) nd.children :=
              List.take_subset _ _ hin
            exact hself (List.take_subset _ _ hin2)
          · intro c hc
            have hc2 := List.take_subset _ _ (List.take_subset _ _ hc)
            have := hchb c hc2
            omega
          · intro q hq
            have hq2 : nd.parent_id = some q := hq
            obtain ⟨hq3, hq4⟩ := hparb q hq2
            refine ⟨by omega, ?_⟩
            rw [hnd6id]
            exact hq4
        -- clause chain s4 → s8
        obtain ⟨hdc5, hpc5, hnd5c, hdok5, hpok5, hrok5⟩ :=
          @setInst_clauses s4 ni NID NID5 [s.disk.length, nd.id] [ni, x]
            [x] hdc4 hpc4 hnd4 hdok4 hpok4 hrok4 hgni4 rfl
            (by
              intro y hy
              rcases List.mem_cons.mp hy with h1 | h1
              · exact Or.inl h1
              · exact Or.inr h1)
            (Or.inr hNID5sh)
        obtain ⟨hdc6, hpc6, hnd6c, hdok6, hpok6, hrok6⟩ :=
          @setInst_clauses s5 x ND2 ND6 [s.disk.length, nd.id] [x] []
            hdc5 hpc5 hnd5c hdok5 hpok5 hrok5 hgx5 rfl
            (by
              intro y hy
              exact Or.inl (List.mem_singleton.mp hy))
            (Or.inr hND6sh)
        have hND6sh6 : Shaped s6.disk.length Bal ND6 := by
          have : s6.disk.length = s5.disk.length := by
            rw [hs6, (setInst_fields _ _ _).2.1]
          rw [this]
          exact hND6sh
        obtain ⟨hdc7, hpc7, hnd7c, hdok7, hpok7, hrok7⟩ :=
          @disk_set_clauses s6 ND6 [s.disk.length, nd.id] [s.disk.length]
            [] hdc6 hpc6 hnd6c hdok6 hpok6 hrok6 hid6
            (by
              intro j hj
              rcases List.mem_cons.mp hj with h1 | h1
              · exact Or.inr (h1 ▸ List.mem_cons_self _ _)
              · refine Or.inl ?_
                rw [hnd6id]
                exact List.mem_singleton.mp h1)
            (Or.inr hND6sh6)
        have hNID5sh7 : Shaped s7.disk.length Bal NID5 := by
          rw [hs7dlen, ← hs4dlen]
          exact hNID5sh
        obtain ⟨hdc8, hpc8, hnd8c, hdok8, hpok8, hrok8⟩ :=
          @disk_set_clauses s7 NID5 [s.disk.length] [] [] hdc7 hpc7
            hnd7c hdok7 hpok7 hrok7 hid7
            (by
              intro j hj
              refine Or.inl ?_
              rw [hnid5id]
              exact List.mem_singleton.mp hj)
            (Or.inr hNID5sh7)
        have hs8dlen : s8.disk.length = s.disk.length + 1 := by
          rw [hs8]
          dsimp only
          rw [List.length_set, hs7dlen]
        have hgx8 : getInst s8 x = some ND6 := by
          show getInst s6 x = some ND6
          exact hgx6
        have hgni8 : getInst s8 ni = some NID5 := by
          show getInst s6 ni = some NID5
          exact hgni7
        refine ⟨s8, ni, upKey, h, ?_, by omega⟩
        have hlen5' : s5.disk.length = s.disk.length + 1 := by
          rw [hs5]
          show s4.disk.length = s.disk.length + 1
          exact hs4dlen
        refine ⟨⟨hdc8, hpc8, hnd8c, hdok8, hpok8, hrok8⟩, ND6, NID5,
          hgx8, hgni8, ?_, ?_, ?_, ?_, ?_, ?_⟩
        · rw [hs8dlen, ← hlen5']
          exact hND6sh
        · rw [hs8dlen, ← hs4dlen]
          exact hNID5sh
        · rw [hs8dlen, hnd6id]
          omega
        · rw [hs8dlen, hnid5id]
          omega
        · rw [hnd6id, hnid5id]
          omega
        · intro q hq
          have hq2 : nd.parent_id = some q := hq
          obtain ⟨hq3, _⟩ := hparb q hq2
          rw [hnid5id]
          omega
/-- The upward split cascade restores the full invariant whenever it
completes, from any entry point satisfying its step precondition. -/
lemma upward_ok : ∀ (fuel : Nat) (s : DBState) (step : BPlusTree.UpStep)
    (t : DBState), StepOK s step → BPlusTree.upward fuel s step = some t →
    Inv t ∧ s.disk.length ≤ t.disk.length := by
  intro fuel
  induction fuel with
  | zero =>
    intro s step t _ h
    cases step with
    | fromChild l key r =>
      rw [BPlusTree.upward] at h
      exact absurd h (by simp)
    | splitNode x =>
      rw [BPlusTree.upward] at h
      exact absurd h (by simp)
  | succ n ih =>
    intro s step t hok h
    cases step with
    | fromChild l key r =>
      rcases fromChild_step hok h with ⟨hinv, hlen⟩ |
        ⟨s4, par, h2, hok2, hlen⟩
      · exact ⟨hinv, hlen⟩
      · obtain ⟨hinv, hlen2⟩ := ih s4 _ t hok2 h2
        exact ⟨hinv, by omega⟩
    | splitNode x =>
      obtain ⟨s8, ni, upKey, h2, hok2, hlen⟩ := splitNode_step hok h
      obtain ⟨hinv, hlen2⟩ := ih s8 _ t hok2 h2
      exact ⟨hinv, by omega⟩
/-- `split_leaf_page` on an overflowed leaf restores the full invariant
whenever it completes. -/
lemma split_leaf_ok {fuel : Nat} {s t : DBState} {leaf : Nat} {D : PageData}
    (hdc : DiskCo s) (hpc : PoolCo s) (hnd0 : PoolNodup s)
    (hD : getInst s leaf = some D) (hDlt : D.id < s.disk.length)
    (hDsh : Shaped s.disk.length BigL D)
    (hdok : DiskOK s [D.id]) (hpok : PoolOK s [leaf])
    (hrok : RootOK s [leaf])
    (h : BPlusTree.split_leaf_page fuel s leaf = some t) :
    Inv t ∧ s.disk.length ≤ t.disk.length := by
  obtain ⟨⟨hnt, hch0, hvlen, hk4⟩, hself, hchb, hparb⟩ := hDsh
  have hORD : ORDER = 4 := rfl
  have hk4' : D.keys.length = 4 := by omega
  unfold BPlusTree.split_leaf_page at h
  cases halloc : BufferPool.allocate_page s .Leaf with
  | none =>
    rw [halloc] at h
    exact absurd h (by simp)
  | some pr =>
    obtain ⟨s1, nl⟩ := pr
    rw [halloc] at h
    dsimp only at h
    obtain ⟨hdc1, hpc1, hnd1, hdok1, hpok1, hrok1, hdlen1, hroot1, hcap1,
      hnl, hilen1, hpres1, hgnl⟩ :=
      allocate_clauses hdc hpc hnd0 hdok hpok hrok halloc
    have hlflt : leaf < s.insts.length := getInst_lt hD
    have hlfnl : leaf ≠ nl := by omega
    have hD1 : getInst s1 leaf = some D := by
      rw [hpres1 leaf hlflt]
      exact hD
    rw [hD1, hgnl] at h
    dsimp only at h
    have hmid : D.keys.length / 2 = 2 := by omega
    rw [hmid] at h
    cases hhd : (List.drop 2 D.keys).head? with
    | none =>
      rw [hhd] at h
      exact absurd h (by simp)
    | some upKey =>
      rw [hhd] at h
      dsimp only at h
      set NLD : PageData :=
        { PageData.blank s.disk.length NodeType.Leaf with
          keys := List.drop 2 D.keys, values := List.drop 2 D.values,
          next := D.next, parent_id := D.parent_id } with hNLD
      set s2 : DBState := setInst s1 nl NLD with hs2
      set LD2 : PageData :=
        { D with keys := List.take 2 D.keys, values := List.take 2 D.values,
                 next := some (PageData.blank s.disk.length NodeType.Leaf).id }
        with hLD2
      set s3 : DBState := setInst s2 leaf LD2 with hs3
      have hs2dlen : s2.disk.length = s.disk.length + 1 := by
        rw [hs2]
        show s1.disk.length = s.disk.length + 1
        exact hdlen1
      have hNLDsh : Shaped s1.disk.length Bal NLD := by
        rw [hdlen1]
        refine ⟨?_, ?_, ?_, ?_⟩
        · unfold Bal
          show (([] : List Nat) = [] ∧
            (List.drop 2 D.values).length = (List.drop 2 D.keys).length ∧
            1 ≤ (List.drop 2 D.keys).length ∧
            (List.drop 2 D.keys).length ≤ ORDER - 1)
          rw [hORD]
          refine ⟨rfl, ?_, ?_, ?_⟩ <;> simp only [List.length_drop] <;>
            omega
        · show s.disk.length ∉ ([] : List Nat)
          exact List.not_mem_nil _
        · intro c hc
          exact absurd hc (List.not_mem_nil _)
        · intro q hq
          have hq2 : D.parent_id = some q := hq
          obtain ⟨h1, _⟩ := hparb q hq2
          have h3 : NLD.id = s.disk.length := rfl
          omega
      have hLD2sh : Shaped s2.disk.length Bal LD2 := by
        rw [hs2dlen]
        refine ⟨?_, ?_, ?_, ?_⟩
        · unfold Bal
          have hnt2 : LD2.nodeType = NodeType.Leaf := hnt
          rw [hnt2]
          dsimp only
          refine ⟨?_, ?_, ?_, ?_⟩
          · show D.children = []
            exact hch0
          · show (List.take 2 D.values).length = (List.take 2 D.keys).length
            simp only [List.length_take]
            omega
          · show 1 ≤ (List.take 2 D.keys).length
            simp only [List.length_take]
            omega
          · show (List.take 2 D.keys).length ≤ ORDER - 1
            rw [hORD]
            simp only [List.length_take]
            omega
        · show D.id ∉ D.children
          rw [hch0]
          exact List.not_mem_nil _
        · intro c hc
          have hc2 : c ∈ D.children := hc
          rw [hch0] at hc2
          exact absurd hc2 (List.not_mem_nil _)
        · intro q hq
          have hq2 : D.parent_id = some q := hq
          obtain ⟨h1, h2⟩ := hparb q hq2
          exact ⟨by omega, h2⟩
      obtain ⟨hdc2, hpc2, hnd2, hdok2, hpok2, hrok2⟩ :=
        @setInst_clauses s1 nl (PageData.blank s.disk.length NodeType.Leaf)
          NLD [s.disk.length, D.id] [nl, leaf] [leaf] hdc1 hpc1 hnd1
          hdok1 hpok1
          (rootOK_weaken hrok1 (by
            intro y hy
            rw [List.mem_singleton.mp hy]
            exact List.mem_cons_of_mem _ (List.mem_cons_self _ _)))
          hgnl rfl
          (by
            intro y hy
            rcases List.mem_cons.mp hy with h1 | h1
            · exact Or.inl h1
            · exact Or.inr h1)
          (Or.inr hNLDsh)
      have hD2 : getInst s2 leaf = some D := by
        rw [hs2, getInst_setInst_ne _ (fun hh => hlfnl hh.symm)]
        exact hD1
      obtain ⟨hdc3, hpc3, hnd3, hdok3, hpok3, hrok3⟩ :=
        @setInst_clauses s2 leaf D LD2 [s.disk.length, D.id] [leaf] []
          hdc2 hpc2 hnd2 hdok2 hpok2 hrok2 hD2 rfl
          (by
            intro y hy
            exact Or.inl (List.mem_singleton.mp hy))
          (Or.inr hLD2sh)
      have hLD23 : getInst s3 leaf = some LD2 := by
        rw [hs3]
        refine getInst_setInst_self LD2 ?_
        rw [hs2, (setInst_fields _ _ _).1, hilen1]
        omega
      have hs3dlen : s3.disk.length = s.disk.length + 1 := by
        rw [hs3, (setInst_fields _ _ _).2.1]
        exact hs2dlen
      have hsz3 : ¬ PAGE_SIZE < encSize LD2 := by
        refine encSize_ok ?_ ?_ ?_
        · show (List.take 2 D.keys).length ≤ 4
          simp only [List.length_take]
          omega
        · show D.children.length ≤ 5
          rw [hch0]
          simp
        · show (List.take 2 D.values).length ≤ 4
          simp only [List.length_take]
          omega
      have hid3 : LD2.id < s3.disk.length := by
        have : LD2.id = D.id := rfl
        rw [hs3dlen]
        omega
      have hw1 := write_page_set hLD23 hsz3 hid3
      rw [hw1] at h
      dsimp only at h
      set s4 : DBState := { s3 with disk := s3.disk.set LD2.id LD2 }
        with hs4
      have hLD2s3 : Shaped s3.disk.length Bal LD2 := by
        rw [hs3dlen, ← hs2dlen]
        exact hLD2sh
      obtain ⟨hdc4, hpc4, hnd4, hdok4, hpok4, hrok4⟩ :=
        @disk_set_clauses s3 LD2 [s.disk.length, D.id] [s.disk.length] []
          hdc3 hpc3 hnd3 hdok3 hpok3 hrok3 hid3
          (by
            intro j hj
            rcases List.mem_cons.mp hj with h1 | h1
            · exact Or.inr (h1 ▸ List.mem_cons_self _ _)
            · exact Or.inl (List.mem_singleton.mp h1))
          (Or.inr hLD2s3)
      have hgnl4 : getInst s4 nl = some NLD := by
        show getInst s3 nl = some NLD
        rw [hs3, getInst_setInst_ne _ hlfnl, hs2]
        refine getInst_setInst_self NLD ?_
        rw [hilen1, hnl]
        omega
      have hs4dlen : s4.disk.length = s.disk.length + 1 := by
        rw [hs4]
        dsimp only
        rw [List.length_set, hs3dlen]
      have hsz4 : ¬ PAGE_SIZE < encSize NLD := by
        refine encSize_ok ?_ ?_ ?_
        · show (List.drop 2 D.keys).length ≤ 4
          simp only [List.length_drop]
          omega
        · show ([] : List Nat).length ≤ 5
          simp
        · show (List.drop 2 D.values).length ≤ 4
          simp only [List.length_drop]
          omega
      have hid4 : NLD.id < s4.disk.length := by
        have : NLD.id = s.disk.length := rfl
        rw [hs4dlen]
        omega
      have hw2 := write_page_set hgnl4 hsz4 hid4
      rw [hw2] at h
      dsimp only at h
      set s5 : DBState := { s4 with disk := s4.disk.set NLD.id NLD }
        with hs5
      have hNLDs4 : Shaped s4.disk.length Bal NLD := by
        rw [hs4dlen, ← hdlen1]
        exact hNLDsh
      obtain ⟨hdc5, hpc5, hnd5, hdok5, hpok5, hrok5⟩ :=
        @disk_set_clauses s4 NLD [s.disk.length] [] [] hdc4 hpc4 hnd4
          hdok4 hpok4 hrok4 hid4
          (by
            intro j hj
            refine Or.inl ?_
            have : NLD.id = s.disk.length := rfl
            rw [this]
            exact List.mem_singleton.mp hj)
          (Or.inr hNLDs4)
      have hs5dlen : s5.disk.length = s.disk.length + 1 := by
        rw [hs5]
        dsimp only
        rw [List.length_set, hs4dlen]
      have hgl5 : getInst s5 leaf = some LD2 := by
        show getInst s3 leaf = some LD2
        exact hLD23
      have hgnl5 : getInst s5 nl = some NLD := by
        show getInst s3 nl = some NLD
        exact hgnl4
      have hstep : StepOK s5 (.fromChild leaf upKey nl) := by
        refine ⟨⟨hdc5, hpc5, hnd5, hdok5, hpok5, hrok5⟩, LD2, NLD,
          hgl5, hgnl5, ?_, ?_, ?_, ?_, ?_, ?_⟩
        · rw [hs5dlen, ← hs3dlen]
          exact hLD2s3
        · rw [hs5dlen, ← hs4dlen]
          exact hNLDs4
        · show D.id < s5.disk.length
          rw [hs5dlen]
          omega
        · show NLD.id < s5.disk.length
          have : NLD.id = s.disk.length := rfl
          rw [hs5dlen, this]
          omega
        · show D.id ≠ NLD.id
          have : NLD.id = s.disk.length := rfl
          omega
        · intro q hq
          have hq2 : D.parent_id = some q := hq
          obtain ⟨h1, _⟩ := hparb q hq2
          have : NLD.id = s.disk.length := rfl
          omega
      obtain ⟨hinv, hlen⟩ := upward_ok fuel s5 _ t hstep h
      refine ⟨hinv, ?_⟩
      rw [hs5dlen] at hlen
      omega
/-- `BPlusTree::insert` preserves the full state invariant. -/
lemma insert_ok {s t : DBState} {k : Int} {v : Nat} (hinv : Inv s)
    (h : BPlusTree.insert s k v = some t) : Inv t := by
  obtain ⟨hdc, hpc, hnd0, hdok, hpok, hrok⟩ := hinv
  have hORD : ORDER = 4 := rfl
  unfold BPlusTree.insert at h
  dsimp only at h
  cases hroot : s.root with
  | none =>
    rw [hroot] at h
    dsimp only at h
    cases halloc : BufferPool.allocate_page s .Leaf with
    | none =>
      rw [halloc] at h
      exact absurd h (by simp)
    | some pr =>
      obtain ⟨s1, li⟩ := pr
      rw [halloc] at h
      dsimp only at h
      obtain ⟨hdc1, hpc1, hnd1, hdok1, hpok1, hrok1, hdlen1, hroot1, hcap1,
        hli, hilen1, hpres1, hgli⟩ :=
        allocate_clauses hdc hpc hnd0 hdok hpok hrok halloc
      rw [hgli] at h
      dsimp only at h
      set LD0 : PageData :=
        { PageData.blank s.disk.length NodeType.Leaf with
          keys := [k], values := [v] } with hLD0
      set s2 : DBState := setInst s1 li LD0 with hs2
      have hLD0sh : Shaped s1.disk.length Bal LD0 := by
        rw [hdlen1]
        refine ⟨?_, ?_, ?_, ?_⟩
        · unfold Bal
          show (([] : List Nat) = [] ∧
            ([v] : List Nat).length = ([k] : List Int).length ∧
            1 ≤ ([k] : List Int).length ∧
            ([k] : List Int).length ≤ ORDER - 1)
          rw [hORD]
          refine ⟨rfl, rfl, ?_, ?_⟩ <;> simp
        · exact List.not_mem_nil _
        · intro c hc
          exact absurd hc (List.not_mem_nil _)
        · intro q hq
          exact Option.noConfusion
            (show (none : Option Nat) = some q from hq)
      obtain ⟨hdc2, hpc2, hnd2, hdok2, hpok2, hrok2⟩ :=
        @setInst_clauses s1 li (PageData.blank s.disk.length NodeType.Leaf)
          LD0 [s.disk.length] [li] [] hdc1 hpc1 hnd1 hdok1 hpok1
          (rootOK_weaken hrok1 (fun x hx => absurd hx (List.not_mem_nil _)))
          hgli rfl
          (by
            intro y hy
            exact Or.inl (List.mem_singleton.mp hy))
          (Or.inr hLD0sh)
      have hgl2 : getInst s2 li = some LD0 := by
        rw [hs2]
        refine getInst_setInst_self LD0 ?_
        rw [hilen1, hli]
        omega
      have hs2dlen : s2.disk.length = s.disk.length + 1 := by
        rw [hs2, (setInst_fields _ _ _).2.1]
        exact hdlen1
      have hsz2 : ¬ PAGE_SIZE < encSize LD0 := by
        refine encSize_ok ?_ ?_ ?_ <;> simp [hLD0, PageData.blank]
      have hid2 : LD0.id < s2.disk.length := by
        have : LD0.id = s.disk.length := rfl
        rw [hs2dlen]
        omega
      have hw := write_page_set hgl2 hsz2 hid2
      rw [hw] at h
      dsimp only at h
      injection h with h
      subst h
      set s3 : DBState := { s2 with disk := s2.disk.set LD0.id LD0 }
        with hs3
      have hLD0s2 : Shaped s2.disk.length Bal LD0 := by
        rw [hs2dlen, ← hdlen1]
        exact hLD0sh
      obtain ⟨hdc3, hpc3, hnd3, hdok3, hpok3, hrok3⟩ :=
        @disk_set_clauses s2 LD0 [s.disk.length] [] [] hdc2 hpc2 hnd2
          hdok2 hpok2 hrok2 hid2
          (by
            intro j hj
            refine Or.inl ?_
            have : LD0.id = s.disk.length := rfl
            rw [this]
            exact List.mem_singleton.mp hj)
          (Or.inr hLD0s2)
      refine ⟨hdc3, hpc3, hnd3, hdok3, hpok3, ?_⟩
      intro r0 hr0
      have hr0' : some li = some r0 := hr0
      injection hr0' with hr0'
      subst hr0'
      refine ⟨LD0, ?_, ?_, ?_⟩
      · show getInst s2 li = some LD0
        exact hgl2
      · show LD0.id < s3.disk.length
        rw [hs3]
        dsimp only
        rw [List.length_set]
        exact hid2
      · intro hX
        show Shaped s3.disk.length Bal LD0
        rw [hs3]
        dsimp only
        rw [List.length_set]
        exact hLD0s2
  | some rt =>
    rw [hroot] at h
    dsimp only at h
    cases hfl : BPlusTree.find_leaf_page (BPlusTree.opFuel s) s k with
    | none =>
      rw [hfl] at h
      exact absurd h (by simp)
    | some pr =>
      obtain ⟨s1, leaf⟩ := pr
      rw [hfl] at h
      dsimp only at h
      unfold BPlusTree.find_leaf_page at hfl
      rw [hroot] at hfl
      obtain ⟨rpd, hrpd, hrplt, hrpsh0⟩ := hrok rt hroot
      have hrpsh := hrpsh0 (List.not_mem_nil _)
      obtain ⟨hdc1, hpc1, hnd1, hdok1, hpok1, hrok1, hdisk1, hroot1, hcap1,
        hlen1, d, hd, hdsh, hdnt, hdlt⟩ :=
        find_leaf_loop_ok (BPlusTree.opFuel s) k s rt s1 leaf hdc hpc hnd0
          hdok hpok hrok ⟨rpd, hrpd, hrpsh, hrplt⟩ hfl
      rw [hd] at h
      dsimp only at h
      have hbal := hdsh.1
      unfold Bal at hbal
      rw [hdnt] at hbal
      dsimp only at hbal
      obtain ⟨hch0, hvlen, hk1, hk3⟩ := hbal
      cases hvk : vecInsert (rustBinarySearch d.keys k).pos k d.keys with
      | none =>
        rw [hvk] at h
        cases hvv : vecInsert (rustBinarySearch d.keys k).pos v
            d.values with
        | none =>
          rw [hvv] at h
          exact absurd h (by simp)
        | some nv =>
          rw [hvv] at h
          exact absurd h (by simp)
      | some nk =>
        cases hvv : vecInsert (rustBinarySearch d.keys k).pos v
            d.values with
        | none =>
          rw [hvk, hvv] at h
          exact absurd h (by simp)
        | some nv =>
          rw [hvk, hvv] at h
          dsimp only at h
          obtain ⟨hnk_len, hnk_mem⟩ := vecInsert_some hvk
          obtain ⟨hnv_len, hnv_mem⟩ := vecInsert_some hvv
          set D2 : PageData := { d with keys := nk, values := nv }
            with hD2
          set s2 : DBState := setInst s1 leaf D2 with hs2
          have hgl2 : getInst s2 leaf = some D2 := by
            rw [hs2]
            exact getInst_setInst_self D2 (getInst_lt hd)
          have hs2disk : s2.disk = s.disk := by
            rw [hs2]
            show s1.disk = s.disk
            exact hdisk1
          have hsz2 : ¬ PAGE_SIZE < encSize D2 := by
            refine encSize_ok ?_ ?_ ?_
            · show nk.length ≤ 4
              omega
            · show d.children.length ≤ 5
              rw [hch0]
              simp
            · show nv.length ≤ 4
              omega
          have hid2 : D2.id < s2.disk.length := by
            have : D2.id = d.id := rfl
            rw [hs2disk]
            omega
          have hw := write_page_set hgl2 hsz2 hid2
          rw [hw] at h
          dsimp only at h
          set s3 : DBState := { s2 with disk := s2.disk.set D2.id D2 }
            with hs3
          have hD2struct : D2.id ∉ D2.children ∧
              (∀ c ∈ D2.children, c < s.disk.length) ∧
              (∀ q, D2.parent_id = some q →
                q < s.disk.length ∧ q ≠ D2.id) := by
            refine ⟨?_, ?_, ?_⟩
            · show d.id ∉ d.children
              rw [hch0]
              exact List.not_mem_nil _
            · intro c hc
              have hc2 : c ∈ d.children := hc
              rw [hch0] at hc2
              exact absurd hc2 (List.not_mem_nil _)
            · intro q hq
              exact hdsh.2.2.2 q hq
          by_cases hbig : ORDER - 1 < nk.length
          · rw [if_pos hbig] at h
            have hD2big : Shaped s.disk.length BigL D2 := by
              refine ⟨⟨hdnt, ?_, ?_, ?_⟩, hD2struct.1, hD2struct.2.1,
                hD2struct.2.2⟩
              · show d.children = []
                exact hch0
              · show nv.length = nk.length
                omega
              · show nk.length = ORDER
                omega
            obtain ⟨hdc2, hpc2, hnd2, hdok2, hpok2, hrok2⟩ :=
              @setInst_clauses s1 leaf d D2 [] [] [leaf] hdc1 hpc1 hnd1
                hdok1 hpok1 hrok1 hd rfl
                (fun x hx => absurd hx (List.not_mem_nil _))
                (Or.inl (List.mem_cons_self _ _))
            obtain ⟨hdc3, hpc3, hnd3, hdok3, hpok3, hrok3⟩ :=
              @disk_set_clauses s2 D2 [] [D2.id] [leaf] hdc2 hpc2 hnd2
                hdok2 hpok2 hrok2 hid2
                (fun j hj => absurd hj (List.not_mem_nil _))
                (Or.inl (List.mem_cons_self _ _))
            have hgl3 : getInst s3 leaf = some D2 := by
              show getInst s2 leaf = some D2
              exact hgl2
            have hs3dlen : s3.disk.length = s.disk.length := by
              rw [hs3]
              dsimp only
              rw [List.length_set, hs2disk]
            have hD2lt3 : D2.id < s3.disk.length := by
              rw [hs3dlen]
              have : D2.id = d.id := rfl
              omega
            have hD2big3 : Shaped s3.disk.length BigL D2 := by
              rw [hs3dlen]
              exact hD2big
            have hdok3' : DiskOK s3 [D2.id] := hdok3
            obtain ⟨hinv, _⟩ := split_leaf_ok hdc3 hpc3 hnd3 hgl3
              hD2lt3 hD2big3 hdok3' hpok3 hrok3 h
            exact hinv
          · rw [if_neg hbig] at h
            injection h with h
            subst h
            have hD2sh : Shaped s1.disk.length Bal D2 := by
              rw [hdisk1]
              refine ⟨?_, hD2struct.1, hD2struct.2.1, hD2struct.2.2⟩
              unfold Bal
              have hnt2 : D2.nodeType = NodeType.Leaf := hdnt
              rw [hnt2]
              dsimp only
              refine ⟨?_, ?_, ?_, ?_⟩
              · show d.children = []
                exact hch0
              · show nv.length = nk.length
                omega
              · show 1 ≤ nk.length
                omega
              · show nk.length ≤ ORDER - 1
                omega
            obtain ⟨hdc2, hpc2, hnd2, hdok2, hpok2, hrok2⟩ :=
              @setInst_clauses s1 leaf d D2 [] [] [] hdc1 hpc1 hnd1
                hdok1 hpok1 hrok1 hd rfl
                (fun x hx => absurd hx (List.not_mem_nil _))
                (Or.inr hD2sh)
            have hD2s2 : Shaped s2.disk.length Bal D2 := by
              have : s2.disk.length = s1.disk.length := by
                rw [hs2, (setInst_fields _ _ _).2.1]
              rw [this]
              exact hD2sh
            obtain ⟨hdc3, hpc3, hnd3, hdok3, hpok3, hrok3⟩ :=
              @disk_set_clauses s2 D2 [] [] [] hdc2 hpc2 hnd2
                hdok2 hpok2 hrok2 hid2
                (fun j hj => absurd hj (List.not_mem_nil _))
                (Or.inr hD2s2)
            exact ⟨hdc3, hpc3, hnd3, hdok3, hpok3, hrok3⟩
lemma emptyDB_inv : Inv emptyDB := by
  refine ⟨?_, ?_, ?_, ?_, ?_, ?_⟩
  · intro j hj
    exact absurd hj (by simp [emptyDB, BPlusTree.new])
  · intro e he
    simp [emptyDB, BPlusTree.new] at he
  · show ((emptyDB.pool.map Prod.fst)).Nodup
    simp [emptyDB, BPlusTree.new]
  · intro j pd hj _
    simp [emptyDB, BPlusTree.new] at hj
  · intro e he _ pd _
    simp [emptyDB, BPlusTree.new] at he
  · intro r hr
    simp [emptyDB, BPlusTree.new] at hr

lemma applyInserts_ok : ∀ (script : List (Int × Nat)) (s t : DBState),
    Inv s → applyInserts s script = some t → Inv t := by
  intro script
  induction script with
  | nil =>
    intro s t hinv h
    rw [applyInserts] at h
    injection h with h
    subst h
    exact hinv
  | cons p rest ih =>
    obtain ⟨k, v⟩ := p
    intro s t hinv h
    rw [applyInserts] at h
    cases hi : BPlusTree.insert s k v with
    | none =>
      rw [hi] at h
      exact absurd h (by simp)
    | some s1 =>
      rw [hi] at h
      exact ih s1 t (insert_ok hinv hi) h

/-- C6: after any sequence of completed `insert` calls into a fresh tree,
every page observable through the system (the cached instance when the id
is pooled, the persisted page otherwise) holds between
`ceil(ORDER/2) - 1 = 1` and `ORDER - 1 = 3` keys — in particular every
non-root page does — and every internal page has exactly one more child
than keys. -/
theorem BPlusTree.fanout_invariant (script : List (Int × Nat))
    (s' : DBState) (h : applyInserts emptyDB script = some s') :
    ∀ p pd, pageView s' p = some pd →
      (1 ≤ pd.keys.length ∧ pd.keys.length ≤ ORDER - 1) ∧
      (pd.nodeType = .Internal →
        pd.children.length = pd.keys.length + 1) := by
  obtain ⟨hdc, hpc, hnd, hdok, hpok, hrok⟩ :=
    applyInserts_ok script emptyDB s' emptyDB_inv h
  intro p pd hp
  unfold pageView at hp
  have hbal : Bal pd := by
    cases halk : alookup s'.pool p with
    | some i =>
      rw [halk] at hp
      have hmem := alookup_mem halk
      exact (hpok _ hmem (List.not_mem_nil _) pd hp).1
    | none =>
      rw [halk] at hp
      exact (hdok p pd hp (List.not_mem_nil _)).1
  unfold Bal at hbal
  cases hnt : pd.nodeType with
  | Leaf =>
    rw [hnt] at hbal
    dsimp only at hbal
    obtain ⟨h1, h2, h3, h4⟩ := hbal
    refine ⟨⟨h3, h4⟩, ?_⟩
    intro hh
    exact absurd hh (by simp)
  | Internal =>
    rw [hnt] at hbal
    dsimp only at hbal
    obtain ⟨h1, h2, h3, h4⟩ := hbal
    exact ⟨⟨h3, h4⟩, fun _ => h2⟩

/-- Witness for `BPlusTree.fanout_invariant`: one insert into a fresh tree,
checked at the resulting root leaf page. -/
theorem BPlusTree.fanout_invariant_witness :
    applyInserts emptyDB [(1, 10)] = some
      ⟨[⟨0, .Leaf, [1], [], [10], none, none⟩], [(0, 0)], [0],
        [⟨0, .Leaf, [1], [], [10], none, none⟩], some 0, 100⟩ ∧
    ((1 ≤ (⟨0, .Leaf, [1], [], [10], none, none⟩ : PageData).keys.length ∧
      (⟨0, .Leaf, [1], [], [10], none, none⟩
        : PageData).keys.length ≤ ORDER - 1) ∧
     ((⟨0, .Leaf, [1], [], [10], none, none⟩
        : PageData).nodeType = .Internal →
      (⟨0, .Leaf, [1], [], [10], none, none⟩
        : PageData).children.length =
        (⟨0, .Leaf, [1], [], [10], none, none⟩
          : PageData).keys.length + 1)) :=
  ⟨by decide,
    BPlusTree.fanout_invariant [(1, 10)]
      ⟨[⟨0, .Leaf, [1], [], [10], none, none⟩], [(0, 0)], [0],
        [⟨0, .Leaf, [1], [], [10], none, none⟩], some 0, 100⟩
      (by decide) 0 ⟨0, .Leaf, [1], [], [10], none, none⟩ (by decide)⟩

end Nikke
